import Mathlib

/-!
# squeezelite-esp32: the wifi-manager HTTP server

A shallow embedding of `components/wifi-manager/http_server.c`.

* Memory is a list of bytes, a pointer is an index into it, and a byte read
  past the end of the list reads as NUL (the list is the memory up to the
  first NUL that follows the data the code looks at).
* The receive buffer `buf` holds the `buflen` received bytes `rcv`; the code
  never writes a terminator after them, so what follows them in memory is a
  parameter `tail` of the model and the memory seen by the string functions
  is `rcv ++ tail`.
* Calls on the connection and on the collaborators (wifi manager, config
  store) are recorded, in program order, as a list of `Effect`s.  What the
  collaborators answer is read from an `Env`.
* The libc functions (`strstr`, `strcasestr`, `strtok_r`, `strncpy`,
  `strlcpy`, `snprintf`) are modelled by their C library contract; where POSIX
  leaves the value of `save_ptr` open, `strtok_r` is that of newlib, the C
  library of the ESP32 target, which stores NULL.
  Allocations whose result the code does not test (`malloc` of `host` and of
  `new_host_name`, `strdup`, `realloc`) are taken to succeed; the two that it
  tests are outcomes of the `Env`.  Results of `netconn_write` are not read by
  the code, and logging has no effect on the connection.
* The helper `strreplace` of the same file works on C strings given by their
  characters, and records a write outside its local array.
* The function `process_autoexec` of `main/console.c` is embedded in the
  namespace `Console`, after the definitions of the HTTP server.
-/

namespace HttpServer

/-! ## C strings -/

/-- The terminating byte of a C string. -/
def NUL : Char := Char.ofNat 0

/-- The byte `*p`. -/
def rd (mem : List Char) (p : Nat) : Char := mem.getD p NUL

/-- The C string that starts at `p`: the bytes up to the first NUL. -/
def cstr (mem : List Char) (p : Nat) : List Char :=
  (mem.drop p).takeWhile (fun c => c != NUL)

/-- Offset of the first occurrence of `needle` in `hay`, both without their
terminator; an empty needle is found at offset 0. -/
def findSub : List Char → List Char → Option Nat
  | [], needle => if needle.isEmpty then some 0 else none
  | c :: cs, needle =>
    if needle.isPrefixOf (c :: cs) then some 0 else (findSub cs needle).map (· + 1)

/-- The libc `strstr(p, needle)`: a pointer to the first occurrence of `needle`
in the C string at `p`, or NULL. -/
def strstr (mem : List Char) (p : Nat) (needle : List Char) : Option Nat :=
  (findSub (cstr mem p) needle).map (· + p)

/-- The libc `tolower` of the C locale. -/
def tolower (c : Char) : Char :=
  if 65 ≤ c.toNat ∧ c.toNat ≤ 90 then Char.ofNat (c.toNat + 32) else c

/-- The libc `strcasestr(hay, needle) != NULL` on two C strings. -/
def strcasestr (hay needle : List Char) : Bool :=
  (findSub (hay.map tolower) (needle.map tolower)).isSome

/-- The test `strstr(line, pat)` of the dispatcher, on the request line. -/
def lineHas (line pat : List Char) : Bool := (findSub line pat).isSome

/-- The libc `strncpy(dst, src, n)` into a zeroed buffer of `n + 1` bytes, read
back as a C string. -/
def strncpy (src : List Char) (n : Nat) : List Char :=
  (src.take n).takeWhile (fun c => c != NUL)

/-- A loop `while (cont(*ptr) && ptr < bufEnd) ptr++` (without the bound when
`bufEnd` is `none`), run over the bytes from `ptr` on; the result is the final
`ptr`.  Every `cont` of the source is false at NUL, which is what a read past
the modelled memory gives. -/
def scan (cont : Char → Bool) (bufEnd : Option Nat) : List Char → Nat → Nat
  | [], ptr => ptr
  | c :: cs, ptr =>
    if cont c && (match bufEnd with
                  | some e => decide (ptr < e)
                  | none => true)
    then scan cont bufEnd cs (ptr + 1) else ptr

/-- Result of the first `strtok_r(buf, "\n", &save_ptr)`. -/
structure Tok where
  /-- The token, NULL when the string holds no byte other than the delimiter. -/
  line : Option (List Char)
  /-- The value left in `save_ptr` when it is not NULL: the byte after the
  delimiter that ends the token.  When NULL is left (see `save_ptr_null`) this
  is the position of the terminator, which the code does not get to use. -/
  save_ptr : Nat
  mem : List Char
  /-- Whether NULL is left in `save_ptr` instead: there is no token, or the
  token runs to the terminator. -/
  save_ptr_null : Bool
deriving DecidableEq

/-- The libc `strtok_r(buf, "\n", &save_ptr)` called on the start of the
buffer: leading delimiters are skipped, the token runs to the next delimiter,
which is overwritten with NUL, and `save_ptr` is the byte after it.  POSIX
leaves `save_ptr` open when there is no token and when the token runs to the
end of the string; newlib, the C library of the ESP32 target, stores NULL in
both cases, and that is what the model records in `save_ptr_null`. -/
def strtok_r (mem : List Char) : Tok :=
  let start := (mem.takeWhile (fun c => c == '\n')).length
  let tok := (mem.drop start).takeWhile (fun c => c != '\n' && c != NUL)
  if tok.isEmpty then ⟨none, start, mem, true⟩
  else
    let stop := start + tok.length
    if rd mem stop == '\n' then ⟨some tok, stop + 1, mem.set stop NUL, false⟩
    else ⟨some tok, stop, mem, true⟩

/-! ## Header constants (lines 83-92) -/

def http_hdr_template_1 : List Char := "HTTP/1.1 200 OK\nContent-type: ".toList
def http_hdr_template_2 : List Char := "\nAccept-Ranges: bytes\nContent-Length: ".toList
def http_hdr_template_3 : List Char := "\nContent-Encoding: ".toList
def http_hdr_template_4 : List Char := "\nAccess-Control-Allow-Origin: *\n\n".toList

/-- The value of `strlen(http_hdr_template)`: the four literal pieces and the
conversions `%s`, `%d`, `%s`. -/
def http_hdr_template_length : Nat :=
  http_hdr_template_1.length + 2 + http_hdr_template_2.length + 2
    + http_hdr_template_3.length + 2 + http_hdr_template_4.length

def http_html_hdr : List Char :=
  "HTTP/1.1 200 OK\nContent-type: text/html\nAccess-Control-Allow-Origin: *\nAccept-Encoding: identity\n\n".toList
def http_css_hdr : List Char :=
  "HTTP/1.1 200 OK\nContent-type: text/css\nCache-Control: public, max-age=31536000\nAccess-Control-Allow-Origin: *\n\n".toList
def http_js_hdr : List Char :=
  "HTTP/1.1 200 OK\nContent-type: text/javascript\nAccess-Control-Allow-Origin: *\n\n".toList
def http_400_hdr : List Char := "HTTP/1.1 400 Bad Request\nContent-Length: 0\n\n".toList
def http_404_hdr : List Char := "HTTP/1.1 404 Not Found\nContent-Length: 0\n\n".toList
def http_503_hdr : List Char := "HTTP/1.1 503 Service Unavailable\nContent-Length: 0\n\n".toList
def http_ok_json_no_cache_hdr : List Char :=
  "HTTP/1.1 200 OK\nContent-type: application/json\nCache-Control: no-store, no-cache, must-revalidate, max-age=0\nPragma: no-cache\nAccess-Control-Allow-Origin: *\nAccept-Encoding: identity\n\n".toList
def http_redirect_hdr_start : List Char := "HTTP/1.1 302 Found\nLocation: http://".toList
def http_redirect_hdr_end : List Char := "/\n\n".toList

/-! ## Effects and environment -/

/-- The argument of `wifi_manager_reboot`. -/
inductive RebootMode where
  | OTA | RESTART | RECOVERY
deriving DecidableEq

/-- A call on the connection or on a collaborator. -/
inductive Effect where
  /-- The call `netconn_write(conn, bytes, |bytes|, NETCONN_NOCOPY)`. -/
  | write (bytes : List Char)
  /-- The call `netconn_close(conn)`. -/
  | close
  | wifi_manager_lock_sta_ip_string
  | wifi_manager_unlock_sta_ip_string
  /-- The call `wifi_manager_lock_json_buffer(10)`, with its result. -/
  | wifi_manager_lock_json_buffer (ok : Bool)
  | wifi_manager_unlock_json_buffer
  | wifi_manager_scan_async
  /-- The call `wifi_manager_connect_async()`, with the bytes copied into the
  zeroed station config just before. -/
  | wifi_manager_connect_async (ssid password : List Char)
  | wifi_manager_disconnect_async
  | wifi_manager_reboot (mode : RebootMode)
  | wifi_manager_reboot_ota (url : List Char)
  /-- The call `config_set_value(NVS_TYPE_STR, key, value)`. -/
  | config_set_value (key value : List Char)
deriving DecidableEq

/-- What the collaborators answer during one invocation, the embedded assets
and the constants of headers that are not part of the sources. -/
structure Env where
  /-- Result of `config_alloc_get_default(NVS_TYPE_STR, "ap_ip_address", ..)`. -/
  ap_ip_address : Option (List Char)
  /-- Result of `wifi_manager_get_sta_ip_string()`. -/
  sta_ip_string : List Char
  /-- The name `tcpip_adapter_get_hostname` yields, NULL when it yields none. -/
  host_name : Option (List Char)
  /-- Result of `wifi_manager_lock_json_buffer(10)`. -/
  json_lock : Bool
  /-- Result of `wifi_manager_alloc_get_ap_list_json()`. -/
  ap_list_json : Option (List Char)
  /-- Result of `wifi_manager_alloc_get_ip_info_json()`. -/
  ip_info_json : Option (List Char)
  /-- Result of `config_alloc_get_json(false)`. -/
  config_json : Option (List Char)
  /-- Whether `malloc` of the header of `http_server_send_resource_file` succeeds. -/
  hdr_alloc : Bool
  /-- Whether `malloc` of the parameter name succeeds in the n-th (from 0)
  call of `http_server_search_header`. -/
  name_alloc : Nat → Bool
  index_html : List Char
  code_js : List Char
  style_css : List Char
  jquery_gz : List Char
  popper_gz : List Char
  bootstrap_js_gz : List Char
  bootstrap_css_gz : List Char
  MAX_SSID_SIZE : Nat
  MAX_PASSWORD_SIZE : Nat

/-- The bytes written to the connection, in order. -/
def written : List Effect → List Char
  | [] => []
  | Effect.write b :: es => b ++ written es
  | _ :: es => written es

/-! ## Header extraction (lines 131-200) -/

/-- The function `http_server_get_header(request, header_name, &len)`: the
returned pointer (NULL, as `none`, when the name does not occur) and `*len`.
The memory is not written. -/
def http_server_get_header (mem : List Char) (request : Nat) (header_name : List Char) :
    Option Nat × Nat :=
  match strstr mem request header_name with
  | some ptr =>
    let ret := ptr + header_name.length
    let stop := scan (fun c => c != NUL && c != '\n' && c != '\r') none (mem.drop ret) ret
    (some ret, stop - ret)
  | none => (none, 0)

/-- What one call of `http_server_search_header` leaves behind. -/
structure SearchOut where
  /-- The returned pointer, NULL as `none`. -/
  ret : Option Nat
  /-- The value of `*len`. -/
  len : Nat
  /-- The value of `*parm_name`, which is NULL on entry at the only call site. -/
  parm_name : Option (List Char)
  /-- The value written to `*next_position`, `none` when it is not written. -/
  next_position : Option Nat
  /-- The index at which NUL is written, `none` when nothing is written. -/
  nul_at : Option Nat
  /-- The memory after the call. -/
  mem : List Char
deriving DecidableEq

/-- Lines 185-196 of `http_server_search_header`: the value runs from `ret` to
the first NUL, line terminator or `bufEnd`; that byte is overwritten with NUL
and `*next_position` is the byte after it. -/
def search_value (mem : List Char) (bufEnd : Nat) (ret : Nat) (name : Option (List Char)) :
    SearchOut :=
  let ptr := scan (fun c => c != NUL && c != '\n' && c != '\r') (some bufEnd) (mem.drop ret) ret
  { ret := some ret, len := ptr - ret, parm_name := name, next_position := some (ptr + 1),
    nul_at := some ptr, mem := mem.set ptr NUL }

/-- The function `http_server_search_header(request, header_name, &len,
&parm_name, &next_position, bufEnd)`; `alloc_ok` tells whether the `malloc` of
the parameter name succeeds. -/
def http_server_search_header (mem : List Char) (request : Nat) (header_name : List Char)
    (bufEnd : Nat) (alloc_ok : Bool) : SearchOut :=
  let notFound : SearchOut :=
    { ret := none, len := 0, parm_name := none, next_position := none, nul_at := none, mem := mem }
  match strstr mem request header_name with
  | none => notFound
  | some found =>
    if found < bufEnd then
      let ret := found + header_name.length
      let ptr := scan (fun c => c != NUL && c != '\n' && c != '\r' && c != ':') (some bufEnd)
        (mem.drop ret) ret
      if rd mem ptr == ':' then
        if alloc_ok then
          let name := strncpy (mem.drop ret) (ptr - ret)
          let ptr2 := scan (fun c => c == ' ') (some bufEnd) (mem.drop (ptr + 1)) (ptr + 1)
          search_value mem bufEnd ptr2 (some name)
        else notFound
      else search_value mem bufEnd ptr none
    else notFound

/-! ## Responses (lines 201-234) -/

/-- Decimal digits of `n`, most significant first, as `%d` prints them. -/
def decimalAux : Nat → Nat → List Char → List Char
  | 0, _, acc => acc
  | fuel + 1, n, acc =>
    if n < 10 then Char.ofNat (48 + n) :: acc
    else decimalAux fuel (n / 10) (Char.ofNat (48 + n % 10) :: acc)

/-- The text `%d` prints for a non-negative `n`. -/
def decimal (n : Nat) : List Char := decimalAux (n + 1) n []

/-- The text `http_hdr_template` formats to. -/
def format_hdr (content_type : List Char) (len : Nat) (encoding : List Char) : List Char :=
  http_hdr_template_1 ++ content_type ++ http_hdr_template_2 ++ decimal len
    ++ http_hdr_template_3 ++ encoding ++ http_hdr_template_4

/-- The function `http_server_send_resource_file(conn, start, end, content_type,
encoding)` for the asset `asset = start[0 .. end - start)`.  `len` is a `uint16_t`, and
`snprintf` with size `buff_length - 1` keeps at most `buff_length - 2`
characters. -/
def http_server_send_resource_file (env : Env) (asset content_type encoding : List Char) :
    List Effect :=
  let len := asset.length % 65536
  let buff_length := (http_hdr_template_length + 1) + content_type.length + encoding.length
  if env.hdr_alloc then
    [Effect.write ((format_hdr content_type len encoding).take (buff_length - 2)),
     Effect.write asset]
  else [Effect.write http_503_hdr]

/-- The function `http_server_send_config_json(conn)`. -/
def http_server_send_config_json (env : Env) : List Effect :=
  match env.config_json with
  | some json => [Effect.write http_ok_json_no_cache_hdr, Effect.write json]
  | none => [Effect.write http_503_hdr]

/-! ## The routes of `http_server_netconn_serve` (lines 389-594) -/

/-- State of the locals of the `POST /config.json` branch after its loop. -/
structure ConfigLoop where
  /-- The calls made by the loop, in order. -/
  effects : List Effect
  /-- The value of `otaURL`, `none` while `bOTA` is false. -/
  otaURL : Option (List Char)
  mem : List Char
deriving DecidableEq

/-- The loop `while(last_parm!=NULL)` of lines 462-485.  `n` counts the calls of
`http_server_search_header` made so far, `next_parm` is the scan position, and
`otaURL` is the copy `strdup(last_parm)` of the last `fwurl` value.  The result
is `none` when `fuel` iterations do not reach the exit of the loop. -/
def config_loop (env : Env) (bufEnd : Nat) :
    Nat → List Char → Nat → Nat → Option (List Char) → Option ConfigLoop
  | 0, _, _, _, _ => none
  | fuel + 1, mem, next_parm, n, otaURL =>
    let r := http_server_search_header mem next_parm "X-Custom-".toList bufEnd (env.name_alloc n)
    match r.ret, r.next_position with
    | some last_parm, some next =>
      match r.parm_name with
      | some last_parm_name =>
        if last_parm_name = "fwurl".toList then
          config_loop env bufEnd fuel r.mem next (n + 1) (some (cstr r.mem last_parm))
        else
          (config_loop env bufEnd fuel r.mem next (n + 1) otaURL).map fun s =>
            { s with effects :=
                Effect.config_set_value last_parm_name (cstr r.mem last_parm) :: s.effects }
      | none => config_loop env bufEnd fuel r.mem next (n + 1) otaURL
    | _, _ => some { effects := [], otaURL := otaURL, mem := r.mem }

/-- The branch `POST /config.json` (lines 450-503); `bErrorFound` is never set,
so the 400 of line 487 is not reachable.  The loop is given `bufEnd + 2`
iterations. -/
def route_post_config (env : Env) (mem : List Char) (save_ptr bufEnd : Nat) :
    Option (List Effect) :=
  (config_loop env bufEnd (bufEnd + 2) mem save_ptr 0 none).map fun s =>
    s.effects ++ [Effect.write http_ok_json_no_cache_hdr] ++
      (match s.otaURL with
       | some url => [Effect.wifi_manager_reboot_ota url]
       | none => [])

/-- The branch `POST /connect.json` (lines 504-544). -/
def route_post_connect (env : Env) (mem : List Char) (save_ptr : Nat) : List Effect :=
  let ssid := http_server_get_header mem save_ptr "X-Custom-ssid: ".toList
  let password := http_server_get_header mem save_ptr "X-Custom-pwd: ".toList
  let new_host_name_b := http_server_get_header mem save_ptr "X-Custom-host_name: ".toList
  let lenS := ssid.2
  let lenP := password.2
  let lenN := new_host_name_b.2
  (if lenN > 0 then
    match new_host_name_b.1 with
    | some h => [Effect.config_set_value "host_name".toList (strncpy (mem.drop h) lenN)]
    | none => []
   else []) ++
  (match ssid.1, password.1 with
   | some s, some p =>
     if lenS ≤ env.MAX_SSID_SIZE ∧ lenP ≤ env.MAX_PASSWORD_SIZE then
       [Effect.wifi_manager_connect_async ((mem.drop s).take lenS) ((mem.drop p).take lenP),
        Effect.write http_ok_json_no_cache_hdr]
     else [Effect.write http_400_hdr]
   | _, _ => [Effect.write http_400_hdr])

/-- The branch `GET /ap.json` (lines 419-443). -/
def route_get_ap (env : Env) : List Effect :=
  (if env.json_lock then
    [Effect.wifi_manager_lock_json_buffer true, Effect.write http_ok_json_no_cache_hdr,
     Effect.wifi_manager_unlock_json_buffer] ++
    (match env.ap_list_json with
     | some buff => [Effect.write buff]
     | none => [Effect.write http_503_hdr])
   else [Effect.wifi_manager_lock_json_buffer false, Effect.write http_503_hdr]) ++
  [Effect.wifi_manager_scan_async]

/-- The branch `GET /status.json` (lines 570-590). -/
def route_get_status (env : Env) : List Effect :=
  if env.json_lock then
    [Effect.wifi_manager_lock_json_buffer true, Effect.wifi_manager_unlock_json_buffer] ++
    (match env.ip_info_json with
     | some buff => [Effect.write http_ok_json_no_cache_hdr, Effect.write buff]
     | none => [Effect.write http_503_hdr])
  else [Effect.wifi_manager_lock_json_buffer false, Effect.write http_503_hdr]

/-- The `if / else if` chain of lines 389-594 on the request line `line`. -/
def dispatch (env : Env) (mem : List Char) (save_ptr bufEnd : Nat) (line : List Char) :
    Option (List Effect) :=
  if lineHas line "GET / ".toList then
    some [Effect.write http_html_hdr, Effect.write env.index_html]
  else if lineHas line "GET /code.js ".toList then
    some [Effect.write http_js_hdr, Effect.write env.code_js]
  else if lineHas line "GET /style.css ".toList then
    some [Effect.write http_css_hdr, Effect.write env.style_css]
  else if lineHas line "GET /jquery.js ".toList then
    some (http_server_send_resource_file env env.jquery_gz "text/javascript".toList "gzip".toList)
  else if lineHas line "GET /popper.js ".toList then
    some (http_server_send_resource_file env env.popper_gz "text/javascript".toList "gzip".toList)
  else if lineHas line "GET /bootstrap.js ".toList then
    some (http_server_send_resource_file env env.bootstrap_js_gz "text/javascript".toList
      "gzip".toList)
  else if lineHas line "GET /bootstrap.css ".toList then
    some (http_server_send_resource_file env env.bootstrap_css_gz "text/css".toList "gzip".toList)
  else if lineHas line "GET /scan.json ".toList then
    some [Effect.wifi_manager_scan_async]
  else if lineHas line "GET /ap.json ".toList then
    some (route_get_ap env)
  else if lineHas line "GET /config.json ".toList then
    some (http_server_send_config_json env)
  else if lineHas line "POST /config.json ".toList then
    route_post_config env mem save_ptr bufEnd
  else if lineHas line "POST /connect.json ".toList then
    some (route_post_connect env mem save_ptr)
  else if lineHas line "DELETE /connect.json ".toList then
    some [Effect.wifi_manager_disconnect_async, Effect.write http_ok_json_no_cache_hdr]
  else if lineHas line "POST /reboot_ota.json ".toList then
    some [Effect.write http_ok_json_no_cache_hdr, Effect.wifi_manager_reboot RebootMode.OTA]
  else if lineHas line "POST /reboot.json ".toList then
    some [Effect.write http_ok_json_no_cache_hdr, Effect.wifi_manager_reboot RebootMode.RESTART]
  else if lineHas line "POST /recovery.json ".toList then
    some [Effect.write http_ok_json_no_cache_hdr, Effect.wifi_manager_reboot RebootMode.RECOVERY]
  else if lineHas line "GET /status.json ".toList then
    some (route_get_status env)
  else
    some [Effect.write http_400_hdr]

/-! ## `http_server_netconn_serve` (lines 308-610) -/

/-- The string `host` of lines 355-360: empty when `lenH` is 0, else the copy
`strlcpy(host, temphost, lenH+1)` of the `lenH` bytes at `temphost`. -/
def host_value (mem : List Char) (temphost : Option Nat) (lenH : Nat) : List Char :=
  match temphost with
  | some p => if lenH > 0 then strncpy (mem.drop p) lenH else []
  | none => []

/-- The condition of line 380, with `access_from_sta_ip` and
`access_from_host_name` of lines 376 and 378. -/
def redirects (ap_ip_address : List Char) (env : Env) (lenH : Nat) (host : List Char) : Bool :=
  let access_from_sta_ip := if lenH > 0 then strcasestr host env.sta_ip_string else false
  let access_from_host_name :=
    match env.host_name with
    | some host_name => strcasestr host host_name
    | none => false
  decide (lenH > 0) && !strcasestr host ap_ip_address
    && !(access_from_sta_ip || access_from_host_name)

/-- Lines 349-603: what is done with a non-empty buffer.  Line 355 passes
`save_ptr` to `http_server_get_header`, whose `strstr` reads through it: when
`strtok_r` has left it NULL the invocation ends there, before any call on the
connection, and the result is `none`. -/
def serve_buffer (env : Env) (ap_ip_address : List Char) (rcv tail : List Char) :
    Option (List Effect) :=
  let t := strtok_r (rcv ++ tail)
  if t.save_ptr_null then none
  else
    let h := http_server_get_header t.mem t.save_ptr "Host: ".toList
    let lenH := h.2
    let host := host_value t.mem h.1 lenH
    match t.line with
    | some line =>
      let locks :=
        [Effect.wifi_manager_lock_sta_ip_string, Effect.wifi_manager_unlock_sta_ip_string]
      if redirects ap_ip_address env lenH host then
        some (locks ++ [Effect.write http_redirect_hdr_start, Effect.write ap_ip_address,
          Effect.write http_redirect_hdr_end])
      else
        (dispatch env t.mem t.save_ptr rcv.length line).map fun es => locks ++ es
    | none => some [Effect.write http_404_hdr]

/-- The function `http_server_netconn_serve(conn)` after its read loop: `rcv` are the
`buflen` bytes of `buf`, `tail` is what follows them in memory.  The result is
the trace of calls, `none` when the invocation does not reach its end: the
NULL `save_ptr` of line 355 is read through, or the loop of
`POST /config.json` does not end within its fuel. -/
def http_server_netconn_serve (env : Env) (rcv tail : List Char) : Option (List Effect) :=
  match env.ap_ip_address with
  | none => some [Effect.write http_503_hdr, Effect.close]
  | some ap_ip_address =>
    if rcv.length ≠ 0 then
      (serve_buffer env ap_ip_address rcv tail).map fun es => es ++ [Effect.close]
    else some [Effect.close]

/-! ## The read loop (lines 330-347) -/

/-- The locals of the read loop: `buf` holds the `buflen` bytes copied so far,
`bufsize` is the size of the allocation.  Both counters are `u16_t`. -/
structure RecvState where
  buf : List Char
  buflen : Nat
  bufsize : Nat
deriving DecidableEq

/-- The value of `bufsize` after lines 338-341 for a fragment of `rcvlen`
bytes.  The operands are promoted to `int`, so `rcvlen - bufsize` may be
negative; the sum is stored back into a `u16_t`. -/
def recv_bufsize (buflen bufsize rcvlen : Nat) : Nat :=
  if buflen + rcvlen > bufsize then
    let d : Int := (rcvlen : Int) - (bufsize : Int)
    (((bufsize : Int) + (if d < 2048 then 2048 else d)).toNat) % 65536
  else bufsize

/-- One pass of the inner loop for the fragment `frag` (lines 336-343).  The
result is `none` when `memcpy(buf + buflen, rcvbuf, rcvlen)` writes past the
`bufsize` bytes of the allocation. -/
def recv_append (s : RecvState) (frag : List Char) : Option RecvState :=
  let rcvlen := frag.length
  let bufsize := recv_bufsize s.buflen s.bufsize rcvlen
  if s.buflen + rcvlen ≤ bufsize then
    some { buf := s.buf ++ frag, buflen := (s.buflen + rcvlen) % 65536, bufsize := bufsize }
  else none

/-- The read loop over the fragments delivered by `netbuf_data`, in order. -/
def recv_loop : RecvState → List (List Char) → Option RecvState
  | s, [] => some s
  | s, frag :: frags =>
    match recv_append s frag with
    | some s1 => recv_loop s1 frags
    | none => none

/-! ## Requests and the route table, as the statements name them -/

/-- The request line of a received buffer: the token `line` of line 354 when a
line feed ends it, so that `save_ptr` points to the text that follows the
line; `none` when there is no token, and when the token runs to the terminator
and `save_ptr` is NULL. -/
def request_line (rcv tail : List Char) : Option (List Char) :=
  if (strtok_r (rcv ++ tail)).save_ptr_null then none else (strtok_r (rcv ++ tail)).line

/-- The value of `lenH` of line 355, for a request with a request line. -/
def request_lenH (rcv tail : List Char) : Nat :=
  let t := strtok_r (rcv ++ tail)
  (http_server_get_header t.mem t.save_ptr "Host: ".toList).2

/-- The extracted Host value: the string `host` of lines 356-360, for a
request with a request line. -/
def request_host (rcv tail : List Char) : List Char :=
  let t := strtok_r (rcv ++ tail)
  let h := http_server_get_header t.mem t.save_ptr "Host: ".toList
  host_value t.mem h.1 h.2

/-- Whether the request is answered with the redirect of lines 381-384. -/
def request_redirected (env : Env) (ap_ip_address : List Char) (rcv tail : List Char) : Bool :=
  redirects ap_ip_address env (request_lenH rcv tail) (request_host rcv tail)

/-- The two calls of lines 375 and 377, made for every request with a request
line. -/
def sta_ip_calls : List Effect :=
  [Effect.wifi_manager_lock_sta_ip_string, Effect.wifi_manager_unlock_sta_ip_string]

/-- The bytes of the redirect response for the AP address `ap`. -/
def redirect_response (ap : List Char) : List Char :=
  "HTTP/1.1 302 Found\nLocation: http://".toList ++ ap ++ "/\n\n".toList

/-- Letter-case-insensitive equality of two strings. -/
def eq_ignoring_case (a b : List Char) : Bool := a.map tolower == b.map tolower

/-- The route table of the specification: method and path of the 17 routes, in
priority order. -/
def route_names : List (List Char × List Char) :=
  [("GET".toList, "/".toList), ("GET".toList, "/code.js".toList),
   ("GET".toList, "/style.css".toList), ("GET".toList, "/jquery.js".toList),
   ("GET".toList, "/popper.js".toList), ("GET".toList, "/bootstrap.js".toList),
   ("GET".toList, "/bootstrap.css".toList), ("GET".toList, "/scan.json".toList),
   ("GET".toList, "/ap.json".toList), ("GET".toList, "/config.json".toList),
   ("POST".toList, "/config.json".toList), ("POST".toList, "/connect.json".toList),
   ("DELETE".toList, "/connect.json".toList), ("POST".toList, "/reboot_ota.json".toList),
   ("POST".toList, "/reboot.json".toList), ("POST".toList, "/recovery.json".toList),
   ("GET".toList, "/status.json".toList)]

/-- The pattern `"<METHOD> <PATH> "` of a route. -/
def route_pattern (r : List Char × List Char) : List Char := r.1 ++ ' ' :: (r.2 ++ [' '])

/-- The 17 patterns, in table order. -/
def route_patterns : List (List Char) := route_names.map route_pattern

/-- The line has the form `"<METHOD> <PATH> <VERSION>"` for a method and path
of the route table (any text counts as version). -/
def is_table_request (line : List Char) : Bool :=
  route_names.any fun r => (route_pattern r).isPrefixOf line

/-- The first pattern of the table, in table order, that occurs in the line. -/
def first_route (line : List Char) : Option (List Char) :=
  route_patterns.find? fun pat => lineHas line pat

/-- The route table with the behaviour of each route: the calls made for a
request whose text after the request line starts at `save_ptr`. -/
def route_table (env : Env) (mem : List Char) (save_ptr bufEnd : Nat) :
    List (List Char × Option (List Effect)) :=
  [("GET / ".toList, some [Effect.write http_html_hdr, Effect.write env.index_html]),
   ("GET /code.js ".toList, some [Effect.write http_js_hdr, Effect.write env.code_js]),
   ("GET /style.css ".toList, some [Effect.write http_css_hdr, Effect.write env.style_css]),
   ("GET /jquery.js ".toList,
     some (http_server_send_resource_file env env.jquery_gz "text/javascript".toList "gzip".toList)),
   ("GET /popper.js ".toList,
     some (http_server_send_resource_file env env.popper_gz "text/javascript".toList "gzip".toList)),
   ("GET /bootstrap.js ".toList,
     some (http_server_send_resource_file env env.bootstrap_js_gz "text/javascript".toList
       "gzip".toList)),
   ("GET /bootstrap.css ".toList,
     some (http_server_send_resource_file env env.bootstrap_css_gz "text/css".toList
       "gzip".toList)),
   ("GET /scan.json ".toList, some [Effect.wifi_manager_scan_async]),
   ("GET /ap.json ".toList, some (route_get_ap env)),
   ("GET /config.json ".toList, some (http_server_send_config_json env)),
   ("POST /config.json ".toList, route_post_config env mem save_ptr bufEnd),
   ("POST /connect.json ".toList, some (route_post_connect env mem save_ptr)),
   ("DELETE /connect.json ".toList,
     some [Effect.wifi_manager_disconnect_async, Effect.write http_ok_json_no_cache_hdr]),
   ("POST /reboot_ota.json ".toList,
     some [Effect.write http_ok_json_no_cache_hdr, Effect.wifi_manager_reboot RebootMode.OTA]),
   ("POST /reboot.json ".toList,
     some [Effect.write http_ok_json_no_cache_hdr, Effect.wifi_manager_reboot RebootMode.RESTART]),
   ("POST /recovery.json ".toList,
     some [Effect.write http_ok_json_no_cache_hdr, Effect.wifi_manager_reboot RebootMode.RECOVERY]),
   ("GET /status.json ".toList, some (route_get_status env))]

/-- The route table for a received request: the text after the request line
starts at `save_ptr` and the received bytes end at `buf + buflen`. -/
def request_route_table (env : Env) (rcv tail : List Char) :
    List (List Char × Option (List Effect)) :=
  route_table env (strtok_r (rcv ++ tail)).mem (strtok_r (rcv ++ tail)).save_ptr rcv.length

/-- The behaviour the table prescribes for a request line: that of the first
entry whose pattern occurs in the line, and the 400 header when there is none. -/
def table_behaviour (table : List (List Char × Option (List Effect))) (line : List Char) :
    Option (List Effect) :=
  match table.find? fun e => lineHas line e.1 with
  | some e => e.2
  | none => some [Effect.write http_400_hdr]

/-- An environment for the examples: AP address 192.168.4.1, station address
0.0.0.0, host name `squeezelite`, every lock and allocation succeeding. -/
def sample_env : Env :=
  { ap_ip_address := some "192.168.4.1".toList, sta_ip_string := "0.0.0.0".toList,
    host_name := some "squeezelite".toList, json_lock := true,
    ap_list_json := some "[]".toList, ip_info_json := some "{}".toList,
    config_json := some "{}".toList, hdr_alloc := true, name_alloc := fun _ => true,
    index_html := "<html></html>".toList, code_js := "js".toList, style_css := "css".toList,
    jquery_gz := "jq".toList, popper_gz := "po".toList, bootstrap_js_gz := "bj".toList,
    bootstrap_css_gz := "bc".toList, MAX_SSID_SIZE := 32, MAX_PASSWORD_SIZE := 64 }

/-! ## Header values, as the specification words them -/

/-- The text after the request line as the string functions read it: the C
string at `save_ptr`. -/
def request_text (rcv tail : List Char) : List Char :=
  cstr (strtok_r (rcv ++ tail)).mem (strtok_r (rcv ++ tail)).save_ptr

/-- The value of the header `name` in `text`, in the words of the
specification: the remainder of the line after the first occurrence of `name`,
up to and excluding the line terminator; `none` when `name` does not occur. -/
def header_value (text name : List Char) : Option (List Char) :=
  (findSub text name).map fun i =>
    (text.drop (i + name.length)).takeWhile fun c => c != '\n' && c != '\r'

/-! ## Custom fields, as the specification words them -/

/-- One custom field of a request: the line `X-Custom-<key>:<blanks><value>`
ended by `eol`, after a text `gap` that holds no custom field. -/
structure CustomField where
  gap : List Char
  key : List Char
  /-- The number of blanks between the colon and the value. -/
  spaces : Nat
  value : List Char
  /-- The byte after the value, a carriage return or a line feed. -/
  eol : Char
deriving DecidableEq

/-- The bytes of a custom field, its gap included. -/
def CustomField.text (f : CustomField) : List Char :=
  f.gap ++ ("X-Custom-".toList ++ (f.key ++ (':' :: (List.replicate f.spaces ' ' ++
    (f.value ++ [f.eol])))))

/-- Offset of the value in the bytes of a custom field. -/
def CustomField.value_offset (f : CustomField) : Nat :=
  f.gap.length + 9 + f.key.length + 1 + f.spaces

/-- A well-formed custom field: the gap holds neither NUL nor the prefix
`X-Custom-`, the key holds no NUL, line terminator or colon, the value holds no
NUL or line terminator and does not start with a blank, and the value is ended
by a carriage return or a line feed. -/
def CustomField.wf (f : CustomField) : Prop :=
  (∀ c ∈ f.gap, c ≠ NUL) ∧ ¬ "X-Custom-".toList <:+: f.gap ∧
  (∀ c ∈ f.key, c ≠ NUL ∧ c ≠ '\n' ∧ c ≠ '\r' ∧ c ≠ ':') ∧
  (∀ c ∈ f.value, c ≠ NUL ∧ c ≠ '\n' ∧ c ≠ '\r') ∧
  f.value.head? ≠ some ' ' ∧ (f.eol = '\n' ∨ f.eol = '\r')

instance (f : CustomField) : Decidable f.wf := by
  unfold CustomField.wf
  infer_instance

/-- The bytes of a sequence of custom fields followed by `rest`. -/
def render_fields (fs : List CustomField) (rest : List Char) : List Char :=
  fs.foldr (fun f acc => f.text ++ acc) rest

/-- The position in memory of the first byte after the request line: the
value of `save_ptr` after line 354 when it is not NULL. -/
def request_save_ptr (rcv tail : List Char) : Nat := (strtok_r (rcv ++ tail)).save_ptr

/-- The received bytes that follow the request line. -/
def request_block (rcv tail : List Char) : List Char := rcv.drop (request_save_ptr rcv tail)

/-- The `config_set_value` calls the specification prescribes for a sequence
of custom fields: one per field whose key is not `fwurl`, in order. -/
def stored_fields (fs : List CustomField) : List Effect :=
  (fs.filter fun f => f.key ≠ "fwurl".toList).map fun f =>
    Effect.config_set_value f.key f.value

/-- The firmware URL captured from a sequence of custom fields: the value of
the last field whose key is `fwurl`, and `ota` when there is none. -/
def ota_url (fs : List CustomField) (ota : Option (List Char)) : Option (List Char) :=
  fs.foldl (fun o f => if f.key = "fwurl".toList then some f.value else o) ota

/-! ## Sample requests -/

/-- A request for the index page whose Host header names the AP address with a
port. -/
def host_port_request : List Char :=
  "GET / HTTP/1.1\r\nHost: 192.168.4.1:80\r\n\r\n".toList

/-- A request whose method is not one of the table. -/
def xget_request : List Char :=
  "XGET / HTTP/1.1\r\nHost: 192.168.4.1\r\n\r\n".toList

/-- A request for the AP list. -/
def ap_json_request : List Char :=
  "GET /ap.json HTTP/1.1\r\nHost: 192.168.4.1\r\n\r\n".toList


/-- A request to join a network. -/
def connect_request : List Char :=
  "POST /connect.json HTTP/1.1\r\nHost: 192.168.4.1\r\nX-Custom-ssid: home\r\nX-Custom-pwd: secret\r\nX-Custom-host_name: player\r\n\r\n".toList

/-- A configuration request with two custom fields. -/
def config_request : List Char :=
  "POST /config.json HTTP/1.1\r\nHost: 192.168.4.1\r\nX-Custom-a: 1\r\nX-Custom-b: 2\r\n\r\n".toList

/-- The field `X-Custom-a: 1` after the Host header. -/
def field_a : CustomField :=
  { gap := "Host: 192.168.4.1\r\n".toList, key := "a".toList, spaces := 1,
    value := "1".toList, eol := '\r' }

/-- The field `X-Custom-b: 2` after the line feed of the line before it. -/
def field_b : CustomField :=
  { gap := "\n".toList, key := "b".toList, spaces := 1, value := "2".toList, eol := '\r' }

/-- The custom fields of `config_request`. -/
def config_request_fields : List CustomField := [field_a, field_b]

/-- A configuration request with a firmware URL between two other fields. -/
def fwurl_request : List Char :=
  "POST /config.json HTTP/1.1\r\nHost: 192.168.4.1\r\nX-Custom-a: 1\r\nX-Custom-fwurl: http://h/fw.bin\r\nX-Custom-b: 2\r\n\r\n".toList

/-- The `fwurl` field of `fwurl_request`. -/
def fwurl_request_field : CustomField :=
  { gap := "\n".toList, key := "fwurl".toList, spaces := 1, value := "http://h/fw.bin".toList,
    eol := '\r' }

/-- A request whose line holds two patterns of the table, the later one of the
table first. -/
def two_pattern_request : List Char :=
  "GET /config.json GET /ap.json HTTP/1.1\r\nHost: 192.168.4.1\r\n\r\n".toList


/-- A request for the status JSON. -/
def status_request : List Char :=
  "GET /status.json HTTP/1.1\r\nHost: 192.168.4.1\r\n\r\n".toList

/-- A configuration request whose custom lines are malformed: one without a
colon, one without a line end. -/
def malformed_config_request : List Char :=
  "POST /config.json HTTP/1.1\r\nHost: 192.168.4.1\r\nX-Custom-a\r\nX-Custom-b: 2".toList

/-- The text `x` occurs in `host` as a substring, letter case ignored. -/
def occurs_ignoring_case (x host : List Char) : Prop :=
  x.map tolower <:+: host.map tolower

/-- The captive-portal condition in the words of the specification: the Host
value is not empty and none of the AP address, the station address string and
the host name (when there is one) occurs in it, letter case ignored. -/
def must_redirect (env : Env) (ap host : List Char) : Prop :=
  host ≠ [] ∧ ¬ occurs_ignoring_case ap host ∧
  ¬ occurs_ignoring_case env.sta_ip_string host ∧
  ∀ hn, env.host_name = some hn → ¬ occurs_ignoring_case hn host

/-- A request whose Host header names another site in upper case. -/
def foreign_host_request : List Char :=
  "GET /generate_204 HTTP/1.1\r\nHost: WWW.EXAMPLE.COM\r\n\r\n".toList

/-- A request line that is not followed by a line feed. -/
def unterminated_request : List Char := "GET / HTTP/1.1".toList

/-- The calls of `http_server_search_header` made by the loop of lines 462-485,
in order: for each call the scan start `next_parm` and what the call leaves
behind.  The loop is that of `config_loop`, without the calls on the
collaborators. -/
def config_loop_searches (env : Env) (bufEnd : Nat) :
    Nat → List Char → Nat → Nat → Option (List (Nat × SearchOut))
  | 0, _, _, _ => none
  | fuel + 1, mem, next_parm, n =>
    let r := http_server_search_header mem next_parm "X-Custom-".toList bufEnd (env.name_alloc n)
    match r.ret, r.next_position with
    | some _, some next =>
      (config_loop_searches env bufEnd fuel r.mem next (n + 1)).map fun calls =>
        (next_parm, r) :: calls
    | _, _ => some [(next_parm, r)]

/-- The call of `config_set_value` that follows a call of
`http_server_search_header` in the loop, if any (lines 466-479). -/
def search_call_effect (c : Nat × SearchOut) : Option Effect :=
  match c.2.ret, c.2.parm_name with
  | some last_parm, some last_parm_name =>
    if last_parm_name = "fwurl".toList then none
    else some (Effect.config_set_value last_parm_name (cstr c.2.mem last_parm))
  | _, _ => none

/-- A configuration request that ends with its request line. -/
def bare_config_request : List Char := "POST /config.json HTTP/1.1\n".toList

/-- The bytes of the first `netconn_write` of a trace: the header of the
response, `none` when nothing is written. -/
def first_write : List Effect → Option (List Char)
  | [] => none
  | Effect.write b :: _ => some b
  | _ :: es => first_write es

/-- A request for a path that is not in the route table. -/
def unknown_path_request : List Char :=
  "GET /favicon.ico HTTP/1.1\r\nHost: 192.168.4.1\r\n\r\n".toList

/-- A configuration request with two firmware URLs around another field. -/
def two_fwurl_request : List Char :=
  "POST /config.json HTTP/1.1\r\nX-Custom-fwurl: http://h/old.bin\r\nX-Custom-a: 1\r\nX-Custom-fwurl: http://h/new.bin\r\n\r\n".toList

/-- The first `fwurl` field of `two_fwurl_request`. -/
def old_fwurl_field : CustomField :=
  { gap := [], key := "fwurl".toList, spaces := 1, value := "http://h/old.bin".toList,
    eol := '\r' }

/-- The field `X-Custom-a: 1` of `two_fwurl_request`. -/
def middle_field : CustomField :=
  { gap := "\n".toList, key := "a".toList, spaces := 1, value := "1".toList, eol := '\r' }

/-- The last `fwurl` field of `two_fwurl_request`. -/
def new_fwurl_field : CustomField :=
  { gap := "\n".toList, key := "fwurl".toList, spaces := 1, value := "http://h/new.bin".toList,
    eol := '\r' }

/-- A configuration request whose last custom value is not followed by a line
end: the received bytes end with the value. -/
def unterminated_field_request : List Char :=
  "POST /config.json HTTP/1.1\nX-Custom-a: b".toList

/-- The bytes of a configuration request up to the value of its custom field
`a`; the value and nothing else is to follow. -/
def unterminated_field_head : List Char :=
  "POST /config.json HTTP/1.1\nX-Custom-a: ".toList

/-! ## `strreplace` (lines 636-653) -/

/-- Outcome of `strreplace`. -/
structure Replaced where
  /-- The C string at `src` after the call. -/
  text : List Char
  /-- Whether the call, or a call it makes, writes a byte at or past `r[len]`,
  outside the `len` bytes of the array `r`. -/
  overrun : Bool
deriving DecidableEq

/-- The function `strreplace(src, str, rep)` on C strings given by their
characters; `fuel` bounds the depth of the recursion and the result is `none`
when it is used up.  The array `r` has `len` bytes: `r1`, `r2` and `r3` are the
string it holds after `strncpy` with `r[p-src]='\0'` and after each `strncat`,
whose terminator goes to the index that is the length of the string.  The
buffer at `src` is taken to have room for the result. -/
def strreplace : Nat → List Char → List Char → List Char → Option Replaced
  | 0, _, _, _ => none
  | fuel + 1, src, str, rep =>
    match findSub src str with
    | none => some { text := src, overrun := false }
    | some i =>
      let len := src.length + rep.length - str.length
      let r1 := src.take i
      let r2 := r1 ++ rep.take rep.length
      let r3 := r2 ++ (src.drop (i + str.length)).take (i + str.length + src.length)
      let over := decide (len ≤ r1.length) || decide (len ≤ r2.length) ||
        decide (len ≤ r3.length)
      (strreplace fuel (r3.drop (i + rep.length)) str rep).map fun t =>
        { text := r3.take (i + rep.length) ++ t.text, overrun := over || t.overrun }

/-- A configuration request whose received bytes end inside the name
`X-Custom-`. -/
def cut_name_request : List Char := "POST /config.json HTTP/1.1\nX-Cust".toList

/-- A buffer without request line: two line feeds. -/
def no_line_request : List Char := "\n\n".toList

/-- A buffer whose first byte is NUL. -/
def nul_first_request : List Char := NUL :: "GET / HTTP/1.1".toList

end HttpServer

/-!
# `process_autoexec` of `src/main/console.c` (lines 52-102)

The build is the one with `RECOVERY_APPLICATION` equal to 0, in which
`console_start` calls `process_autoexec` (line 241).  The stored values are
given by the answers of `config_alloc_get`; the trace lists the look-ups and
the commands run.
-/

namespace Console

/-- A call made by `process_autoexec`. -/
inductive Call where
  /-- The call `config_alloc_get(NVS_TYPE_STR, name)`. -/
  | config_alloc_get (name : List Char)
  /-- The call `run_command(line)`. -/
  | run_command (line : List Char)
deriving DecidableEq

/-- What `process_autoexec` reads. -/
structure Env where
  /-- Result of `config_alloc_get(NVS_TYPE_STR, name)`, NULL as `none`. -/
  config_alloc_get : List Char → Option (List Char)
  bypass_wifi_manager : Bool

/-- The libc `isspace` of the C locale. -/
def isspace (c : Char) : Bool := c == ' ' || (9 ≤ c.toNat && c.toNat ≤ 13)

/-- The libc `isdigit`. -/
def isdigit (c : Char) : Bool := 48 ≤ c.toNat && c.toNat ≤ 57

/-- The number written by the leading decimal digits of a string, after `acc`. -/
def digits : Nat → List Char → Nat
  | acc, [] => acc
  | acc, c :: cs => if isdigit c then digits (acc * 10 + (c.toNat - 48)) cs else acc

/-- The libc `atoi(s)`, which is `(int) strtol(s, NULL, 10)` with a `long` of
32 bits: blanks are skipped, a sign is read, then the leading digits, and the
value is kept within the range of `long`. -/
def atoi (s : List Char) : Int :=
  match s.dropWhile isspace with
  | '-' :: ds => max (-2147483648) (-(digits 0 ds : Int))
  | '+' :: ds => min 2147483647 (digits 0 ds : Int)
  | ds => min 2147483647 (digits 0 ds : Int)

/-- The name `snprintf(autoexec_name, sizeof(autoexec_name)-1, "autoexec%u", i)`
leaves in the array of 21 bytes: at most 19 characters. -/
def autoexec_name (i : Nat) : List Char :=
  ("autoexec".toList ++ HttpServer.decimal i).take 19

/-- The loop `do ... while(1)` of lines 71-95 from the index `i`; `fuel` bounds
the number of passes.  The result is `none` when the fuel is used up and when
`i++` overflows the `int`. -/
def autoexec_loop (env : Env) : Nat → Nat → Option (List Call)
  | 0, _ => none
  | fuel + 1, i =>
    if i < 2147483647 then
      let autoexec_value := env.config_alloc_get (autoexec_name i)
      match autoexec_value with
      | some value =>
        (autoexec_loop env fuel (i + 1)).map fun calls =>
          Call.config_alloc_get (autoexec_name i) ::
            ((if !env.bypass_wifi_manager && HttpServer.lineHas value "join ".toList then []
              else [Call.run_command value]) ++ calls)
      | none => some [Call.config_alloc_get (autoexec_name i)]
    else none

/-- The function `process_autoexec()`; `autoexec_flag` is a `uint8_t`. -/
def process_autoexec (env : Env) (fuel : Nat) : Option (List Call) :=
  match env.config_alloc_get "autoexec".toList with
  | some str_flag =>
    let autoexec_flag := (atoi str_flag % 256).toNat
    if autoexec_flag = 1 then
      (autoexec_loop env fuel 1).map fun calls =>
        Call.config_alloc_get "autoexec".toList :: calls
    else some [Call.config_alloc_get "autoexec".toList]
  | none => some [Call.config_alloc_get "autoexec".toList]

/-- The commands run, in order. -/
def runs : List Call → List (List Char)
  | [] => []
  | Call.run_command line :: cs => line :: runs cs
  | _ :: cs => runs cs

/-- The names looked up, in order. -/
def lookups : List Call → List (List Char)
  | [] => []
  | Call.config_alloc_get name :: cs => name :: lookups cs
  | _ :: cs => lookups cs

/-- The calls prescribed for the stored commands `cmds` of the indices `i`,
`i + 1`, ...: each is looked up and then run, unless the wifi manager is active
and the command contains `join `; the look-up of the first index without a
stored value ends the sequence. -/
def autoexec_calls (bypass_wifi_manager : Bool) : Nat → List (List Char) → List Call
  | i, [] => [Call.config_alloc_get ("autoexec".toList ++ HttpServer.decimal i)]
  | i, c :: cs =>
    Call.config_alloc_get ("autoexec".toList ++ HttpServer.decimal i) ::
      ((if bypass_wifi_manager || !HttpServer.lineHas c "join ".toList
        then [Call.run_command c] else []) ++ autoexec_calls bypass_wifi_manager (i + 1) cs)

/-- A store with `autoexec` set to 1 and three commands, the second a wifi
join; the wifi manager is active. -/
def sample_store : Env :=
  { config_alloc_get := fun name =>
      if name = "autoexec".toList then some "1".toList
      else if name = "autoexec1".toList then some "squeezelite -o I2S".toList
      else if name = "autoexec2".toList then some "join home secret".toList
      else if name = "autoexec3".toList then some "free".toList
      else none,
    bypass_wifi_manager := false }

/-- The commands stored in `sample_store`. -/
def sample_commands : List (List Char) :=
  ["squeezelite -o I2S".toList, "join home secret".toList, "free".toList]

end Console

namespace HttpServer

set_option maxRecDepth 10000

/-! ## Unfolding `http_server_netconn_serve` -/

/-- A request line is a token after which `save_ptr` is not NULL. -/
theorem request_line_some (rcv tail line : List Char)
    (h : request_line rcv tail = some line) :
    (strtok_r (rcv ++ tail)).save_ptr_null = false ∧
      (strtok_r (rcv ++ tail)).line = some line := by
  unfold request_line at h
  cases hn : (strtok_r (rcv ++ tail)).save_ptr_null with
  | true => rw [hn] at h; simp at h
  | false => rw [hn] at h; exact ⟨rfl, by simpa using h⟩

theorem serve_of_line (env : Env) (ap rcv tail line : List Char)
    (hap : env.ap_ip_address = some ap) (hrcv : rcv ≠ [])
    (hline : request_line rcv tail = some line) :
    http_server_netconn_serve env rcv tail =
      if request_redirected env ap rcv tail then
        some (sta_ip_calls ++ [Effect.write http_redirect_hdr_start, Effect.write ap,
          Effect.write http_redirect_hdr_end, Effect.close])
      else
        (dispatch env (strtok_r (rcv ++ tail)).mem (strtok_r (rcv ++ tail)).save_ptr
          rcv.length line).map fun es => sta_ip_calls ++ es ++ [Effect.close] := by
  have hlen : rcv.length ≠ 0 := by
    intro h
    exact hrcv (List.length_eq_zero.mp h)
  obtain ⟨hnull, hl⟩ := request_line_some rcv tail line hline
  simp only [http_server_netconn_serve, hap, serve_buffer, hnull, hl, request_redirected,
    request_lenH, request_host, sta_ip_calls, Bool.false_eq_true, if_false]
  rw [if_pos hlen]
  split_ifs <;> simp [Option.map_map, Function.comp_def]

theorem serve_of_route (env : Env) (ap rcv tail line : List Char)
    (hap : env.ap_ip_address = some ap) (hrcv : rcv ≠ [])
    (hline : request_line rcv tail = some line)
    (hred : request_redirected env ap rcv tail = false) :
    http_server_netconn_serve env rcv tail =
      (dispatch env (strtok_r (rcv ++ tail)).mem (strtok_r (rcv ++ tail)).save_ptr
        rcv.length line).map fun es => sta_ip_calls ++ es ++ [Effect.close] := by
  rw [serve_of_line env ap rcv tail line hap hrcv hline, hred]
  simp

theorem findSub_of_isPrefixOf (l p : List Char) (h : p.isPrefixOf l = true) :
    findSub l p = some 0 := by
  cases l with
  | nil =>
    cases p with
    | nil => rfl
    | cons a p => simp [List.isPrefixOf] at h
  | cons c cs => simp [findSub, h]

theorem strcasestr_self (l : List Char) : strcasestr l l = true := by
  unfold strcasestr
  rw [findSub_of_isPrefixOf]
  · rfl
  · simp

theorem host_value_eq_nil_of_lenH (mem : List Char) (p : Option Nat) :
    host_value mem p 0 = [] := by
  unfold host_value
  cases p <;> simp

theorem request_lenH_pos (rcv tail : List Char) (h : request_host rcv tail ≠ []) :
    0 < request_lenH rcv tail := by
  rcases Nat.eq_zero_or_pos (request_lenH rcv tail) with h0 | h0
  · exfalso
    apply h
    unfold request_lenH at h0
    unfold request_host
    simp only [h0]
    exact host_value_eq_nil_of_lenH _ _
  · exact h0

/-! ## Searching and scanning -/

theorem findSub_first (l p : List Char) (i : Nat) (hi : i ≤ l.length)
    (hp : p <+: l.drop i) (hmin : ∀ j, j < i → ¬ p <+: l.drop j) :
    findSub l p = some i := by
  induction l generalizing i with
  | nil =>
    have hi0 : i = 0 := by simpa using hi
    subst hi0
    have hpn : p = [] := by simpa using hp
    simp [findSub, hpn]
  | cons c cs ih =>
    cases i with
    | zero =>
      have : p.isPrefixOf (c :: cs) = true := List.isPrefixOf_iff_prefix.mpr (by simpa using hp)
      simp [findSub, this]
    | succ k =>
      have h0 : ¬ p <+: c :: cs := by simpa using hmin 0 (Nat.succ_pos k)
      have h0b : p.isPrefixOf (c :: cs) = false := by
        cases hb : p.isPrefixOf (c :: cs) with
        | false => rfl
        | true => exact absurd (List.isPrefixOf_iff_prefix.mp hb) h0
      have hk := ih k (by simpa using hi) (by simpa using hp) (fun j hj => by
        have := hmin (j + 1) (Nat.succ_lt_succ hj)
        simpa using this)
      simp [findSub, h0b, hk]

theorem findSub_some_spec (l p : List Char) (i : Nat) (h : findSub l p = some i) :
    i ≤ l.length ∧ p <+: l.drop i ∧ ∀ j, j < i → ¬ p <+: l.drop j := by
  induction l generalizing i with
  | nil =>
    unfold findSub at h
    split at h
    · rename_i he
      have hp : p = [] := by simpa using he
      have hi : i = 0 := by simpa using h.symm
      subst hi
      simp [hp]
    · simp at h
  | cons c cs ih =>
    unfold findSub at h
    split at h
    · rename_i hpre
      have hi : i = 0 := by simpa using h.symm
      subst hi
      exact ⟨Nat.zero_le _, by simpa using List.isPrefixOf_iff_prefix.mp hpre, fun j hj => by omega⟩
    · rename_i hpre
      cases hf : findSub cs p with
      | none => rw [hf] at h; simp at h
      | some k =>
        rw [hf] at h
        have hi : i = k + 1 := by simpa using h.symm
        subst hi
        obtain ⟨h1, h2, h3⟩ := ih k hf
        refine ⟨by simpa using h1, by simpa using h2, ?_⟩
        intro j hj
        cases j with
        | zero =>
          intro hc
          exact hpre (List.isPrefixOf_iff_prefix.mpr (by simpa using hc))
        | succ j' =>
          have := h3 j' (by omega)
          simpa using this

theorem findSub_none_spec (l p : List Char) (h : findSub l p = none) :
    ∀ j, j ≤ l.length → ¬ p <+: l.drop j := by
  induction l with
  | nil =>
    intro j hj hp
    unfold findSub at h
    have hpn : p = [] := by
      have hj0 : j = 0 := by simpa using hj
      subst hj0
      simpa using hp
    simp [hpn] at h
  | cons c cs ih =>
    unfold findSub at h
    split at h
    · simp at h
    · rename_i hpre
      have hf : findSub cs p = none := by
        cases hc : findSub cs p with
        | none => rfl
        | some k => rw [hc] at h; simp at h
      intro j hj
      cases j with
      | zero =>
        intro hc
        exact hpre (List.isPrefixOf_iff_prefix.mpr (by simpa using hc))
      | succ j' =>
        have := ih hf j' (by simpa using hj)
        simpa using this

theorem findSub_isSome_iff (l p : List Char) : (findSub l p).isSome = true ↔ p <:+: l := by
  constructor
  · intro h
    obtain ⟨i, hi⟩ := Option.isSome_iff_exists.mp h
    obtain ⟨_, h2, _⟩ := findSub_some_spec l p i hi
    exact List.IsInfix.trans h2.isInfix (List.drop_suffix i l).isInfix
  · intro h
    cases hf : findSub l p with
    | some i => rfl
    | none =>
      exfalso
      obtain ⟨s, t, hst⟩ := h
      have := findSub_none_spec l p hf s.length (by rw [← hst]; simp)
      apply this
      rw [← hst]
      simp [List.append_assoc]

theorem scan_none (cont : Char → Bool) (l : List Char) (ptr : Nat) :
    scan cont none l ptr = ptr + (l.takeWhile cont).length := by
  induction l generalizing ptr with
  | nil => simp [scan]
  | cons c cs ih =>
    unfold scan
    cases hc : cont c
    · simp [List.takeWhile, hc]
    · simp [List.takeWhile, hc, ih]
      omega

theorem scan_some (cont : Char → Bool) (bufEnd : Nat) (l : List Char) (ptr : Nat) :
    scan cont (some bufEnd) l ptr = ptr + min (l.takeWhile cont).length (bufEnd - ptr) := by
  induction l generalizing ptr with
  | nil => simp [scan]
  | cons c cs ih =>
    unfold scan
    cases hc : cont c
    · simp [List.takeWhile, hc]
    · by_cases hlt : ptr < bufEnd
      · simp [List.takeWhile, hc, ih, hlt]
        omega
      · simp [List.takeWhile, hc, hlt]
        omega

theorem takeWhile_append_of_all (f : Char → Bool) (a b : List Char)
    (h : ∀ c ∈ a, f c = true) : (a ++ b).takeWhile f = a ++ b.takeWhile f := by
  induction a with
  | nil => rfl
  | cons x xs ih =>
    have hx : f x = true := h x (List.mem_cons_self _ _)
    simp [List.takeWhile, hx, ih (fun c hc => h c (List.mem_cons_of_mem _ hc))]

theorem takeWhile_stop (f : Char → Bool) (a : List Char) (t : Char) (b : List Char)
    (h : ∀ c ∈ a, f c = true) (ht : f t = false) : (a ++ t :: b).takeWhile f = a := by
  rw [takeWhile_append_of_all f a _ h]
  simp [List.takeWhile, ht]

theorem takeWhile_all (f : Char → Bool) (a : List Char)
    (h : ∀ c ∈ a, f c = true) : a.takeWhile f = a := by
  have := takeWhile_append_of_all f a [] h
  simpa using this

/-! ## `http_server_get_header` against `header_value` -/

theorem takeWhile_drop_of_le (f : Char → Bool) (l : List Char) (n : Nat)
    (h : n ≤ (l.takeWhile f).length) : (l.takeWhile f).drop n = (l.drop n).takeWhile f := by
  induction l generalizing n with
  | nil => simp
  | cons c cs ih =>
    cases n with
    | zero => simp
    | succ k =>
      cases hc : f c
      · simp [List.takeWhile, hc] at h
      · simp only [List.takeWhile, hc, List.length_cons, Nat.succ_le_succ_iff] at h
        simp [List.takeWhile, hc, ih k h]

theorem takeWhile_takeWhile (f g : Char → Bool) (l : List Char) :
    (l.takeWhile f).takeWhile g = l.takeWhile fun c => f c && g c := by
  induction l with
  | nil => rfl
  | cons c cs ih =>
    cases hf : f c <;> cases hg : g c <;> simp [List.takeWhile, hf, hg, ih]

theorem cstr_drop (mem : List Char) (p k : Nat) (h : k ≤ (cstr mem p).length) :
    (cstr mem p).drop k = cstr mem (p + k) := by
  unfold cstr at *
  rw [takeWhile_drop_of_le _ _ _ h, List.drop_drop]

theorem findSub_some_le (l p : List Char) (i : Nat) (h : findSub l p = some i) :
    i + p.length ≤ l.length := by
  obtain ⟨h1, h2, _⟩ := findSub_some_spec l p i h
  have := h2.length_le
  simp at this
  omega

theorem get_header_found (mem : List Char) (p : Nat) (name : List Char) (i : Nat)
    (h : findSub (cstr mem p) name = some i) :
    ∃ v, header_value (cstr mem p) name = some v ∧
      http_server_get_header mem p name = (some (i + p + name.length), v.length) ∧
      (mem.drop (i + p + name.length)).take v.length = v ∧
      cstr mem (i + p + name.length) <+: mem.drop (i + p + name.length) ∧
      v <+: cstr mem (i + p + name.length) := by
  have hle := findSub_some_le _ _ _ h
  have hv : ((cstr mem p).drop (i + name.length)).takeWhile (fun c => c != '\n' && c != '\r') =
      (mem.drop (i + p + name.length)).takeWhile
        (fun c => c != NUL && c != '\n' && c != '\r') := by
    rw [cstr_drop mem p _ hle]
    unfold cstr
    rw [takeWhile_takeWhile]
    have e : p + (i + name.length) = i + p + name.length := by omega
    rw [e]
    congr 1
    funext c
    simp [Bool.and_assoc]
  refine ⟨_, by simp only [header_value, h, Option.map_some']; rfl, ?_, ?_, ?_, ?_⟩
  · unfold http_server_get_header strstr
    simp only [h, Option.map_some', scan_none, hv]
    simp
  · rw [hv]
    exact List.prefix_iff_eq_take.mp (List.takeWhile_prefix _) |>.symm
  · exact List.takeWhile_prefix _
  · rw [hv]
    unfold cstr
    have : (fun c => c != NUL && c != '\n' && c != '\r') =
        fun c => (fun c => c != NUL) c && (fun c => c != '\n' && c != '\r') c := by
      funext c
      simp [Bool.and_assoc]
    rw [this, ← takeWhile_takeWhile]
    exact List.takeWhile_prefix _

theorem get_header_not_found (mem : List Char) (p : Nat) (name : List Char)
    (h : findSub (cstr mem p) name = none) :
    header_value (cstr mem p) name = none ∧ http_server_get_header mem p name = (none, 0) := by
  constructor
  · simp [header_value, h]
  · unfold http_server_get_header strstr
    simp [h]

/-! ## `http_server_search_header` on a custom field -/

theorem drop_of_drop_eq_append (mem : List Char) (p : Nat) (a b : List Char)
    (h : mem.drop p = a ++ b) : mem.drop (p + a.length) = b := by
  have : mem.drop (p + a.length) = (mem.drop p).drop a.length := by
    rw [List.drop_drop, Nat.add_comm]
  rw [this, h, List.drop_left]

theorem rd_of_drop_eq_cons (mem : List Char) (p : Nat) (c : Char) (b : List Char)
    (h : mem.drop p = c :: b) : rd mem p = c := by
  unfold rd
  have hlt : p < mem.length := by
    by_contra hge
    rw [List.drop_eq_nil_of_le (by omega)] at h
    cases h
  rw [List.getD_eq_getElem _ _ hlt]
  have := List.drop_eq_getElem_cons hlt
  rw [this] at h
  exact (List.cons.inj h).1

/-- No occurrence of a pattern that starts with a character it does not repeat
begins inside a text `g` that does not contain the pattern, when the pattern
follows `g`. -/
theorem no_earlier_occurrence (x : Char) (pat' g rest : List Char) (hx : x ∉ pat')
    (hg : ¬ (x :: pat') <:+: g) (j : Nat) (hj : j < g.length) :
    ¬ (x :: pat') <+: (g ++ ((x :: pat') ++ rest)).drop j := by
  intro hp
  rw [List.drop_append_of_le_length (by omega)] at hp
  by_cases hlen : (x :: pat').length ≤ (g.drop j).length
  · apply hg
    have h1 : (x :: pat') <+: g.drop j :=
      List.prefix_of_prefix_length_le hp (List.prefix_append _ _) hlen
    exact List.IsInfix.trans h1.isInfix (List.drop_suffix j g).isInfix
  · have hlt : (g.drop j).length < (x :: pat').length := by omega
    have h1 : g.drop j <+: (x :: pat') :=
      List.prefix_of_prefix_length_le (List.prefix_append _ _) hp (by omega)
    obtain ⟨r, hr⟩ := h1
    have hpos : 0 < (g.drop j).length := by simp; omega
    -- the pattern continues with `r`, which is a prefix of the pattern itself
    have h2 : r <+: (x :: pat') ++ rest := by
      have hp' : g.drop j ++ r <+: g.drop j ++ ((x :: pat') ++ rest) := by
        rw [hr]
        exact hp
      exact (List.prefix_append_right_inj _).mp hp'
    have hrne : r ≠ [] := by
      intro hr0
      rw [hr0, List.append_nil] at hr
      rw [hr] at hlt
      exact Nat.lt_irrefl _ hlt
    obtain ⟨y, r', rfl⟩ := List.exists_cons_of_ne_nil hrne
    have hy : y = x := by
      obtain ⟨s, hs⟩ := h2
      simp only [List.cons_append, List.cons.injEq] at hs
      exact hs.1
    subst hy
    -- `y` occurs in the pattern after its first character
    cases hd : g.drop j with
    | nil => rw [hd] at hpos; simp at hpos
    | cons z zs =>
      rw [hd] at hr
      simp only [List.cons_append, List.cons.injEq] at hr
      apply hx
      rw [← hr.2]
      simp

theorem findSub_at_gap (x : Char) (pat' g rest : List Char) (hx : x ∉ pat')
    (hg : ¬ (x :: pat') <:+: g) :
    findSub (g ++ ((x :: pat') ++ rest)) (x :: pat') = some g.length := by
  apply findSub_first
  · simp
  · rw [List.drop_left]
    exact List.prefix_append _ _
  · intro j hj
    exact no_earlier_occurrence x pat' g rest hx hg j hj

theorem custom_prefix_facts :
    "X-Custom-".toList = 'X' :: "-Custom-".toList ∧ 'X' ∉ "-Custom-".toList ∧
    (∀ c ∈ "X-Custom-".toList, (c != NUL) = true) ∧ "X-Custom-".toList.length = 9 := by
  decide

theorem CustomField.text_append (f : CustomField) (X : List Char) :
    f.text ++ X = f.gap ++ ("X-Custom-".toList ++ (f.key ++ (':' :: (List.replicate f.spaces ' ' ++
      (f.value ++ f.eol :: X))))) := by
  simp [CustomField.text, List.append_assoc]

theorem CustomField.text_length (f : CustomField) :
    f.text.length = f.value_offset + f.value.length + 1 := by
  simp [CustomField.text, CustomField.value_offset]
  omega

theorem takeWhile_blank (m : Nat) (v : List Char) (t : Char) (X : List Char)
    (hv : v.head? ≠ some ' ') (ht : t ≠ ' ') :
    (List.replicate m ' ' ++ (v ++ t :: X)).takeWhile (fun c => c == ' ') =
      List.replicate m ' ' := by
  rw [takeWhile_append_of_all]
  · cases v with
    | nil =>
      have hb : (t == ' ') = false := by simpa using ht
      simp [List.takeWhile, hb]
    | cons a as =>
      have : a ≠ ' ' := by
        intro h
        apply hv
        simp [h]
      have hb : (a == ' ') = false := by simpa using this
      simp [List.takeWhile, hb]
  · intro c hc
    simp [List.eq_of_mem_replicate hc]

theorem search_header_field (mem : List Char) (p : Nat) (f : CustomField) (X : List Char)
    (bufEnd : Nat) (hm : mem.drop p = f.text ++ X) (hwf : f.wf)
    (hb : p + f.text.length ≤ bufEnd) :
    http_server_search_header mem p "X-Custom-".toList bufEnd true =
      { ret := some (p + f.value_offset), len := f.value.length, parm_name := some f.key,
        next_position := some (p + f.value_offset + f.value.length + 1),
        nul_at := some (p + f.value_offset + f.value.length),
        mem := mem.set (p + f.value_offset + f.value.length) NUL } := by
  obtain ⟨hgap, hinf, hkey, hval, hhead, heol⟩ := hwf
  obtain ⟨hP, hX, hPn, hPl⟩ := custom_prefix_facts
  rw [f.text_append] at hm
  have hlen := f.text_length
  unfold CustomField.value_offset at *
  generalize "X-Custom-".toList = P at *
  have hgapn : ∀ c ∈ f.gap, (c != NUL) = true := fun c hc => by simpa using hgap c hc
  -- the first occurrence of the prefix
  have hs : strstr mem p P = some (p + f.gap.length) := by
    unfold strstr cstr
    rw [hm, takeWhile_append_of_all _ _ _ hgapn, takeWhile_append_of_all _ _ _ hPn]
    have hinf' : ¬ ('X' :: "-Custom-".toList) <:+: f.gap := by rw [← hP]; exact hinf
    have := findSub_at_gap 'X' "-Custom-".toList f.gap
      ((f.key ++ ':' :: (List.replicate f.spaces ' ' ++ (f.value ++ f.eol :: X))).takeWhile
        (fun c => c != NUL)) hX hinf'
    rw [← hP] at this
    rw [this]
    simp [Nat.add_comm]
  have d1 := drop_of_drop_eq_append _ _ _ _ hm
  have d2 := drop_of_drop_eq_append _ _ _ _ d1
  have d3 := drop_of_drop_eq_append _ _ _ _ d2
  have d4 : mem.drop (p + f.gap.length + P.length + f.key.length + 1) =
      List.replicate f.spaces ' ' ++ (f.value ++ f.eol :: X) :=
    drop_of_drop_eq_append _ _ [':'] _ d3
  have d5 := drop_of_drop_eq_append _ _ _ _ d4
  have d6 := drop_of_drop_eq_append _ _ _ _ d5
  rw [List.length_replicate] at d5 d6
  have heolb : (f.eol != NUL && f.eol != '\n' && f.eol != '\r') = false := by
    rcases heol with h | h <;> rw [h] <;> decide
  have heolsp : f.eol ≠ ' ' := by
    rcases heol with h | h <;> rw [h] <;> decide
  have hscan1 : scan (fun c => c != NUL && c != '\n' && c != '\r' && c != ':') (some bufEnd)
      (mem.drop (p + f.gap.length + P.length)) (p + f.gap.length + P.length) =
      p + f.gap.length + P.length + f.key.length := by
    rw [scan_some, d2, takeWhile_stop _ _ _ _ _ (by decide)]
    · rw [Nat.min_eq_left (by omega)]
    · intro c hc
      obtain ⟨a, b, c', d⟩ := hkey c hc
      simp [a, b, c', d]
  have hrd : rd mem (p + f.gap.length + P.length + f.key.length) = ':' :=
    rd_of_drop_eq_cons _ _ _ _ d3
  have hname : strncpy (mem.drop (p + f.gap.length + P.length))
      (p + f.gap.length + P.length + f.key.length - (p + f.gap.length + P.length)) = f.key := by
    unfold strncpy
    rw [d2, Nat.add_sub_cancel_left, List.take_left]
    apply takeWhile_all
    intro c hc
    simpa using (hkey c hc).1
  have hscan2 : scan (fun c => c == ' ') (some bufEnd)
      (mem.drop (p + f.gap.length + P.length + f.key.length + 1))
      (p + f.gap.length + P.length + f.key.length + 1) =
      p + f.gap.length + P.length + f.key.length + 1 + f.spaces := by
    rw [scan_some, d4, takeWhile_blank _ _ _ _ hhead heolsp, List.length_replicate]
    rw [Nat.min_eq_left (by omega)]
  have hscan3 : scan (fun c => c != NUL && c != '\n' && c != '\r') (some bufEnd)
      (mem.drop (p + f.gap.length + P.length + f.key.length + 1 + f.spaces))
      (p + f.gap.length + P.length + f.key.length + 1 + f.spaces) =
      p + f.gap.length + P.length + f.key.length + 1 + f.spaces + f.value.length := by
    rw [scan_some, d5, takeWhile_stop _ _ _ _ _ heolb]
    · rw [Nat.min_eq_left (by omega)]
    · intro c hc
      obtain ⟨a, b, c'⟩ := hval c hc
      simp [a, b, c']
  have hfound : p + f.gap.length < bufEnd := by omega
  unfold http_server_search_header search_value
  simp only [hs, hfound, if_true, hscan1, hrd, beq_self_eq_true, hname, hscan2, hscan3]
  simp only [hPl]
  have e : p + (f.gap.length + 9 + f.key.length + 1 + f.spaces) =
      p + f.gap.length + 9 + f.key.length + 1 + f.spaces := by omega
  rw [e, Nat.add_sub_cancel_left]

/-! ## The loop of `POST /config.json` -/

theorem search_header_not_found (mem : List Char) (p : Nat) (name : List Char) (bufEnd : Nat)
    (alloc_ok : Bool) (h : ∀ found, strstr mem p name = some found → bufEnd ≤ found) :
    http_server_search_header mem p name bufEnd alloc_ok =
      { ret := none, len := 0, parm_name := none, next_position := none, nul_at := none,
        mem := mem } := by
  unfold http_server_search_header
  cases hs : strstr mem p name with
  | none => rfl
  | some found =>
    have := h found hs
    simp only [if_neg (Nat.not_lt.mpr this)]

theorem strstr_occurrence (mem : List Char) (p : Nat) (name : List Char) (found : Nat)
    (h : strstr mem p name = some found) :
    ∃ i, found = p + i ∧ name <+: (mem.drop p).drop i := by
  unfold strstr at h
  cases hf : findSub (cstr mem p) name with
  | none => rw [hf] at h; cases h
  | some i =>
    rw [hf] at h
    simp only [Option.map_some', Option.some.injEq] at h
    obtain ⟨h1, h2, _⟩ := findSub_some_spec _ _ _ hf
    refine ⟨i, by omega, ?_⟩
    have hc : cstr mem p <+: mem.drop p := List.takeWhile_prefix _
    obtain ⟨t, ht⟩ := hc
    rw [← ht, List.drop_append_of_le_length h1]
    exact h2.trans (List.prefix_append _ _)

theorem cstr_of_set_NUL (mem : List Char) (iv : Nat) (v : List Char) (t : Char) (Y : List Char)
    (h : mem.drop iv = v ++ t :: Y) (hv : ∀ c ∈ v, (c != NUL) = true) :
    cstr (mem.set (iv + v.length) NUL) iv = v := by
  unfold cstr
  rw [List.drop_set, if_neg (by omega), h, Nat.add_sub_cancel_left,
    List.set_append_right _ _ (Nat.le_refl _), Nat.sub_self]
  simp only [List.set_cons_zero]
  exact takeWhile_stop _ _ _ _ hv (by decide)

theorem stored_fields_cons_ne (f : CustomField) (fs : List CustomField)
    (h : f.key ≠ "fwurl".toList) :
    stored_fields (f :: fs) = Effect.config_set_value f.key f.value :: stored_fields fs := by
  unfold stored_fields
  rw [List.filter_cons_of_pos (by simpa using h)]
  rfl

theorem stored_fields_cons_eq (f : CustomField) (fs : List CustomField)
    (h : f.key = "fwurl".toList) : stored_fields (f :: fs) = stored_fields fs := by
  unfold stored_fields
  rw [List.filter_cons_of_neg (by simpa using h)]

theorem ota_url_cons (f : CustomField) (fs : List CustomField) (ota : Option (List Char)) :
    ota_url (f :: fs) ota =
      ota_url fs (if f.key = "fwurl".toList then some f.value else ota) := rfl

theorem config_loop_fields (env : Env) (bufEnd : Nat) (rest tail : List Char)
    (hrest : ∀ j, j < rest.length → ¬ "X-Custom-".toList <+: (rest ++ tail).drop j)
    (fs : List CustomField) :
    ∀ (mem : List Char) (p n : Nat) (ota : Option (List Char)) (fuel : Nat),
      mem.drop p = render_fields fs rest ++ tail →
      bufEnd = p + (render_fields fs rest).length →
      (∀ f ∈ fs, f.wf) →
      (∀ i, i < fs.length → env.name_alloc (n + i) = true) →
      fs.length < fuel →
      ∃ mem', config_loop env bufEnd fuel mem p n ota =
        some { effects := stored_fields fs, otaURL := ota_url fs ota, mem := mem' } := by
  induction fs with
  | nil =>
    intro mem p n ota fuel hm hb _ _ hfuel
    obtain ⟨k, rfl⟩ : ∃ k, fuel = k + 1 := ⟨fuel - 1, by omega⟩
    simp only [render_fields, List.foldr] at hm hb
    have hnf := search_header_not_found mem p "X-Custom-".toList bufEnd (env.name_alloc n)
      (by
        intro found hs
        obtain ⟨i, hi, hp⟩ := strstr_occurrence _ _ _ _ hs
        rw [hm] at hp
        have : ¬ i < rest.length := fun hlt => hrest i hlt hp
        omega)
    refine ⟨mem, ?_⟩
    unfold config_loop
    simp only [hnf]
    rfl
  | cons f fs ih =>
    intro mem p n ota fuel hm hb hwf halloc hfuel
    obtain ⟨k, rfl⟩ : ∃ k, fuel = k + 1 := ⟨fuel - 1, by omega⟩
    have hr : render_fields (f :: fs) rest = f.text ++ render_fields fs rest := rfl
    rw [hr, List.append_assoc] at hm
    rw [hr, List.length_append] at hb
    have hfw := hwf f (List.mem_cons_self _ _)
    have ha : env.name_alloc n = true := by simpa using halloc 0 (by simp)
    have hsf := search_header_field mem p f (render_fields fs rest ++ tail) bufEnd hm hfw
      (by omega)
    have hlen := f.text_length
    -- the value, read after the terminator is written
    have hm' := hm
    rw [f.text_append] at hm'
    have dv : mem.drop (p + f.value_offset) =
        f.value ++ f.eol :: (render_fields fs rest ++ tail) := by
      have d1 := drop_of_drop_eq_append _ _ _ _ hm'
      have d2 := drop_of_drop_eq_append _ _ _ _ d1
      have d3 := drop_of_drop_eq_append _ _ _ _ d2
      have d4 := drop_of_drop_eq_append _ _ [':'] _ d3
      have d5 := drop_of_drop_eq_append _ _ _ _ d4
      rw [List.length_replicate] at d5
      have e : p + f.value_offset =
          p + f.gap.length + "X-Custom-".toList.length + f.key.length + [':'].length
            + f.spaces := by
        simp [CustomField.value_offset]
        omega
      rw [e]
      exact d5
    have hval : cstr (mem.set (p + f.value_offset + f.value.length) NUL) (p + f.value_offset) =
        f.value :=
      cstr_of_set_NUL mem _ _ _ _ dv (fun c hc => by simpa using (hfw.2.2.2.1 c hc).1)
    -- the memory from the next position on
    have hnext : (mem.set (p + f.value_offset + f.value.length) NUL).drop
        (p + f.value_offset + f.value.length + 1) = render_fields fs rest ++ tail := by
      rw [List.drop_set_of_lt _ _ (by omega)]
      have := drop_of_drop_eq_append _ _ _ _ hm
      rw [hlen] at this
      rw [← this]
      congr 1
      omega
    obtain ⟨mem', hrec⟩ := ih (mem.set (p + f.value_offset + f.value.length) NUL)
      (p + f.value_offset + f.value.length + 1) (n + 1)
      (if f.key = "fwurl".toList then some f.value else ota) k hnext (by omega)
      (fun g hg => hwf g (List.mem_cons_of_mem _ hg))
      (fun i hi => by
        have := halloc (i + 1) (by simp; omega)
        rw [← this]
        congr 1
        omega)
      (by simp at hfuel; omega)
    refine ⟨mem', ?_⟩
    unfold config_loop
    simp only [ha, hsf, hval]
    by_cases hk : f.key = "fwurl".toList
    · rw [stored_fields_cons_eq f fs hk, ota_url_cons]
      simp only [hk, if_true] at hrec ⊢
      rw [hrec]
    · rw [stored_fields_cons_ne f fs hk, ota_url_cons]
      simp only [hk, if_false] at hrec ⊢
      rw [hrec]
      rfl

/-- C1, counterexample.  The Host value `192.168.4.1:80` is not empty and is equal,
ignoring case, to none of the AP address `192.168.4.1`, the station address
`0.0.0.0` and the host name `squeezelite`; the request is answered with the
index page and not with the redirect, because the AP address occurs in the
Host value. -/
theorem redirect_equality_counterexample :
    sample_env.ap_ip_address = some "192.168.4.1".toList ∧
    request_line host_port_request [] = some "GET / HTTP/1.1\r".toList ∧
    request_host host_port_request [] = "192.168.4.1:80".toList ∧
    request_host host_port_request [] ≠ [] ∧
    eq_ignoring_case (request_host host_port_request []) "192.168.4.1".toList = false ∧
    eq_ignoring_case (request_host host_port_request []) sample_env.sta_ip_string = false ∧
    eq_ignoring_case (request_host host_port_request []) "squeezelite".toList = false ∧
    http_server_netconn_serve sample_env host_port_request [] =
      some (sta_ip_calls ++ [Effect.write http_html_hdr, Effect.write sample_env.index_html,
        Effect.close]) ∧
    (http_server_netconn_serve sample_env host_port_request []).map written ≠
      some (redirect_response "192.168.4.1".toList) := by
  decide

/-- C1, as amended.  For every received request that has a request line and whose
extracted Host value is not empty and contains, ignoring case, none of the AP
address, the station address string and the host name (when there is one) as
a substring, the calls made are the station-address lock and unlock, the three
writes of the redirect and the close: the bytes written are exactly
`HTTP/1.1 302 Found\nLocation: http://` ++ AP address ++ `/\n\n`, and no route
is executed, whatever the request line is. -/
theorem redirect_when_no_identity_in_host (env : Env) (ap rcv tail : List Char)
    (hap : env.ap_ip_address = some ap) (hrcv : rcv ≠ [])
    (hline : request_line rcv tail ≠ none)
    (hhost : request_host rcv tail ≠ [])
    (h1 : strcasestr (request_host rcv tail) ap = false)
    (h2 : strcasestr (request_host rcv tail) env.sta_ip_string = false)
    (h3 : ∀ hn, env.host_name = some hn → strcasestr (request_host rcv tail) hn = false) :
    http_server_netconn_serve env rcv tail =
      some (sta_ip_calls ++ [Effect.write http_redirect_hdr_start, Effect.write ap,
        Effect.write http_redirect_hdr_end, Effect.close]) ∧
    (http_server_netconn_serve env rcv tail).map written = some (redirect_response ap) := by
  obtain ⟨line, hl⟩ := Option.ne_none_iff_exists'.mp hline
  have hpos := request_lenH_pos rcv tail hhost
  have hred : request_redirected env ap rcv tail = true := by
    unfold request_redirected redirects
    cases hn : env.host_name with
    | none => simp [hpos, h1, h2]
    | some n => simp [hpos, h1, h2, h3 n hn]
  have hs := serve_of_line env ap rcv tail line hap hrcv hl
  rw [hred] at hs
  simp only [if_true] at hs
  refine ⟨hs, ?_⟩
  rw [hs]
  simp [written, sta_ip_calls, redirect_response, http_redirect_hdr_start, http_redirect_hdr_end]

/-- C1, witness: a request for `/index` with Host `Example.com`, followed in memory
by the bytes `xyz`. -/
theorem redirect_when_no_identity_in_host_witness :
    http_server_netconn_serve sample_env
        "GET /index HTTP/1.1\r\nHost: Example.com\r\n\r\n".toList "xyz".toList =
      some (sta_ip_calls ++ [Effect.write http_redirect_hdr_start,
        Effect.write "192.168.4.1".toList,
        Effect.write http_redirect_hdr_end, Effect.close]) ∧
    (http_server_netconn_serve sample_env
        "GET /index HTTP/1.1\r\nHost: Example.com\r\n\r\n".toList "xyz".toList).map written =
      some (redirect_response "192.168.4.1".toList) :=
  redirect_when_no_identity_in_host sample_env "192.168.4.1".toList
    "GET /index HTTP/1.1\r\nHost: Example.com\r\n\r\n".toList "xyz".toList
    (by decide) (by decide) (by decide) (by decide) (by decide) (by decide) (by decide)

/-- C2.  For every received request whose request line begins with `GET / ` and
whose extracted Host value equals the AP address, whatever the station address
string and the host name are, the bytes written are exactly the 200 HTML header
followed by the bytes of the embedded index page; the only writes are these
two, so no redirect is written. -/
theorem index_served_when_host_is_ap (env : Env) (ap rcv tail line : List Char)
    (hap : env.ap_ip_address = some ap) (hrcv : rcv ≠ [])
    (hline : request_line rcv tail = some line)
    (hget : "GET / ".toList <+: line)
    (hhost : request_host rcv tail = ap) :
    http_server_netconn_serve env rcv tail =
      some (sta_ip_calls ++ [Effect.write http_html_hdr, Effect.write env.index_html,
        Effect.close]) ∧
    (http_server_netconn_serve env rcv tail).map written =
      some (http_html_hdr ++ env.index_html) := by
  have hred : request_redirected env ap rcv tail = false := by
    unfold request_redirected redirects
    rw [hhost]
    simp [strcasestr_self]
  have hs := serve_of_line env ap rcv tail line hap hrcv hline
  rw [hred] at hs
  have hm : lineHas line "GET / ".toList = true := by
    unfold lineHas
    rw [findSub_of_isPrefixOf _ _ (List.isPrefixOf_iff_prefix.mpr hget)]
    rfl
  have hd : ∀ mem sp be, dispatch env mem sp be line =
      some [Effect.write http_html_hdr, Effect.write env.index_html] := by
    intro mem sp be
    unfold dispatch
    rw [if_pos hm]
  rw [hd] at hs
  simp only [Bool.false_eq_true, if_false, Option.map_some'] at hs
  refine ⟨by rw [hs]; simp, ?_⟩
  rw [hs]
  simp [written, sta_ip_calls]

/-- C2, witness: the request `GET / HTTP/1.1` with Host `192.168.4.1`. -/
theorem index_served_when_host_is_ap_witness :
    http_server_netconn_serve sample_env
        "GET / HTTP/1.1\r\nHost: 192.168.4.1\r\n\r\n".toList [] =
      some (sta_ip_calls ++ [Effect.write http_html_hdr, Effect.write sample_env.index_html,
        Effect.close]) ∧
    (http_server_netconn_serve sample_env
        "GET / HTTP/1.1\r\nHost: 192.168.4.1\r\n\r\n".toList []).map written =
      some (http_html_hdr ++ sample_env.index_html) :=
  index_served_when_host_is_ap sample_env "192.168.4.1".toList
    "GET / HTTP/1.1\r\nHost: 192.168.4.1\r\n\r\n".toList [] "GET / HTTP/1.1\r".toList
    (by decide) (by decide) (by decide) (by decide) (by decide)

theorem table_behaviour_nil (line : List Char) :
    table_behaviour [] line = some [Effect.write http_400_hdr] := rfl

theorem table_behaviour_cons (pat : List Char) (b : Option (List Effect))
    (rest : List (List Char × Option (List Effect))) (line : List Char) :
    table_behaviour ((pat, b) :: rest) line =
      if lineHas line pat = true then b else table_behaviour rest line := by
  unfold table_behaviour
  cases h : lineHas line pat <;> simp [List.find?, h]

theorem dispatch_eq_table_behaviour (env : Env) (mem : List Char) (save_ptr bufEnd : Nat)
    (line : List Char) :
    dispatch env mem save_ptr bufEnd line =
      table_behaviour (route_table env mem save_ptr bufEnd) line := by
  unfold dispatch route_table
  simp only [table_behaviour_cons, table_behaviour_nil]

theorem route_table_patterns (env : Env) (mem : List Char) (save_ptr bufEnd : Nat) :
    (route_table env mem save_ptr bufEnd).map Prod.fst = route_patterns := by
  unfold route_table
  simp only [List.map]
  decide

/-! ## The loop of `POST /config.json` ends within its fuel -/

theorem le_scan (cont : Char → Bool) (bufEnd : Option Nat) (l : List Char) (ptr : Nat) :
    ptr ≤ scan cont bufEnd l ptr := by
  cases bufEnd with
  | none => rw [scan_none]; omega
  | some e => rw [scan_some]; omega

theorem strstr_ge (mem : List Char) (p : Nat) (name : List Char) (found : Nat)
    (h : strstr mem p name = some found) : p ≤ found := by
  obtain ⟨i, hi, _⟩ := strstr_occurrence mem p name found h
  omega

/-- A call of `http_server_search_header` that returns a value found the name
before `bufEnd` and sets the next position beyond the scan start. -/
theorem search_header_progress (mem : List Char) (p : Nat) (name : List Char) (bufEnd : Nat)
    (alloc_ok : Bool) (v : Nat)
    (h : (http_server_search_header mem p name bufEnd alloc_ok).ret = some v) :
    p < bufEnd ∧ ∃ next,
      (http_server_search_header mem p name bufEnd alloc_ok).next_position = some next ∧
      p < next := by
  unfold http_server_search_header at h ⊢
  cases hs : strstr mem p name with
  | none => rw [hs] at h; cases h
  | some found =>
    have hge := strstr_ge mem p name found hs
    rw [hs] at h
    simp only [] at h ⊢
    by_cases hlt : found < bufEnd
    · simp only [hlt, if_true] at h ⊢
      refine ⟨by omega, ?_⟩
      have h1 := le_scan (fun c => c != NUL && c != '\n' && c != '\r' && c != ':') (some bufEnd)
        (mem.drop (found + name.length)) (found + name.length)
      split
      · split
        · have h2 := le_scan (fun c => c == ' ') (some bufEnd)
            (mem.drop (scan (fun c => c != NUL && c != '\n' && c != '\r' && c != ':')
              (some bufEnd) (mem.drop (found + name.length)) (found + name.length) + 1))
            (scan (fun c => c != NUL && c != '\n' && c != '\r' && c != ':')
              (some bufEnd) (mem.drop (found + name.length)) (found + name.length) + 1)
          refine ⟨_, rfl, ?_⟩
          have h3 := le_scan (fun c => c != NUL && c != '\n' && c != '\r') (some bufEnd)
            (mem.drop (scan (fun c => c == ' ') (some bufEnd)
              (mem.drop (scan (fun c => c != NUL && c != '\n' && c != '\r' && c != ':')
                (some bufEnd) (mem.drop (found + name.length)) (found + name.length) + 1))
              (scan (fun c => c != NUL && c != '\n' && c != '\r' && c != ':')
                (some bufEnd) (mem.drop (found + name.length)) (found + name.length) + 1)))
            (scan (fun c => c == ' ') (some bufEnd)
              (mem.drop (scan (fun c => c != NUL && c != '\n' && c != '\r' && c != ':')
                (some bufEnd) (mem.drop (found + name.length)) (found + name.length) + 1))
              (scan (fun c => c != NUL && c != '\n' && c != '\r' && c != ':')
                (some bufEnd) (mem.drop (found + name.length)) (found + name.length) + 1))
          omega
        · rename_i hc ha
          simp only [hc, ha, if_true] at h
          simp at h
      · refine ⟨_, rfl, ?_⟩
        have h3 := le_scan (fun c => c != NUL && c != '\n' && c != '\r') (some bufEnd)
          (mem.drop (scan (fun c => c != NUL && c != '\n' && c != '\r' && c != ':')
            (some bufEnd) (mem.drop (found + name.length)) (found + name.length)))
          (scan (fun c => c != NUL && c != '\n' && c != '\r' && c != ':')
            (some bufEnd) (mem.drop (found + name.length)) (found + name.length))
        omega
    · simp only [hlt, if_false] at h
      cases h

/-- The loop ends: with one unit of fuel per byte up to `bufEnd`, and two to
spare, `config_loop` reaches its exit. -/
theorem config_loop_terminates (env : Env) (bufEnd : Nat) :
    ∀ (fuel : Nat) (mem : List Char) (p n : Nat) (ota : Option (List Char)),
      1 ≤ fuel → bufEnd + 2 ≤ fuel + p →
      (config_loop env bufEnd fuel mem p n ota).isSome = true := by
  intro fuel
  induction fuel with
  | zero => intro mem p n ota h; omega
  | succ k ih =>
    intro mem p n ota _ hfp
    unfold config_loop
    simp only []
    cases hret : (http_server_search_header mem p "X-Custom-".toList bufEnd
        (env.name_alloc n)).ret with
    | none => rfl
    | some v =>
      obtain ⟨hlt, next, hnext, hp⟩ := search_header_progress _ _ _ _ _ v hret
      rw [hnext]
      simp only []
      have hk : 1 ≤ k := by omega
      have hk2 : bufEnd + 2 ≤ k + next := by omega
      cases (http_server_search_header mem p "X-Custom-".toList bufEnd
          (env.name_alloc n)).parm_name with
      | none => exact ih _ _ _ _ hk hk2
      | some name =>
        simp only []
        split
        · exact ih _ _ _ _ hk hk2
        · rw [Option.isSome_map']
          exact ih _ _ _ _ hk hk2

theorem dispatch_isSome (env : Env) (mem : List Char) (save_ptr bufEnd : Nat)
    (line : List Char) : (dispatch env mem save_ptr bufEnd line).isSome = true := by
  have hc : (route_post_config env mem save_ptr bufEnd).isSome = true := by
    unfold route_post_config
    rw [Option.isSome_map']
    exact config_loop_terminates env bufEnd _ _ _ _ _ (by omega) (by omega)
  have hall : ∀ e ∈ route_table env mem save_ptr bufEnd, e.2.isSome = true := by
    intro e he
    unfold route_table at he
    simp only [List.mem_cons, List.mem_singleton, List.not_mem_nil, or_false] at he
    rcases he with h | h | h | h | h | h | h | h | h | h | h | h | h | h | h | h | h
    all_goals first
      | (rw [h]; rfl)
      | (rw [h]; exact hc)
  rw [dispatch_eq_table_behaviour, table_behaviour]
  cases hf : (route_table env mem save_ptr bufEnd).find? fun e => lineHas line e.1 with
  | none => rfl
  | some e => exact hall e (List.mem_of_find?_eq_some hf)

/-- What is done with a non-empty buffer yields a trace unless `save_ptr` is
NULL. -/
theorem serve_buffer_isSome (env : Env) (ap rcv tail : List Char)
    (h : (strtok_r (rcv ++ tail)).save_ptr_null = false) :
    (serve_buffer env ap rcv tail).isSome = true := by
  unfold serve_buffer
  simp only [h, Bool.false_eq_true, if_false]
  split
  · split
    · rfl
    · rw [Option.isSome_map']
      exact dispatch_isSome _ _ _ _ _
  · rfl

/-- An invocation of `http_server_netconn_serve` does not reach its end exactly
when the AP address is found, bytes were received and `strtok_r` leaves
`save_ptr` NULL: the loop of `POST /config.json` always ends. -/
theorem serve_eq_none_iff (env : Env) (rcv tail : List Char) :
    http_server_netconn_serve env rcv tail = none ↔
      env.ap_ip_address ≠ none ∧ rcv ≠ [] ∧
        (strtok_r (rcv ++ tail)).save_ptr_null = true := by
  unfold http_server_netconn_serve
  cases hap : env.ap_ip_address with
  | none => simp
  | some ap =>
    simp only []
    by_cases hlen : rcv.length ≠ 0
    · have hrcv : rcv ≠ [] := fun h => hlen (by rw [h]; rfl)
      rw [if_pos hlen]
      cases hn : (strtok_r (rcv ++ tail)).save_ptr_null with
      | true =>
        have : serve_buffer env ap rcv tail = none := by
          unfold serve_buffer
          simp only [hn, if_true]
        rw [this]
        simp [hrcv]
      | false =>
        have hs := serve_buffer_isSome env ap rcv tail hn
        obtain ⟨es, hes⟩ := Option.isSome_iff_exists.mp hs
        rw [hes]
        simp
    · rw [if_neg hlen]
      have hrcv : rcv = [] := List.length_eq_zero.mp (by omega)
      simp [hrcv]

/-- C3, counterexample.  The request line `XGET / HTTP/1.1` is not of the form
`<METHOD> <PATH> <VERSION>` for a method and path of the route table, the
request is not redirected, and it is answered with the index page and not with
the 400 header, because `GET / ` occurs in the line. -/
theorem exact_method_counterexample :
    request_line xget_request [] = some "XGET / HTTP/1.1\r".toList ∧
    is_table_request "XGET / HTTP/1.1\r".toList = false ∧
    request_redirected sample_env "192.168.4.1".toList xget_request [] = false ∧
    http_server_netconn_serve sample_env xget_request [] =
      some (sta_ip_calls ++ [Effect.write http_html_hdr, Effect.write sample_env.index_html,
        Effect.close]) ∧
    (http_server_netconn_serve sample_env xget_request []).map written ≠ some http_400_hdr := by
  decide

/-- C3, as amended.  For every request that is not redirected and whose request
line contains none of the 17 patterns `<METHOD> <PATH> ` of the route table as
a substring, the calls made are the station-address lock and unlock of the
captive-portal check, one write of the 400 header and the close: the bytes
written are exactly the 400 header and no asset is served, no scan, config
write or reboot is requested. -/
theorem unmatched_line_gets_400 (env : Env) (ap rcv tail line : List Char)
    (hap : env.ap_ip_address = some ap) (hrcv : rcv ≠ [])
    (hline : request_line rcv tail = some line)
    (hred : request_redirected env ap rcv tail = false)
    (hno : ∀ pat ∈ route_patterns, lineHas line pat = false) :
    http_server_netconn_serve env rcv tail =
      some (sta_ip_calls ++ [Effect.write http_400_hdr, Effect.close]) ∧
    (http_server_netconn_serve env rcv tail).map written = some http_400_hdr := by
  have hs := serve_of_line env ap rcv tail line hap hrcv hline
  rw [hred] at hs
  have hp : ∀ pat, pat ∈ route_patterns → ¬ (lineHas line pat = true) := by
    intro pat hm
    rw [hno pat hm]
    decide
  have hd : ∀ mem sp be, dispatch env mem sp be line = some [Effect.write http_400_hdr] := by
    intro mem sp be
    unfold dispatch
    rw [if_neg (hp _ (by decide)), if_neg (hp _ (by decide)), if_neg (hp _ (by decide)),
      if_neg (hp _ (by decide)), if_neg (hp _ (by decide)), if_neg (hp _ (by decide)),
      if_neg (hp _ (by decide)), if_neg (hp _ (by decide)), if_neg (hp _ (by decide)),
      if_neg (hp _ (by decide)), if_neg (hp _ (by decide)), if_neg (hp _ (by decide)),
      if_neg (hp _ (by decide)), if_neg (hp _ (by decide)), if_neg (hp _ (by decide)),
      if_neg (hp _ (by decide)), if_neg (hp _ (by decide))]
  rw [hd] at hs
  simp only [Bool.false_eq_true, if_false, Option.map_some'] at hs
  refine ⟨by rw [hs]; simp, ?_⟩
  rw [hs]
  simp [written, sta_ip_calls]

/-- C3, witness: the request `PUT /config.json HTTP/1.1`. -/
theorem unmatched_line_gets_400_witness :
    http_server_netconn_serve sample_env
        "PUT /config.json HTTP/1.1\r\nHost: 192.168.4.1\r\n\r\n".toList [] =
      some (sta_ip_calls ++ [Effect.write http_400_hdr, Effect.close]) ∧
    (http_server_netconn_serve sample_env
        "PUT /config.json HTTP/1.1\r\nHost: 192.168.4.1\r\n\r\n".toList []).map written =
      some http_400_hdr :=
  unmatched_line_gets_400 sample_env "192.168.4.1".toList
    "PUT /config.json HTTP/1.1\r\nHost: 192.168.4.1\r\n\r\n".toList []
    "PUT /config.json HTTP/1.1\r".toList (by decide) (by decide) (by decide) (by decide)
    (by decide)

/-- C4.  Route priority.  The patterns of the route table are, in order, the 17
patterns of the specification.  For every request that is not redirected, when
an entry of the table is the first, in table order, whose pattern occurs in
the request line, the behaviour of that entry yields a trace and the calls made
are the station-address lock and unlock, that trace, and the close; when no
pattern occurs in the line the only write is the 400 header. -/
theorem route_priority (env : Env) (ap rcv tail line : List Char)
    (hap : env.ap_ip_address = some ap) (hrcv : rcv ≠ [])
    (hline : request_line rcv tail = some line)
    (hred : request_redirected env ap rcv tail = false) :
    (request_route_table env rcv tail).map Prod.fst = route_patterns ∧
    (∀ pat b,
      (request_route_table env rcv tail).find? (fun e => lineHas line e.1) = some (pat, b) →
      ∃ es, b = some es ∧
        http_server_netconn_serve env rcv tail = some (sta_ip_calls ++ es ++ [Effect.close])) ∧
    ((request_route_table env rcv tail).find? (fun e => lineHas line e.1) = none →
      http_server_netconn_serve env rcv tail =
        some (sta_ip_calls ++ [Effect.write http_400_hdr, Effect.close])) := by
  have hs := serve_of_route env ap rcv tail line hap hrcv hline hred
  have hsome := dispatch_isSome env (strtok_r (rcv ++ tail)).mem
    (strtok_r (rcv ++ tail)).save_ptr rcv.length line
  rw [dispatch_eq_table_behaviour] at hs hsome
  unfold request_route_table
  refine ⟨route_table_patterns _ _ _ _, ?_, ?_⟩
  · intro pat b hf
    rw [table_behaviour, hf] at hs hsome
    obtain ⟨es, hes⟩ := Option.isSome_iff_exists.mp hsome
    simp only at hes
    refine ⟨es, hes, ?_⟩
    rw [hs]
    simp only [hes, Option.map_some']
  · intro hf
    rw [hs, table_behaviour, hf]
    simp

/-- C4, witness: a request line that holds `GET /config.json ` before
`GET /ap.json `; the entry of `GET /ap.json ` comes first in the table. -/
theorem route_priority_witness :
    (request_route_table sample_env two_pattern_request []).map Prod.fst = route_patterns ∧
    (∀ pat b,
      (request_route_table sample_env two_pattern_request []).find?
        (fun e => lineHas "GET /config.json GET /ap.json HTTP/1.1\r".toList e.1) = some (pat, b) →
      ∃ es, b = some es ∧
        http_server_netconn_serve sample_env two_pattern_request [] =
          some (sta_ip_calls ++ es ++ [Effect.close])) ∧
    ((request_route_table sample_env two_pattern_request []).find?
        (fun e => lineHas "GET /config.json GET /ap.json HTTP/1.1\r".toList e.1) = none →
      http_server_netconn_serve sample_env two_pattern_request [] =
        some (sta_ip_calls ++ [Effect.write http_400_hdr, Effect.close])) :=
  route_priority sample_env "192.168.4.1".toList two_pattern_request []
    "GET /config.json GET /ap.json HTTP/1.1\r".toList (by decide) (by decide) (by decide)
    (by decide)

theorem first_route_eq (env : Env) (mem : List Char) (save_ptr bufEnd : Nat) (line : List Char) :
    first_route line =
      ((route_table env mem save_ptr bufEnd).find? fun e => lineHas line e.1).map Prod.fst := by
  unfold first_route
  rw [← route_table_patterns env mem save_ptr bufEnd, List.find?_map]
  rfl

theorem dispatch_of_first_route (env : Env) (mem : List Char) (save_ptr bufEnd : Nat)
    (line pat : List Char) (h : first_route line = some pat) :
    ∃ b, (pat, b) ∈ route_table env mem save_ptr bufEnd ∧
      dispatch env mem save_ptr bufEnd line = b := by
  rw [first_route_eq env mem save_ptr bufEnd] at h
  rw [dispatch_eq_table_behaviour, table_behaviour]
  cases hf : (route_table env mem save_ptr bufEnd).find? fun e => lineHas line e.1 with
  | none => rw [hf] at h; simp at h
  | some e =>
    rw [hf] at h
    simp only [Option.map_some', Option.some.injEq] at h
    refine ⟨e.2, ?_, rfl⟩
    have := List.mem_of_find?_eq_some hf
    rw [← h]
    exact this

theorem dispatch_ap_json (env : Env) (mem : List Char) (save_ptr bufEnd : Nat)
    (line : List Char) (h : first_route line = some "GET /ap.json ".toList) :
    dispatch env mem save_ptr bufEnd line = some (route_get_ap env) := by
  obtain ⟨b, hb, hd⟩ := dispatch_of_first_route env mem save_ptr bufEnd line _ h
  rw [hd]
  unfold route_table at hb
  simp only [List.mem_cons, Prod.mk.injEq, List.mem_singleton, List.not_mem_nil, or_false] at hb
  rcases hb with h | h | h | h | h | h | h | h | h | h | h | h | h | h | h | h | h
  all_goals first
    | exact h.2
    | exact absurd h.1 (by decide)

/-! ## The branch `POST /connect.json` -/

theorem mem_cstr_ne_NUL (mem : List Char) (p : Nat) (c : Char) (h : c ∈ cstr mem p) :
    (c != NUL) = true := by
  unfold cstr at h
  have := List.mem_takeWhile_imp h
  simpa using this

theorem strncpy_of_prefix_cstr (mem : List Char) (p : Nat) (v : List Char)
    (hv : v <+: cstr mem p) (hc : cstr mem p <+: mem.drop p) :
    strncpy (mem.drop p) v.length = v := by
  unfold strncpy
  have h1 : (mem.drop p).take v.length = v :=
    (List.prefix_iff_eq_take.mp (hv.trans hc)).symm
  rw [h1]
  apply takeWhile_all
  intro c hcm
  exact mem_cstr_ne_NUL mem p c (hv.subset hcm)

theorem get_header_cases (mem : List Char) (p : Nat) (name : List Char) :
    (header_value (cstr mem p) name = none ∧ http_server_get_header mem p name = (none, 0)) ∨
    (∃ v r, header_value (cstr mem p) name = some v ∧
      http_server_get_header mem p name = (some r, v.length) ∧
      (mem.drop r).take v.length = v ∧ strncpy (mem.drop r) v.length = v) := by
  cases hf : findSub (cstr mem p) name with
  | none => exact Or.inl (get_header_not_found mem p name hf)
  | some i =>
    obtain ⟨v, h1, h2, h3, h4, h5⟩ := get_header_found mem p name i hf
    exact Or.inr ⟨v, _, h1, h2, h3, strncpy_of_prefix_cstr mem _ v h5 h4⟩

/-- The calls of `POST /connect.json` for a header text, in the words of the
specification. -/
theorem route_post_connect_spec (env : Env) (mem : List Char) (save_ptr : Nat) :
    route_post_connect env mem save_ptr =
      (match header_value (cstr mem save_ptr) "X-Custom-host_name: ".toList with
       | some h => if h ≠ [] then [Effect.config_set_value "host_name".toList h] else []
       | none => []) ++
      (match header_value (cstr mem save_ptr) "X-Custom-ssid: ".toList,
          header_value (cstr mem save_ptr) "X-Custom-pwd: ".toList with
       | some s, some p =>
         if s.length ≤ env.MAX_SSID_SIZE ∧ p.length ≤ env.MAX_PASSWORD_SIZE then
           [Effect.wifi_manager_connect_async s p, Effect.write http_ok_json_no_cache_hdr]
         else [Effect.write http_400_hdr]
       | _, _ => [Effect.write http_400_hdr]) := by
  unfold route_post_connect
  have hN : (if (http_server_get_header mem save_ptr "X-Custom-host_name: ".toList).2 > 0 then
        match (http_server_get_header mem save_ptr "X-Custom-host_name: ".toList).1 with
        | some h => [Effect.config_set_value "host_name".toList (strncpy (mem.drop h)
            (http_server_get_header mem save_ptr "X-Custom-host_name: ".toList).2)]
        | none => []
      else []) =
      (match header_value (cstr mem save_ptr) "X-Custom-host_name: ".toList with
       | some h => if h ≠ [] then [Effect.config_set_value "host_name".toList h] else []
       | none => []) := by
    rcases get_header_cases mem save_ptr "X-Custom-host_name: ".toList with
      ⟨a1, a2⟩ | ⟨v, r, a1, a2, _, a4⟩
    · rw [a1, a2]
      rfl
    · rw [a1, a2]
      cases v with
      | nil => rfl
      | cons c cs =>
        simp only [List.length_cons] at a4
        simp only [a4, List.length_cons, gt_iff_lt, Nat.zero_lt_succ, if_true, ne_eq,
          reduceCtorEq, not_false_eq_true]
  have hS : (match (http_server_get_header mem save_ptr "X-Custom-ssid: ".toList).1,
        (http_server_get_header mem save_ptr "X-Custom-pwd: ".toList).1 with
      | some s, some p =>
        if (http_server_get_header mem save_ptr "X-Custom-ssid: ".toList).2 ≤ env.MAX_SSID_SIZE ∧
            (http_server_get_header mem save_ptr "X-Custom-pwd: ".toList).2 ≤
              env.MAX_PASSWORD_SIZE then
          [Effect.wifi_manager_connect_async
            ((mem.drop s).take (http_server_get_header mem save_ptr "X-Custom-ssid: ".toList).2)
            ((mem.drop p).take (http_server_get_header mem save_ptr "X-Custom-pwd: ".toList).2),
           Effect.write http_ok_json_no_cache_hdr]
        else [Effect.write http_400_hdr]
      | _, _ => [Effect.write http_400_hdr]) =
      (match header_value (cstr mem save_ptr) "X-Custom-ssid: ".toList,
          header_value (cstr mem save_ptr) "X-Custom-pwd: ".toList with
       | some s, some p =>
         if s.length ≤ env.MAX_SSID_SIZE ∧ p.length ≤ env.MAX_PASSWORD_SIZE then
           [Effect.wifi_manager_connect_async s p, Effect.write http_ok_json_no_cache_hdr]
         else [Effect.write http_400_hdr]
       | _, _ => [Effect.write http_400_hdr]) := by
    rcases get_header_cases mem save_ptr "X-Custom-ssid: ".toList with
      ⟨a1, a2⟩ | ⟨sv, r, a1, a2, a3, _⟩
    · rw [a1, a2]
    · rcases get_header_cases mem save_ptr "X-Custom-pwd: ".toList with
        ⟨b1, b2⟩ | ⟨pv, q, b1, b2, b3, _⟩
      · rw [a1, a2, b1, b2]
      · rw [a1, a2, b1, b2]
        simp only [a3, b3]
  exact congrArg₂ (· ++ ·) hN hS

theorem dispatch_post_connect (env : Env) (mem : List Char) (save_ptr bufEnd : Nat)
    (line : List Char) (h : first_route line = some "POST /connect.json ".toList) :
    dispatch env mem save_ptr bufEnd line = some (route_post_connect env mem save_ptr) := by
  obtain ⟨b, hb, hd⟩ := dispatch_of_first_route env mem save_ptr bufEnd line _ h
  rw [hd]
  unfold route_table at hb
  simp only [List.mem_cons, Prod.mk.injEq, List.mem_singleton, List.not_mem_nil, or_false] at hb
  rcases hb with h | h | h | h | h | h | h | h | h | h | h | h | h | h | h | h | h
  all_goals first
    | exact h.2
    | exact absurd h.1 (by decide)

/-! ## The branch `POST /config.json` -/

theorem strtok_r_drop (m : List Char) :
    (strtok_r m).mem.drop (strtok_r m).save_ptr = m.drop (strtok_r m).save_ptr := by
  unfold strtok_r
  simp only []
  split
  · rfl
  · split
    · exact List.drop_set_of_lt _ _ (Nat.lt_succ_self _)
    · rfl

theorem length_le_render_fields (fs : List CustomField) (rest : List Char) :
    fs.length ≤ (render_fields fs rest).length := by
  induction fs with
  | nil => simp
  | cons f fs ih =>
    have hr : render_fields (f :: fs) rest = f.text ++ render_fields fs rest := rfl
    rw [hr, List.length_append, f.text_length, List.length_cons]
    omega

theorem render_fields_eq_nil (fs : List CustomField) (rest : List Char)
    (h : render_fields fs rest = []) : fs = [] ∧ rest = [] := by
  cases fs with
  | nil => exact ⟨rfl, h⟩
  | cons f fs =>
    have := length_le_render_fields (f :: fs) rest
    rw [h] at this
    simp at this

/-- The calls of the branch `POST /config.json` when the bytes from `save_ptr`
to `bufEnd` are a sequence of well-formed custom fields followed by `rest`. -/
theorem route_post_config_fields (env : Env) (mem : List Char) (save_ptr bufEnd : Nat)
    (fs : List CustomField) (rest tail : List Char)
    (hm : mem.drop save_ptr = render_fields fs rest ++ tail)
    (hb : bufEnd = save_ptr + (render_fields fs rest).length)
    (hwf : ∀ f ∈ fs, f.wf)
    (halloc : ∀ i, i < fs.length → env.name_alloc i = true)
    (hrest : ∀ j, j < rest.length → ¬ "X-Custom-".toList <+: (rest ++ tail).drop j) :
    route_post_config env mem save_ptr bufEnd =
      some (stored_fields fs ++ [Effect.write http_ok_json_no_cache_hdr] ++
        (match ota_url fs none with
         | some url => [Effect.wifi_manager_reboot_ota url]
         | none => [])) := by
  have hfuel : fs.length < bufEnd + 2 := by
    have := length_le_render_fields fs rest
    omega
  obtain ⟨mem', h⟩ := config_loop_fields env bufEnd rest tail hrest fs mem save_ptr 0 none
    (bufEnd + 2) hm hb hwf (fun i hi => by simpa using halloc i hi) hfuel
  unfold route_post_config
  rw [h]
  rfl

/-- The calls of the branch `POST /config.json` when `save_ptr` lies beyond
`bufEnd`. -/
theorem route_post_config_beyond (env : Env) (mem : List Char) (save_ptr bufEnd : Nat)
    (h : bufEnd ≤ save_ptr) :
    route_post_config env mem save_ptr bufEnd =
      some [Effect.write http_ok_json_no_cache_hdr] := by
  have hnf := search_header_not_found mem save_ptr "X-Custom-".toList bufEnd (env.name_alloc 0)
    (by
      intro found hs
      obtain ⟨i, hi, _⟩ := strstr_occurrence _ _ _ _ hs
      omega)
  unfold route_post_config config_loop
  simp only [hnf]
  rfl

theorem dispatch_post_config (env : Env) (mem : List Char) (save_ptr bufEnd : Nat)
    (line : List Char) (h : first_route line = some "POST /config.json ".toList) :
    dispatch env mem save_ptr bufEnd line = route_post_config env mem save_ptr bufEnd := by
  obtain ⟨b, hb, hd⟩ := dispatch_of_first_route env mem save_ptr bufEnd line _ h
  rw [hd]
  unfold route_table at hb
  simp only [List.mem_cons, Prod.mk.injEq, List.mem_singleton, List.not_mem_nil, or_false] at hb
  rcases hb with h | h | h | h | h | h | h | h | h | h | h | h | h | h | h | h | h
  all_goals first
    | exact h.2
    | exact absurd h.1 (by decide)

/-- The trace of a `POST /config.json` request whose bytes after the request
line are a sequence of well-formed custom fields followed by `rest`. -/
theorem serve_post_config (env : Env) (ap rcv tail line : List Char)
    (fs : List CustomField) (rest : List Char)
    (hap : env.ap_ip_address = some ap) (hrcv : rcv ≠ [])
    (hline : request_line rcv tail = some line)
    (hred : request_redirected env ap rcv tail = false)
    (hroute : first_route line = some "POST /config.json ".toList)
    (hblock : request_block rcv tail = render_fields fs rest)
    (hwf : ∀ f ∈ fs, f.wf)
    (halloc : ∀ i, i < fs.length → env.name_alloc i = true)
    (hrest : ∀ j, j < rest.length → ¬ "X-Custom-".toList <+: (rest ++ tail).drop j) :
    http_server_netconn_serve env rcv tail =
      some (sta_ip_calls ++ (stored_fields fs ++ [Effect.write http_ok_json_no_cache_hdr] ++
        (match ota_url fs none with
         | some url => [Effect.wifi_manager_reboot_ota url]
         | none => [])) ++ [Effect.close]) := by
  have hs := serve_of_route env ap rcv tail line hap hrcv hline hred
  rw [dispatch_post_config _ _ _ _ _ hroute] at hs
  unfold request_block request_save_ptr at hblock
  by_cases hsp : (strtok_r (rcv ++ tail)).save_ptr ≤ rcv.length
  · have hm : (strtok_r (rcv ++ tail)).mem.drop (strtok_r (rcv ++ tail)).save_ptr =
        render_fields fs rest ++ tail := by
      rw [strtok_r_drop, List.drop_append_of_le_length hsp, hblock]
    have hb : rcv.length = (strtok_r (rcv ++ tail)).save_ptr + (render_fields fs rest).length := by
      rw [← hblock, List.length_drop]
      omega
    rw [route_post_config_fields env _ _ _ fs rest tail hm hb hwf halloc hrest] at hs
    exact hs
  · have hnil : render_fields fs rest = [] := by
      rw [← hblock]
      exact List.drop_eq_nil_of_le (by omega)
    obtain ⟨rfl, rfl⟩ := render_fields_eq_nil fs rest hnil
    rw [route_post_config_beyond env _ _ _ (by omega)] at hs
    exact hs

/-! ## Well-formed request lines reach their route -/

theorem split_at_blank_unique (x x' y y' : List Char) (hx : ' ' ∉ x) (hx' : ' ' ∉ x')
    (h : x ++ ' ' :: y = x' ++ ' ' :: y') : x = x' ∧ y = y' := by
  induction x generalizing x' with
  | nil =>
    cases x' with
    | nil => exact ⟨rfl, by simpa using h⟩
    | cons b xs' =>
      simp only [List.nil_append, List.cons_append, List.cons.injEq] at h
      exact absurd (by rw [← h.1]; simp) hx'
  | cons a xs ih =>
    cases x' with
    | nil =>
      simp only [List.nil_append, List.cons_append, List.cons.injEq] at h
      exact absurd (by rw [h.1]; simp) hx
    | cons b xs' =>
      simp only [List.cons_append, List.cons.injEq] at h
      obtain ⟨h1, h2⟩ := ih xs' (fun hm => hx (List.mem_cons_of_mem _ hm))
        (fun hm => hx' (List.mem_cons_of_mem _ hm)) h.2
      exact ⟨by rw [h.1, h1], h2⟩

theorem pattern_in_request_line (m q v m' q' : List Char)
    (hm : ' ' ∉ m) (hq : ' ' ∉ q) (hv : ' ' ∉ v) (hm' : ' ' ∉ m') (hq' : ' ' ∉ q')
    (h : (m' ++ ' ' :: (q' ++ [' '])) <:+: (m ++ ' ' :: (q ++ ' ' :: v))) :
    m' <:+ m ∧ q' = q := by
  obtain ⟨a, b, hab⟩ := h
  have hcount := congrArg (List.count ' ') hab
  simp only [List.count_append, List.count_cons_self, List.count_nil,
    List.count_eq_zero_of_not_mem hm, List.count_eq_zero_of_not_mem hq,
    List.count_eq_zero_of_not_mem hv, List.count_eq_zero_of_not_mem hm',
    List.count_eq_zero_of_not_mem hq'] at hcount
  have ha : ' ' ∉ a := by
    apply List.count_eq_zero.mp
    omega
  have hab' : (a ++ m') ++ ' ' :: (q' ++ ' ' :: b) = m ++ ' ' :: (q ++ ' ' :: v) := by
    rw [← hab]
    simp [List.append_assoc]
  have ham : ' ' ∉ a ++ m' := by
    intro hmem
    rcases List.mem_append.mp hmem with h1 | h1
    · exact ha h1
    · exact hm' h1
  obtain ⟨h1, h2⟩ := split_at_blank_unique _ _ _ _ ham hm hab'
  obtain ⟨h3, _⟩ := split_at_blank_unique _ _ _ _ hq' hq h2
  exact ⟨⟨a, h1⟩, h3⟩

theorem find?_eq_some_of_unique (l : List (List Char)) (P : List Char → Bool) (x : List Char)
    (hx : x ∈ l) (hP : P x = true) (huniq : ∀ y ∈ l, P y = true → y = x) :
    l.find? P = some x := by
  cases hf : l.find? P with
  | none =>
    have := List.find?_eq_none.mp hf x hx
    exact absurd hP this
  | some y =>
    have h1 := List.mem_of_find?_eq_some hf
    have h2 := List.find?_some hf
    rw [huniq y h1 h2]

theorem route_names_facts :
    (∀ r ∈ route_names, ' ' ∉ r.1 ∧ ' ' ∉ r.2) ∧
    (∀ r ∈ route_names, ∀ r' ∈ route_names, r'.1 <:+ r.1 → r'.2 = r.2 → r' = r) := by
  decide

/-- A request line `<METHOD> <PATH> <VERSION>` whose method and path are an
entry of the route table, and whose version holds no blank, is dispatched to
that entry. -/
theorem first_route_of_request_line (m q version : List Char)
    (hr : (m, q) ∈ route_names) (hv : ' ' ∉ version) :
    first_route (m ++ ' ' :: (q ++ ' ' :: version)) = some (route_pattern (m, q)) := by
  obtain ⟨hblank, huniq⟩ := route_names_facts
  unfold first_route route_patterns
  apply find?_eq_some_of_unique
  · exact List.mem_map_of_mem _ hr
  · unfold lineHas
    rw [findSub_of_isPrefixOf]
    · rfl
    · apply List.isPrefixOf_iff_prefix.mpr
      exact ⟨version, by simp [route_pattern, List.append_assoc]⟩
  · intro y hy hP
    obtain ⟨r', hr', rfl⟩ := List.mem_map.mp hy
    have hinf := (findSub_isSome_iff _ _).mp hP
    obtain ⟨h1, h2⟩ := pattern_in_request_line m q version r'.1 r'.2 (hblank _ hr).1
      (hblank _ hr).2 hv (hblank _ hr').1 (hblank _ hr').2 hinf
    rw [huniq (m, q) hr r' hr' h1 h2]

/-- C8.  For every request that is not redirected and whose request line is
dispatched to `GET /ap.json`, whether the JSON lock is acquired or not and
whether the AP list is available or NULL: `wifi_manager_scan_async` is called
exactly once, as the last call before the close and so after every write; and
when the lock is not acquired the bytes written are exactly the 503 header. -/
theorem ap_json_scans_once (env : Env) (ap rcv tail line : List Char)
    (hap : env.ap_ip_address = some ap) (hrcv : rcv ≠ [])
    (hline : request_line rcv tail = some line)
    (hred : request_redirected env ap rcv tail = false)
    (hroute : first_route line = some "GET /ap.json ".toList) :
    ∃ pre, http_server_netconn_serve env rcv tail =
        some (pre ++ [Effect.wifi_manager_scan_async, Effect.close]) ∧
      (pre ++ [Effect.wifi_manager_scan_async, Effect.close]).count
        Effect.wifi_manager_scan_async = 1 ∧
      (env.json_lock = false → written pre = http_503_hdr) := by
  have hs := serve_of_route env ap rcv tail line hap hrcv hline hred
  rw [dispatch_ap_json _ _ _ _ _ hroute] at hs
  rw [hs]
  unfold route_get_ap sta_ip_calls
  cases hl : env.json_lock
  · refine ⟨[Effect.wifi_manager_lock_sta_ip_string, Effect.wifi_manager_unlock_sta_ip_string,
      Effect.wifi_manager_lock_json_buffer false, Effect.write http_503_hdr], ?_, ?_, ?_⟩
    · simp
    · decide
    · intro _
      simp [written]
  · cases hj : env.ap_list_json with
    | none =>
      refine ⟨[Effect.wifi_manager_lock_sta_ip_string, Effect.wifi_manager_unlock_sta_ip_string,
        Effect.wifi_manager_lock_json_buffer true, Effect.write http_ok_json_no_cache_hdr,
        Effect.wifi_manager_unlock_json_buffer, Effect.write http_503_hdr], ?_, ?_, ?_⟩
      · simp
      · decide
      · intro h; cases h
    | some buff =>
      refine ⟨[Effect.wifi_manager_lock_sta_ip_string, Effect.wifi_manager_unlock_sta_ip_string,
        Effect.wifi_manager_lock_json_buffer true, Effect.write http_ok_json_no_cache_hdr,
        Effect.wifi_manager_unlock_json_buffer, Effect.write buff], ?_, ?_, ?_⟩
      · simp
      · simp [List.count_cons]
      · intro h; cases h

/-- C8, witness: the request `GET /ap.json HTTP/1.1` when the lock times out. -/
theorem ap_json_scans_once_witness :
    ∃ pre, http_server_netconn_serve { sample_env with json_lock := false } ap_json_request [] =
        some (pre ++ [Effect.wifi_manager_scan_async, Effect.close]) ∧
      (pre ++ [Effect.wifi_manager_scan_async, Effect.close]).count
        Effect.wifi_manager_scan_async = 1 ∧
      (({ sample_env with json_lock := false } : Env).json_lock = false →
        written pre = http_503_hdr) :=
  ap_json_scans_once { sample_env with json_lock := false } "192.168.4.1".toList
    ap_json_request [] "GET /ap.json HTTP/1.1\r".toList (by decide) (by decide) (by decide)
    (by decide) (by decide)

/-- C9, the code at the failing input.  For `GET /ap.json`, when the JSON lock is
acquired and `wifi_manager_alloc_get_ap_list_json` returns NULL, the 200 JSON
header is written first and the 503 header after it: the bytes written hold
two status lines. -/
theorem ap_json_writes_503_after_200 :
    http_server_netconn_serve { sample_env with ap_list_json := none } ap_json_request [] =
      some [Effect.wifi_manager_lock_sta_ip_string, Effect.wifi_manager_unlock_sta_ip_string,
        Effect.wifi_manager_lock_json_buffer true, Effect.write http_ok_json_no_cache_hdr,
        Effect.wifi_manager_unlock_json_buffer, Effect.write http_503_hdr,
        Effect.wifi_manager_scan_async, Effect.close] ∧
    (http_server_netconn_serve { sample_env with ap_list_json := none } ap_json_request []).map
        written = some (http_ok_json_no_cache_hdr ++ http_503_hdr) := by
  decide

/-- C10, the code at the failing input.  A first fragment of 2000 bytes leaves
`buflen = 2000` and `bufsize = 2048`.  For a second fragment of 3000 bytes the
capacity grows by `max(2048, rcvlen - bufsize) = 2048` to 4096, less than the
5000 bytes needed, and the copy of the fragment runs past the allocation. -/
theorem growth_ignores_buflen :
    recv_bufsize 0 0 2000 = 2048 ∧
    (∀ frag : List Char, frag.length = 2000 →
      recv_append ⟨[], 0, 0⟩ frag = some ⟨frag, 2000, 2048⟩) ∧
    recv_bufsize 2000 2048 3000 = 4096 ∧
    recv_bufsize 2000 2048 3000 < 2000 + 3000 ∧
    (∀ buf frag : List Char, frag.length = 3000 →
      recv_append ⟨buf, 2000, 2048⟩ frag = none) := by
  have h1 : recv_bufsize 0 0 2000 = 2048 := by decide
  have h2 : recv_bufsize 2000 2048 3000 = 4096 := by decide
  refine ⟨h1, ?_, h2, ?_, ?_⟩
  · intro frag hf
    simp only [recv_append, hf, h1, List.nil_append]
    rw [if_pos (by decide)]
  · rw [h2]
    decide
  · intro buf frag hf
    simp only [recv_append, hf, h2]
    rw [if_neg (by decide)]

theorem serve_post_connect (env : Env) (ap rcv tail line : List Char)
    (hap : env.ap_ip_address = some ap) (hrcv : rcv ≠ [])
    (hline : request_line rcv tail = some line)
    (hred : request_redirected env ap rcv tail = false)
    (hroute : first_route line = some "POST /connect.json ".toList) :
    ∃ hp, (hp = [] ∨ ∃ h, hp = [Effect.config_set_value "host_name".toList h]) ∧
      http_server_netconn_serve env rcv tail =
        some (sta_ip_calls ++ (hp ++
          (match header_value (request_text rcv tail) "X-Custom-ssid: ".toList,
              header_value (request_text rcv tail) "X-Custom-pwd: ".toList with
           | some s, some p =>
             if s.length ≤ env.MAX_SSID_SIZE ∧ p.length ≤ env.MAX_PASSWORD_SIZE then
               [Effect.wifi_manager_connect_async s p, Effect.write http_ok_json_no_cache_hdr]
             else [Effect.write http_400_hdr]
           | _, _ => [Effect.write http_400_hdr])) ++ [Effect.close]) := by
  have hs := serve_of_route env ap rcv tail line hap hrcv hline hred
  rw [dispatch_post_connect _ _ _ _ _ hroute, route_post_connect_spec] at hs
  refine ⟨_, ?_, hs⟩
  cases header_value (cstr (strtok_r (rcv ++ tail)).mem (strtok_r (rcv ++ tail)).save_ptr)
      "X-Custom-host_name: ".toList with
  | none => exact Or.inl rfl
  | some h =>
    by_cases hh : h = []
    · left; simp [hh]
    · right; exact ⟨h, by simp [hh]⟩

/-- C7.  For every request that is not redirected and whose request line is
dispatched to `POST /connect.json`: when the headers `X-Custom-ssid: ` and
`X-Custom-pwd: ` both occur in the text after the request line, with values of
at most `MAX_SSID_SIZE` and `MAX_PASSWORD_SIZE` bytes, the trace ends with one
call of `wifi_manager_connect_async` made with these two values copied into the
station config, the write of the 200 JSON header and the close, and nothing is
written and no connect is requested before; in every other case the bytes
written are exactly the 400 header and `wifi_manager_connect_async` is not
called. -/
theorem connect_json_iff (env : Env) (ap rcv tail line : List Char)
    (hap : env.ap_ip_address = some ap) (hrcv : rcv ≠ [])
    (hline : request_line rcv tail = some line)
    (hred : request_redirected env ap rcv tail = false)
    (hroute : first_route line = some "POST /connect.json ".toList) :
    (∀ ssid pwd,
      header_value (request_text rcv tail) "X-Custom-ssid: ".toList = some ssid →
      header_value (request_text rcv tail) "X-Custom-pwd: ".toList = some pwd →
      ssid.length ≤ env.MAX_SSID_SIZE → pwd.length ≤ env.MAX_PASSWORD_SIZE →
      ∃ pre, http_server_netconn_serve env rcv tail =
          some (pre ++ [Effect.wifi_manager_connect_async ssid pwd,
            Effect.write http_ok_json_no_cache_hdr, Effect.close]) ∧
        written pre = [] ∧ ∀ s p, Effect.wifi_manager_connect_async s p ∉ pre) ∧
    ((¬ ∃ ssid pwd,
        header_value (request_text rcv tail) "X-Custom-ssid: ".toList = some ssid ∧
        header_value (request_text rcv tail) "X-Custom-pwd: ".toList = some pwd ∧
        ssid.length ≤ env.MAX_SSID_SIZE ∧ pwd.length ≤ env.MAX_PASSWORD_SIZE) →
      ∃ es, http_server_netconn_serve env rcv tail = some es ∧
        written es = http_400_hdr ∧ ∀ s p, Effect.wifi_manager_connect_async s p ∉ es) := by
  obtain ⟨hp, hhp, hs⟩ := serve_post_connect env ap rcv tail line hap hrcv hline hred hroute
  constructor
  · intro ssid pwd h1 h2 h3 h4
    rw [h1, h2] at hs
    simp only [h3, h4, and_self, if_true] at hs
    refine ⟨sta_ip_calls ++ hp, by rw [hs]; simp, ?_, ?_⟩
    · rcases hhp with rfl | ⟨h, rfl⟩ <;> simp [written, sta_ip_calls]
    · intro s p
      rcases hhp with rfl | ⟨h, rfl⟩ <;> simp [sta_ip_calls]
  · intro hno
    have hbad : (match header_value (request_text rcv tail) "X-Custom-ssid: ".toList,
              header_value (request_text rcv tail) "X-Custom-pwd: ".toList with
           | some s, some p =>
             if s.length ≤ env.MAX_SSID_SIZE ∧ p.length ≤ env.MAX_PASSWORD_SIZE then
               [Effect.wifi_manager_connect_async s p, Effect.write http_ok_json_no_cache_hdr]
             else [Effect.write http_400_hdr]
           | _, _ => [Effect.write http_400_hdr]) = [Effect.write http_400_hdr] := by
      cases h1 : header_value (request_text rcv tail) "X-Custom-ssid: ".toList with
      | none => rfl
      | some s =>
        cases h2 : header_value (request_text rcv tail) "X-Custom-pwd: ".toList with
        | none => rfl
        | some p =>
          have : ¬ (s.length ≤ env.MAX_SSID_SIZE ∧ p.length ≤ env.MAX_PASSWORD_SIZE) :=
            fun hc => hno ⟨s, p, h1, h2, hc.1, hc.2⟩
          simp only [this, if_false]
    rw [hbad] at hs
    refine ⟨_, hs, ?_, ?_⟩
    · rcases hhp with rfl | ⟨h, rfl⟩ <;> simp [written, sta_ip_calls]
    · intro s p
      rcases hhp with rfl | ⟨h, rfl⟩ <;> simp [sta_ip_calls]

/-- C7, witness: a request with ssid `home`, password `secret` and host name
`player`. -/
theorem connect_json_iff_witness :
    (∀ ssid pwd,
      header_value (request_text connect_request []) "X-Custom-ssid: ".toList = some ssid →
      header_value (request_text connect_request []) "X-Custom-pwd: ".toList = some pwd →
      ssid.length ≤ sample_env.MAX_SSID_SIZE → pwd.length ≤ sample_env.MAX_PASSWORD_SIZE →
      ∃ pre, http_server_netconn_serve sample_env connect_request [] =
          some (pre ++ [Effect.wifi_manager_connect_async ssid pwd,
            Effect.write http_ok_json_no_cache_hdr, Effect.close]) ∧
        written pre = [] ∧ ∀ s p, Effect.wifi_manager_connect_async s p ∉ pre) ∧
    ((¬ ∃ ssid pwd,
        header_value (request_text connect_request []) "X-Custom-ssid: ".toList = some ssid ∧
        header_value (request_text connect_request []) "X-Custom-pwd: ".toList = some pwd ∧
        ssid.length ≤ sample_env.MAX_SSID_SIZE ∧ pwd.length ≤ sample_env.MAX_PASSWORD_SIZE) →
      ∃ es, http_server_netconn_serve sample_env connect_request [] = some es ∧
        written es = http_400_hdr ∧ ∀ s p, Effect.wifi_manager_connect_async s p ∉ es) :=
  connect_json_iff sample_env "192.168.4.1".toList connect_request []
    "POST /connect.json HTTP/1.1\r".toList (by decide) (by decide) (by decide) (by decide)
    (by decide)

theorem stored_fields_of_no_fwurl (fs : List CustomField)
    (h : ∀ f ∈ fs, f.key ≠ "fwurl".toList) :
    stored_fields fs = fs.map fun f => Effect.config_set_value f.key f.value := by
  induction fs with
  | nil => rfl
  | cons f fs ih =>
    rw [stored_fields_cons_ne f fs (h f (List.mem_cons_self _ _)),
      ih (fun g hg => h g (List.mem_cons_of_mem _ hg))]
    rfl

theorem stored_fields_append (a b : List CustomField) :
    stored_fields (a ++ b) = stored_fields a ++ stored_fields b := by
  unfold stored_fields
  rw [List.filter_append, List.map_append]

theorem ota_url_of_no_fwurl (fs : List CustomField) (o : Option (List Char))
    (h : ∀ f ∈ fs, f.key ≠ "fwurl".toList) : ota_url fs o = o := by
  induction fs generalizing o with
  | nil => rfl
  | cons f fs ih =>
    rw [ota_url_cons, if_neg (h f (List.mem_cons_self _ _))]
    exact ih o (fun g hg => h g (List.mem_cons_of_mem _ hg))

theorem ota_url_append (a b : List CustomField) (o : Option (List Char)) :
    ota_url (a ++ b) o = ota_url b (ota_url a o) := by
  unfold ota_url
  rw [List.foldl_append]

/-- C5.  For every request that is not redirected, whose request line is
dispatched to `POST /config.json`, and whose bytes after the request line are
N well-formed custom fields `X-Custom-<key>: <value>` with no key equal to
`fwurl`, each after a text without NUL and without `X-Custom-`, followed by a
rest in which no occurrence of `X-Custom-` begins: when the N names are
allocated, the calls made are the station-address lock and unlock,
`config_set_value(key, value)` once per field in the order of the lines, the
write of the 200 JSON header and the close; `wifi_manager_reboot_ota` is not
called. -/
theorem post_config_stores_fields (env : Env) (ap rcv tail line : List Char)
    (fs : List CustomField) (rest : List Char)
    (hap : env.ap_ip_address = some ap) (hrcv : rcv ≠ [])
    (hline : request_line rcv tail = some line)
    (hred : request_redirected env ap rcv tail = false)
    (hroute : first_route line = some "POST /config.json ".toList)
    (hblock : request_block rcv tail = render_fields fs rest)
    (hwf : ∀ f ∈ fs, f.wf)
    (hkeys : ∀ f ∈ fs, f.key ≠ "fwurl".toList)
    (halloc : ∀ i, i < fs.length → env.name_alloc i = true)
    (hrest : ∀ j, j < rest.length → ¬ "X-Custom-".toList <+: (rest ++ tail).drop j) :
    http_server_netconn_serve env rcv tail =
      some (sta_ip_calls ++ (fs.map fun f => Effect.config_set_value f.key f.value) ++
        [Effect.write http_ok_json_no_cache_hdr, Effect.close]) := by
  rw [serve_post_config env ap rcv tail line fs rest hap hrcv hline hred hroute hblock hwf
    halloc hrest, stored_fields_of_no_fwurl fs hkeys, ota_url_of_no_fwurl fs none hkeys]
  simp

/-- C5, witness: a request with the fields `a: 1` and `b: 2`, followed in memory by
the bytes `junk`. -/
theorem post_config_stores_fields_witness :
    http_server_netconn_serve sample_env config_request "junk".toList =
      some (sta_ip_calls ++
        (config_request_fields.map fun f => Effect.config_set_value f.key f.value) ++
        [Effect.write http_ok_json_no_cache_hdr, Effect.close]) :=
  post_config_stores_fields sample_env "192.168.4.1".toList config_request "junk".toList
    "POST /config.json HTTP/1.1\r".toList config_request_fields "\n\r\n".toList
    (by decide) (by decide) (by decide) (by decide) (by decide) (by decide) (by decide)
    (by decide) (by decide) (by decide)

/-- C6.  For every request that is not redirected, whose request line is
dispatched to `POST /config.json`, and whose bytes after the request line are
well-formed custom fields of which one has the key `fwurl`, the others not:
`wifi_manager_reboot_ota` is called exactly once, with the value of the `fwurl`
field, right after the write of the 200 JSON header; the other fields are
passed to `config_set_value` before, and `config_set_value` is never called
with the key `fwurl`. -/
theorem post_config_fwurl_triggers_ota (env : Env) (ap rcv tail line : List Char)
    (fs1 fs2 : List CustomField) (fw : CustomField) (rest : List Char)
    (hap : env.ap_ip_address = some ap) (hrcv : rcv ≠ [])
    (hline : request_line rcv tail = some line)
    (hred : request_redirected env ap rcv tail = false)
    (hroute : first_route line = some "POST /config.json ".toList)
    (hblock : request_block rcv tail = render_fields (fs1 ++ fw :: fs2) rest)
    (hwf : ∀ f ∈ fs1 ++ fw :: fs2, f.wf)
    (hfw : fw.key = "fwurl".toList)
    (hkeys : ∀ f ∈ fs1 ++ fs2, f.key ≠ "fwurl".toList)
    (halloc : ∀ i, i < (fs1 ++ fw :: fs2).length → env.name_alloc i = true)
    (hrest : ∀ j, j < rest.length → ¬ "X-Custom-".toList <+: (rest ++ tail).drop j) :
    http_server_netconn_serve env rcv tail =
      some (sta_ip_calls ++ ((fs1 ++ fs2).map fun f => Effect.config_set_value f.key f.value) ++
        [Effect.write http_ok_json_no_cache_hdr, Effect.wifi_manager_reboot_ota fw.value,
         Effect.close]) ∧
    ∀ es, http_server_netconn_serve env rcv tail = some es →
      ∀ v, Effect.config_set_value "fwurl".toList v ∉ es := by
  have h1 : ∀ f ∈ fs1, f.key ≠ "fwurl".toList :=
    fun f hf => hkeys f (List.mem_append_left _ hf)
  have h2 : ∀ f ∈ fs2, f.key ≠ "fwurl".toList :=
    fun f hf => hkeys f (List.mem_append_right _ hf)
  have hst : stored_fields (fs1 ++ fw :: fs2) =
      (fs1 ++ fs2).map fun f => Effect.config_set_value f.key f.value := by
    rw [stored_fields_append, stored_fields_cons_eq fw fs2 hfw, ← stored_fields_append,
      stored_fields_of_no_fwurl _ hkeys]
  have hota : ota_url (fs1 ++ fw :: fs2) none = some fw.value := by
    rw [ota_url_append, ota_url_cons, if_pos hfw, ota_url_of_no_fwurl fs2 _ h2]
  have hs := serve_post_config env ap rcv tail line (fs1 ++ fw :: fs2) rest hap hrcv hline hred
    hroute hblock hwf halloc hrest
  rw [hst, hota] at hs
  have hs' : http_server_netconn_serve env rcv tail =
      some (sta_ip_calls ++ ((fs1 ++ fs2).map fun f => Effect.config_set_value f.key f.value) ++
        [Effect.write http_ok_json_no_cache_hdr, Effect.wifi_manager_reboot_ota fw.value,
         Effect.close]) := by
    rw [hs]
    simp
  refine ⟨hs', ?_⟩
  intro es hes v hv
  rw [hs'] at hes
  cases hes
  simp only [List.mem_append, List.mem_map, List.mem_cons, List.mem_singleton, sta_ip_calls,
    reduceCtorEq, List.not_mem_nil, or_false, false_or] at hv
  obtain ⟨f, hf, hfe⟩ := hv
  simp only [Effect.config_set_value.injEq] at hfe
  exact hkeys f (List.mem_append.mpr hf) hfe.1

/-- C6, witness: a request with the fields `a: 1`, `fwurl: http://h/fw.bin` and
`b: 2`. -/
theorem post_config_fwurl_triggers_ota_witness :
    http_server_netconn_serve sample_env fwurl_request [] =
      some (sta_ip_calls ++
        (([field_a] ++ [field_b]).map fun f =>
          Effect.config_set_value f.key f.value) ++
        [Effect.write http_ok_json_no_cache_hdr,
         Effect.wifi_manager_reboot_ota fwurl_request_field.value, Effect.close]) ∧
    ∀ es, http_server_netconn_serve sample_env fwurl_request [] = some es →
      ∀ v, Effect.config_set_value "fwurl".toList v ∉ es :=
  post_config_fwurl_triggers_ota sample_env "192.168.4.1".toList fwurl_request []
    "POST /config.json HTTP/1.1\r".toList [field_a] [field_b] fwurl_request_field "\n\r\n".toList
    (by decide) (by decide) (by decide) (by decide) (by decide) (by decide) (by decide)
    (by decide) (by decide) (by decide) (by decide)

/-! ## The branches `GET /status.json` and `POST /config.json`, for every outcome -/

theorem dispatch_get_status (env : Env) (mem : List Char) (save_ptr bufEnd : Nat)
    (line : List Char) (h : first_route line = some "GET /status.json ".toList) :
    dispatch env mem save_ptr bufEnd line = some (route_get_status env) := by
  obtain ⟨b, hb, hd⟩ := dispatch_of_first_route env mem save_ptr bufEnd line _ h
  rw [hd]
  unfold route_table at hb
  simp only [List.mem_cons, Prod.mk.injEq, List.mem_singleton, List.not_mem_nil, or_false] at hb
  rcases hb with h | h | h | h | h | h | h | h | h | h | h | h | h | h | h | h | h
  all_goals first
    | exact h.2
    | exact absurd h.1 (by decide)

/-- The loop of `POST /config.json` calls nothing but `config_set_value`. -/
theorem config_loop_effects (env : Env) (bufEnd : Nat) :
    ∀ (fuel : Nat) (mem : List Char) (p n : Nat) (ota : Option (List Char)) (s : ConfigLoop),
      config_loop env bufEnd fuel mem p n ota = some s →
      ∀ e ∈ s.effects, ∃ k v, e = Effect.config_set_value k v := by
  intro fuel
  induction fuel with
  | zero =>
    intro mem p n ota s h
    simp [config_loop] at h
  | succ f ih =>
    intro mem p n ota s h
    unfold config_loop at h
    simp only [] at h
    split at h
    · split at h
      · split at h
        · exact ih _ _ _ _ _ h
        · cases hrec : config_loop env bufEnd f
            (http_server_search_header mem p "X-Custom-".toList bufEnd (env.name_alloc n)).mem
            ‹Nat› (n + 1) ota with
          | none => rw [hrec] at h; simp at h
          | some s' =>
            rw [hrec] at h
            simp only [Option.map_some', Option.some.injEq] at h
            subst h
            intro e he
            simp only [List.mem_cons] at he
            rcases he with rfl | he
            · exact ⟨_, _, rfl⟩
            · exact ih _ _ _ _ _ hrec e he
      · exact ih _ _ _ _ _ h
    · simp only [Option.some.injEq] at h
      subst h
      intro e he
      simp at he

/-- The trace of the branch `POST /config.json`, for every buffer. -/
theorem route_post_config_shape (env : Env) (mem : List Char) (save_ptr bufEnd : Nat) :
    ∃ sets ota, (∀ e ∈ sets, ∃ k v, e = Effect.config_set_value k v) ∧
      (ota = [] ∨ ∃ url, ota = [Effect.wifi_manager_reboot_ota url]) ∧
      route_post_config env mem save_ptr bufEnd =
        some (sets ++ [Effect.write http_ok_json_no_cache_hdr] ++ ota) := by
  have ht := config_loop_terminates env bufEnd (bufEnd + 2) mem save_ptr 0 none (by omega)
    (by omega)
  obtain ⟨s, hs⟩ := Option.isSome_iff_exists.mp ht
  have he := config_loop_effects env bufEnd _ _ _ _ _ s hs
  unfold route_post_config
  rw [hs]
  refine ⟨s.effects, _, he, ?_, rfl⟩
  cases s.otaURL with
  | none => exact Or.inl rfl
  | some url => exact Or.inr ⟨url, rfl⟩

/-- C18.  For every request that is not redirected and whose request line is
dispatched to `GET /status.json`: when the JSON lock is not acquired the only
write is the 503 header and the lock is not released; when it is acquired it
is released once, before any write, and then the 503 header alone is written
if the status JSON is NULL, the 200 no-cache JSON header followed by the
status JSON otherwise. -/
theorem status_json_responses (env : Env) (ap rcv tail line : List Char)
    (hap : env.ap_ip_address = some ap) (hrcv : rcv ≠ [])
    (hline : request_line rcv tail = some line)
    (hred : request_redirected env ap rcv tail = false)
    (hroute : first_route line = some "GET /status.json ".toList) :
    (env.json_lock = false →
      http_server_netconn_serve env rcv tail =
        some (sta_ip_calls ++ [Effect.wifi_manager_lock_json_buffer false,
          Effect.write http_503_hdr, Effect.close])) ∧
    (env.json_lock = true → env.ip_info_json = none →
      http_server_netconn_serve env rcv tail =
        some (sta_ip_calls ++ [Effect.wifi_manager_lock_json_buffer true,
          Effect.wifi_manager_unlock_json_buffer, Effect.write http_503_hdr, Effect.close])) ∧
    (∀ json, env.json_lock = true → env.ip_info_json = some json →
      http_server_netconn_serve env rcv tail =
        some (sta_ip_calls ++ [Effect.wifi_manager_lock_json_buffer true,
          Effect.wifi_manager_unlock_json_buffer, Effect.write http_ok_json_no_cache_hdr,
          Effect.write json, Effect.close])) := by
  have hs := serve_of_route env ap rcv tail line hap hrcv hline hred
  rw [dispatch_get_status _ _ _ _ _ hroute] at hs
  rw [hs]
  unfold route_get_status
  refine ⟨?_, ?_, ?_⟩
  · intro hl
    simp [hl]
  · intro hl hj
    simp [hl, hj]
  · intro json hl hj
    simp [hl, hj]

/-- C18, witness: the request `GET /status.json HTTP/1.1` with the lock
acquired and the status JSON `{}`. -/
theorem status_json_responses_witness :
    (sample_env.json_lock = false →
      http_server_netconn_serve sample_env status_request [] =
        some (sta_ip_calls ++ [Effect.wifi_manager_lock_json_buffer false,
          Effect.write http_503_hdr, Effect.close])) ∧
    (sample_env.json_lock = true → sample_env.ip_info_json = none →
      http_server_netconn_serve sample_env status_request [] =
        some (sta_ip_calls ++ [Effect.wifi_manager_lock_json_buffer true,
          Effect.wifi_manager_unlock_json_buffer, Effect.write http_503_hdr, Effect.close])) ∧
    (∀ json, sample_env.json_lock = true → sample_env.ip_info_json = some json →
      http_server_netconn_serve sample_env status_request [] =
        some (sta_ip_calls ++ [Effect.wifi_manager_lock_json_buffer true,
          Effect.wifi_manager_unlock_json_buffer, Effect.write http_ok_json_no_cache_hdr,
          Effect.write json, Effect.close])) :=
  status_json_responses sample_env "192.168.4.1".toList status_request []
    "GET /status.json HTTP/1.1\r".toList (by decide) (by decide) (by decide) (by decide)
    (by decide)

/-- C19.  For every request that is not redirected and whose request line is
dispatched to `POST /config.json`, whatever bytes follow the request line and
whatever the allocations answer, the bytes written are exactly the 200
no-cache JSON header and the 400 header is not written.  The result of
`config_set_value` is only logged by the code, so the trace does not depend on
it. -/
theorem post_config_always_200 (env : Env) (ap rcv tail line : List Char)
    (hap : env.ap_ip_address = some ap) (hrcv : rcv ≠ [])
    (hline : request_line rcv tail = some line)
    (hred : request_redirected env ap rcv tail = false)
    (hroute : first_route line = some "POST /config.json ".toList) :
    ∃ es, http_server_netconn_serve env rcv tail = some es ∧
      written es = http_ok_json_no_cache_hdr ∧ Effect.write http_400_hdr ∉ es := by
  have hs := serve_of_route env ap rcv tail line hap hrcv hline hred
  rw [dispatch_post_config _ _ _ _ _ hroute] at hs
  obtain ⟨sets, ota, hsets, hota, hr⟩ := route_post_config_shape env
    (strtok_r (rcv ++ tail)).mem (strtok_r (rcv ++ tail)).save_ptr rcv.length
  rw [hr] at hs
  refine ⟨_, hs, ?_, ?_⟩
  · have hw : written sets = [] := by
      clear hr hs
      induction sets with
      | nil => rfl
      | cons e es ih =>
        obtain ⟨k, v, rfl⟩ := hsets _ (List.mem_cons_self _ _)
        simp only [written]
        exact ih (fun x hx => hsets x (List.mem_cons_of_mem _ hx))
    have happ : ∀ a b : List Effect, written (a ++ b) = written a ++ written b := by
      intro a b
      induction a with
      | nil => rfl
      | cons e es ih =>
        cases e <;> simp [written, ih]
    rcases hota with rfl | ⟨url, rfl⟩ <;>
      simp [happ, hw, written, sta_ip_calls]
  · intro hmem
    simp only [Option.map_some', List.mem_append, List.mem_cons, List.mem_singleton,
      sta_ip_calls, reduceCtorEq, List.not_mem_nil, or_false, false_or,
      Effect.write.injEq] at hmem
    rcases hmem with (h | h) | h
    · obtain ⟨k, v, hk⟩ := hsets _ h
      cases hk
    · exact absurd h (by decide)
    · rcases hota with rfl | ⟨url, rfl⟩ <;> simp at h

/-- C19, witness: a request with a custom line without colon and one without
line end, when no name can be allocated. -/
theorem post_config_always_200_witness :
    ∃ es, http_server_netconn_serve { sample_env with name_alloc := fun _ => false }
        malformed_config_request "junk".toList = some es ∧
      written es = http_ok_json_no_cache_hdr ∧ Effect.write http_400_hdr ∉ es :=
  post_config_always_200 { sample_env with name_alloc := fun _ => false }
    "192.168.4.1".toList malformed_config_request "junk".toList
    "POST /config.json HTTP/1.1\r".toList (by decide) (by decide) (by decide) (by decide)
    (by decide)

/-! ## The connection is closed once, at the end -/

theorem close_not_mem_send_resource_file (env : Env) (asset ct enc : List Char) :
    Effect.close ∉ http_server_send_resource_file env asset ct enc := by
  unfold http_server_send_resource_file
  cases env.hdr_alloc <;> simp

theorem close_not_mem_route_post_connect (env : Env) (mem : List Char) (save_ptr : Nat) :
    Effect.close ∉ route_post_connect env mem save_ptr := by
  rw [route_post_connect_spec]
  cases header_value (cstr mem save_ptr) "X-Custom-host_name: ".toList <;>
    cases header_value (cstr mem save_ptr) "X-Custom-ssid: ".toList <;>
    cases header_value (cstr mem save_ptr) "X-Custom-pwd: ".toList <;>
    simp <;> split <;> simp

theorem close_not_mem_route_post_config (env : Env) (mem : List Char) (save_ptr bufEnd : Nat)
    (es : List Effect) (h : route_post_config env mem save_ptr bufEnd = some es) :
    Effect.close ∉ es := by
  obtain ⟨sets, ota, hsets, hota, hr⟩ := route_post_config_shape env mem save_ptr bufEnd
  rw [hr] at h
  cases h
  intro hmem
  simp only [List.mem_append, List.mem_cons, List.mem_singleton, reduceCtorEq,
    List.not_mem_nil, or_false] at hmem
  rcases hmem with h | h
  · obtain ⟨k, v, hk⟩ := hsets _ h
    cases hk
  · rcases hota with rfl | ⟨url, rfl⟩ <;> simp at h

theorem close_not_mem_dispatch (env : Env) (mem : List Char) (save_ptr bufEnd : Nat)
    (line : List Char) (es : List Effect)
    (h : dispatch env mem save_ptr bufEnd line = some es) : Effect.close ∉ es := by
  have hall : ∀ e ∈ route_table env mem save_ptr bufEnd, ∀ es, e.2 = some es →
      Effect.close ∉ es := by
    intro e he es hes
    unfold route_table at he
    simp only [List.mem_cons, List.mem_singleton, List.not_mem_nil, or_false] at he
    rcases he with h | h | h | h | h | h | h | h | h | h | h | h | h | h | h | h | h
    all_goals (rw [h] at hes; simp only [Option.some.injEq] at hes)
    all_goals first
      | (rw [← hes]; exact close_not_mem_send_resource_file _ _ _ _)
      | (rw [← hes]; exact close_not_mem_route_post_connect _ _ _)
      | exact close_not_mem_route_post_config _ _ _ _ _ hes
      | (rw [← hes]; unfold route_get_ap; cases env.json_lock <;> cases env.ap_list_json <;> simp)
      | (rw [← hes]; unfold route_get_status
         cases env.json_lock <;> cases env.ip_info_json <;> simp)
      | (rw [← hes]; unfold http_server_send_config_json; cases env.config_json <;> simp)
      | (rw [← hes]; simp)
  rw [dispatch_eq_table_behaviour, table_behaviour] at h
  cases hf : (route_table env mem save_ptr bufEnd).find? fun e => lineHas line e.1 with
  | none =>
    rw [hf] at h
    simp only [Option.some.injEq] at h
    rw [← h]
    simp
  | some e =>
    rw [hf] at h
    exact hall e (List.mem_of_find?_eq_some hf) es h

/-- A trace of `http_server_netconn_serve` ends with the only `netconn_close`
it holds. -/
theorem close_last_of_trace (env : Env) (rcv tail : List Char) (es : List Effect)
    (h : http_server_netconn_serve env rcv tail = some es) :
    ∃ es1, es = es1 ++ [Effect.close] ∧ Effect.close ∉ es1 := by
  unfold http_server_netconn_serve at h
  cases hap : env.ap_ip_address with
  | none =>
    rw [hap] at h
    simp only [Option.some.injEq] at h
    exact ⟨[Effect.write http_503_hdr], h.symm, by simp⟩
  | some ap =>
    rw [hap] at h
    simp only [] at h
    by_cases hlen : rcv.length ≠ 0
    · rw [if_pos hlen] at h
      cases hb : serve_buffer env ap rcv tail with
      | none => rw [hb] at h; simp at h
      | some bs =>
        rw [hb] at h
        simp only [Option.map_some', Option.some.injEq] at h
        refine ⟨bs, h.symm, ?_⟩
        unfold serve_buffer at hb
        simp only [] at hb
        split at hb
        · cases hb
        · cases hline : (strtok_r (rcv ++ tail)).line with
          | none =>
            rw [hline] at hb
            simp only [Option.some.injEq] at hb
            rw [← hb]
            simp
          | some line =>
            rw [hline] at hb
            simp only [] at hb
            split at hb
            · simp only [Option.some.injEq] at hb
              rw [← hb]
              simp
            · cases hd : dispatch env (strtok_r (rcv ++ tail)).mem
                  (strtok_r (rcv ++ tail)).save_ptr rcv.length line with
              | none => rw [hd] at hb; simp at hb
              | some ds =>
                rw [hd] at hb
                simp only [Option.map_some', Option.some.injEq] at hb
                rw [← hb]
                have := close_not_mem_dispatch _ _ _ _ _ _ hd
                simp [this]
    · rw [if_neg hlen] at h
      simp only [Option.some.injEq] at h
      exact ⟨[], h.symm, by simp⟩

/-- C16, the code at failing inputs.  For the received bytes of two line
feeds, followed by a NUL, `strtok_r` finds no token: `line` is NULL and newlib
leaves `save_ptr` NULL, line 355 reads through it, and the invocation ends
before line 607, with no `netconn_close`.  The same happens for a request line
that no line feed ends.  An invocation fails to reach its end exactly when the
AP address is found, bytes were received and `save_ptr` is left NULL; every
invocation that reaches its end closes the connection once, as its last
call. -/
theorem close_skipped_on_null_save_ptr :
    (strtok_r (no_line_request ++ [])).line = none ∧
    (strtok_r (no_line_request ++ [])).save_ptr_null = true ∧
    http_server_netconn_serve sample_env no_line_request [] = none ∧
    (strtok_r (unterminated_request ++ [])).line = some "GET / HTTP/1.1".toList ∧
    (strtok_r (unterminated_request ++ [])).save_ptr_null = true ∧
    http_server_netconn_serve sample_env unterminated_request [] = none ∧
    (∀ (env : Env) (rcv tail : List Char),
      http_server_netconn_serve env rcv tail = none ↔
        env.ap_ip_address ≠ none ∧ rcv ≠ [] ∧
          (strtok_r (rcv ++ tail)).save_ptr_null = true) ∧
    (∀ (env : Env) (rcv tail : List Char) (es : List Effect),
      http_server_netconn_serve env rcv tail = some es →
      ∃ es1, es = es1 ++ [Effect.close] ∧ Effect.close ∉ es1) := by
  refine ⟨by decide, by decide, by decide, by decide, by decide, by decide, ?_, ?_⟩
  · intro env rcv tail
    exact serve_eq_none_iff env rcv tail
  · intro env rcv tail es h
    exact close_last_of_trace env rcv tail es h

/-! ## The captive-portal decision -/

theorem request_lenH_eq (rcv tail : List Char) :
    request_lenH rcv tail = (request_host rcv tail).length := by
  unfold request_lenH request_host
  simp only []
  rcases get_header_cases (strtok_r (rcv ++ tail)).mem (strtok_r (rcv ++ tail)).save_ptr
      "Host: ".toList with ⟨_, a2⟩ | ⟨v, r, _, a2, _, a4⟩
  · rw [a2]
    rfl
  · rw [a2]
    simp only [host_value]
    cases v with
    | nil => rfl
    | cons c cs =>
      simp only [List.length_cons] at a4
      simp only [List.length_cons, gt_iff_lt, Nat.zero_lt_succ, if_true, a4]

theorem strcasestr_iff (host x : List Char) :
    strcasestr host x = true ↔ occurs_ignoring_case x host := by
  unfold strcasestr occurs_ignoring_case
  exact findSub_isSome_iff _ _

theorem redirects_iff (env : Env) (ap host : List Char) :
    redirects ap env host.length host = true ↔ must_redirect env ap host := by
  unfold redirects must_redirect
  have hlen : 0 < host.length ↔ host ≠ [] := List.length_pos
  by_cases hh : host = []
  · subst hh
    simp
  · have hpos : 0 < host.length := hlen.mpr hh
    cases hn : env.host_name with
    | none =>
      simp only [gt_iff_lt, hpos, if_true, decide_True, Bool.true_and, Bool.or_false,
        Bool.and_eq_true, Bool.not_eq_true', ne_eq, hh, not_false_eq_true, true_and,
        reduceCtorEq, false_implies, implies_true, and_true]
      rw [← Bool.not_eq_true, ← Bool.not_eq_true, strcasestr_iff, strcasestr_iff]
    | some n =>
      simp only [gt_iff_lt, hpos, if_true, decide_True, Bool.true_and,
        Bool.and_eq_true, Bool.not_eq_true', Bool.or_eq_false_iff, ne_eq, hh,
        not_false_eq_true, true_and, Option.some.injEq, forall_eq']
      rw [← Bool.not_eq_true, ← Bool.not_eq_true, ← Bool.not_eq_true, strcasestr_iff,
        strcasestr_iff, strcasestr_iff]

theorem redirects_case_invariant (env : Env) (ap h h' : List Char)
    (hc : h.map tolower = h'.map tolower) :
    redirects ap env h.length h = redirects ap env h'.length h' := by
  have hlen : h.length = h'.length := by
    have := congrArg List.length hc
    simpa using this
  unfold redirects strcasestr
  rw [hc, hlen]

/-- C20.  For every request with a request line: when the extracted Host value
is not empty and none of the AP address, the station address string and the
host name (when `tcpip_adapter_get_hostname` yields one) occurs in it as a
substring, letter case ignored, the redirect is written and nothing is routed;
in every other case, an empty or absent Host value included, the request is
routed.  The condition of line 380 takes the same value on two Host values
that differ in letter case only. -/
theorem redirect_decision (env : Env) (ap rcv tail line : List Char)
    (hap : env.ap_ip_address = some ap) (hrcv : rcv ≠ [])
    (hline : request_line rcv tail = some line) :
    (must_redirect env ap (request_host rcv tail) →
      http_server_netconn_serve env rcv tail =
        some (sta_ip_calls ++ [Effect.write http_redirect_hdr_start, Effect.write ap,
          Effect.write http_redirect_hdr_end, Effect.close])) ∧
    (¬ must_redirect env ap (request_host rcv tail) →
      http_server_netconn_serve env rcv tail =
        (dispatch env (strtok_r (rcv ++ tail)).mem (strtok_r (rcv ++ tail)).save_ptr
          rcv.length line).map fun es => sta_ip_calls ++ es ++ [Effect.close]) ∧
    (request_redirected env ap rcv tail = true ↔ must_redirect env ap (request_host rcv tail)) ∧
    (∀ h h' : List Char, h.map tolower = h'.map tolower →
      redirects ap env h.length h = redirects ap env h'.length h') := by
  have hs := serve_of_line env ap rcv tail line hap hrcv hline
  have hiff : request_redirected env ap rcv tail = true ↔
      must_redirect env ap (request_host rcv tail) := by
    unfold request_redirected
    rw [request_lenH_eq]
    exact redirects_iff env ap _
  refine ⟨?_, ?_, hiff, ?_⟩
  · intro hm
    rw [hs, if_pos (hiff.mpr hm)]
  · intro hm
    rw [hs, if_neg (fun h => hm (hiff.mp h))]
  · intro h h' hc
    exact redirects_case_invariant env ap h h' hc

/-- C20, witness: a request whose Host is `WWW.EXAMPLE.COM`. -/
theorem redirect_decision_witness :
    (must_redirect sample_env "192.168.4.1".toList (request_host foreign_host_request []) →
      http_server_netconn_serve sample_env foreign_host_request [] =
        some (sta_ip_calls ++ [Effect.write http_redirect_hdr_start,
          Effect.write "192.168.4.1".toList,
          Effect.write http_redirect_hdr_end, Effect.close])) ∧
    (¬ must_redirect sample_env "192.168.4.1".toList (request_host foreign_host_request []) →
      http_server_netconn_serve sample_env foreign_host_request [] =
        (dispatch sample_env (strtok_r (foreign_host_request ++ [])).mem
          (strtok_r (foreign_host_request ++ [])).save_ptr
          foreign_host_request.length "GET /generate_204 HTTP/1.1\r".toList).map
            fun es => sta_ip_calls ++ es ++ [Effect.close]) ∧
    (request_redirected sample_env "192.168.4.1".toList foreign_host_request [] = true ↔
      must_redirect sample_env "192.168.4.1".toList (request_host foreign_host_request [])) ∧
    (∀ h h' : List Char, h.map tolower = h'.map tolower →
      redirects "192.168.4.1".toList sample_env h.length h =
        redirects "192.168.4.1".toList sample_env h'.length h') :=
  redirect_decision sample_env "192.168.4.1".toList foreign_host_request []
    "GET /generate_204 HTTP/1.1\r".toList (by decide) (by decide) (by decide)

/-! ## The 404 answer -/

theorem strtok_token_nil (mem : List Char)
    (h : ∀ c ∈ mem.takeWhile (fun c => c != NUL), c = '\n') :
    (mem.drop (mem.takeWhile (fun c => c == '\n')).length).takeWhile
      (fun c => c != '\n' && c != NUL) = [] := by
  induction mem with
  | nil => rfl
  | cons a m ih =>
    by_cases ha : a = '\n'
    · subst ha
      have hn : ('\n' != NUL) = true := by decide
      simp only [List.takeWhile, hn] at h
      have h' : ∀ c ∈ m.takeWhile (fun c => c != NUL), c = '\n' :=
        fun c hc => h c (List.mem_cons_of_mem _ hc)
      simpa [List.takeWhile] using ih h'
    · have hb : (a == '\n') = false := by simpa using ha
      have hnul : a = NUL := by
        by_contra hne
        have hn : (a != NUL) = true := by simpa using hne
        have : a ∈ (a :: m).takeWhile (fun c => c != NUL) := by
          simp [List.takeWhile, hn]
        exact ha (h a this)
      subst hnul
      simp [List.takeWhile, hb]

theorem strtok_token_ne_nil (mem : List Char)
    (h : ∃ c ∈ mem.takeWhile (fun c => c != NUL), c ≠ '\n') :
    (mem.drop (mem.takeWhile (fun c => c == '\n')).length).takeWhile
      (fun c => c != '\n' && c != NUL) ≠ [] := by
  induction mem with
  | nil =>
    obtain ⟨c, hc, _⟩ := h
    simp at hc
  | cons a m ih =>
    obtain ⟨c, hc, hcn⟩ := h
    by_cases ha : a = '\n'
    · subst ha
      have hn : ('\n' != NUL) = true := by decide
      simp only [List.takeWhile, hn, List.mem_cons] at hc
      rcases hc with rfl | hc
      · exact absurd rfl hcn
      · simpa [List.takeWhile] using ih ⟨c, hc, hcn⟩
    · have hb : (a == '\n') = false := by simpa using ha
      by_cases hnul : a = NUL
      · subst hnul
        simp [List.takeWhile] at hc
      · have hn : (a != NUL) = true := by simpa using hnul
        have hb' : (a != '\n') = true := by simpa using ha
        simp [List.takeWhile, hb, hn, hb']

theorem strtok_r_line_eq_none_iff (mem : List Char) :
    (strtok_r mem).line = none ↔
      (mem.drop (mem.takeWhile (fun c => c == '\n')).length).takeWhile
        (fun c => c != '\n' && c != NUL) = [] := by
  unfold strtok_r
  simp only []
  cases (mem.drop (mem.takeWhile (fun c => c == '\n')).length).takeWhile
      (fun c => c != '\n' && c != NUL) with
  | nil => simp
  | cons a as =>
    simp only [List.isEmpty_cons, Bool.false_eq_true, if_false, reduceCtorEq, iff_false]
    split <;> simp

/-- Without a token, `save_ptr` is left NULL. -/
theorem save_ptr_null_of_no_line (mem : List Char) (h : (strtok_r mem).line = none) :
    (strtok_r mem).save_ptr_null = true := by
  unfold strtok_r at h ⊢
  simp only [] at h ⊢
  split
  · rfl
  · rename_i he
    simp only [he, Bool.false_eq_true, if_false] at h
    split at h <;> cases h

theorem no_leading_line_feed (l : List Char) (h : '\n' ∉ l.takeWhile (fun c => c != NUL)) :
    l.takeWhile (fun c => c == '\n') = [] := by
  cases l with
  | nil => rfl
  | cons a m =>
    have ha : (a == '\n') = false := by
      by_contra hc
      have ha : a = '\n' := by simpa using hc
      subst ha
      apply h
      have hn : ('\n' != NUL) = true := by decide
      simp [List.takeWhile, hn]
    simp [List.takeWhile, ha]

theorem rd_after_token (l : List Char) (h : '\n' ∉ l.takeWhile (fun c => c != NUL)) :
    rd l (l.takeWhile (fun c => c != '\n' && c != NUL)).length ≠ '\n' := by
  induction l with
  | nil => decide
  | cons a m ih =>
    by_cases hn : a = NUL
    · subst hn
      have : ((NUL != '\n') && (NUL != NUL)) = false := by decide
      simp only [List.takeWhile, this, List.length_nil]
      show NUL ≠ '\n'
      decide
    · have hn1 : (a != NUL) = true := by simpa using hn
      simp only [List.takeWhile, hn1, List.mem_cons, not_or] at h
      have ha : (a != '\n') = true := by
        have : a ≠ '\n' := fun e => h.1 e.symm
        simpa using this
      simp only [List.takeWhile, ha, hn1, Bool.and_self, List.length_cons]
      have := ih h.2
      unfold rd at this ⊢
      simpa using this

/-- When no line feed precedes the first NUL of the memory, `strtok_r` leaves
`save_ptr` NULL. -/
theorem save_ptr_null_of_no_line_feed (mem : List Char) (h : '\n' ∉ cstr mem 0) :
    (strtok_r mem).save_ptr_null = true := by
  unfold cstr at h
  rw [List.drop_zero] at h
  have h0 := no_leading_line_feed mem h
  have h1 := rd_after_token mem h
  unfold strtok_r
  simp only [h0, List.length_nil, List.drop_zero, Nat.zero_add]
  split
  · rfl
  · have : (rd mem (mem.takeWhile (fun c => c != '\n' && c != NUL)).length == '\n') = false := by
      simpa using h1
    simp only [this, Bool.false_eq_true, if_false]

/-! ## The contract of `http_server_get_header` -/

/-- C12.  For every memory, start of text and header name: when the name
occurs in the text (the C string at `request`), with first occurrence at
offset `i`, the result is the position right after that occurrence and `*len`
is the number of characters from there up to, and excluding, the first
carriage return, line feed or end of text; these `*len` characters hold no
line terminator.  When the name does not occur the result is NULL and `*len`
is 0.  The function has no effect on the memory: its model yields the pointer
and the length only. -/
theorem get_header_contract (mem : List Char) (p : Nat) (name : List Char) :
    (∀ i, name <+: (cstr mem p).drop i →
      (∀ j, j < i → ¬ name <+: (cstr mem p).drop j) →
      ∃ v, http_server_get_header mem p name = (some (p + i + name.length), v.length) ∧
        v = ((cstr mem p).drop (i + name.length)).takeWhile
          (fun c => c != '\n' && c != '\r') ∧
        (mem.drop (p + i + name.length)).take v.length = v ∧
        ∀ c ∈ v, c ≠ '\n' ∧ c ≠ '\r') ∧
    (¬ name <:+: cstr mem p → http_server_get_header mem p name = (none, 0)) := by
  constructor
  · intro i hp hmin
    have hi : i ≤ (cstr mem p).length := by
      by_contra hgt
      have hnil : (cstr mem p).drop i = [] := List.drop_eq_nil_of_le (by omega)
      rw [hnil] at hp
      have hname : name = [] := List.prefix_nil.mp hp
      exact hmin 0 (by omega) (by rw [hname]; exact List.nil_prefix)
    have hf := findSub_first (cstr mem p) name i hi hp hmin
    obtain ⟨v, h1, h2, h3, _, _⟩ := get_header_found mem p name i hf
    have hv : v = ((cstr mem p).drop (i + name.length)).takeWhile
        (fun c => c != '\n' && c != '\r') := by
      simp only [header_value, hf, Option.map_some', Option.some.injEq] at h1
      exact h1.symm
    have e : i + p + name.length = p + i + name.length := by omega
    rw [e] at h2 h3
    refine ⟨v, h2, hv, h3, ?_⟩
    intro c hc
    rw [hv] at hc
    have := List.mem_takeWhile_imp hc
    simpa using this
  · intro hno
    have hf : findSub (cstr mem p) name = none := by
      cases h : findSub (cstr mem p) name with
      | none => rfl
      | some i =>
        exfalso
        apply hno
        apply (findSub_isSome_iff _ _).mp
        rw [h]
        rfl
    exact (get_header_not_found mem p name hf).2

/-- C12, at a concrete text: the value of `Host: ` in a request of two lines,
read from the start of its second line. -/
theorem get_header_contract_witness :
    ∃ v, http_server_get_header "GET / HTTP/1.1\r\nHost: esp32\r\n\r\n".toList 16
        "Host: ".toList = (some (16 + 0 + "Host: ".toList.length), v.length) ∧
      v = ((cstr "GET / HTTP/1.1\r\nHost: esp32\r\n\r\n".toList 16).drop
        (0 + "Host: ".toList.length)).takeWhile (fun c => c != '\n' && c != '\r') ∧
      ("GET / HTTP/1.1\r\nHost: esp32\r\n\r\n".toList.drop
        (16 + 0 + "Host: ".toList.length)).take v.length = v ∧
      ∀ c ∈ v, c ≠ '\n' ∧ c ≠ '\r' :=
  (get_header_contract "GET / HTTP/1.1\r\nHost: esp32\r\n\r\n".toList 16 "Host: ".toList).1 0
    (by decide) (by decide)

/-! ## The contract of `http_server_search_header` -/

/-- C13.  For every memory in which, from the scan start `request`, the first
occurrence of the prefix `name` comes after a text `g` without NUL and is
followed by a field name `n` (no colon, line terminator or NUL), a colon, `k`
blanks, a value `v` (no line terminator or NUL, not starting with a blank) and
a line terminator `t` that lies before `bufEnd`: when the name is allocated,
the call yields the field name `n`, a pointer to the value, which read in place
as a C string is `v`, `*len = |v|`, and as next position the index of the
terminating byte plus one; the terminating byte is overwritten with NUL. -/
theorem search_header_contract (mem : List Char) (request : Nat)
    (name g n v X : List Char) (k : Nat) (t : Char) (bufEnd : Nat)
    (hm : mem.drop request =
      g ++ (name ++ (n ++ (':' :: (List.replicate k ' ' ++ (v ++ t :: X))))))
    (hfirst : ∀ j, j < g.length → ¬ name <+: (mem.drop request).drop j)
    (hg : ∀ c ∈ g, c ≠ NUL) (hname : ∀ c ∈ name, c ≠ NUL)
    (hn : ∀ c ∈ n, c ≠ NUL ∧ c ≠ '\n' ∧ c ≠ '\r' ∧ c ≠ ':')
    (hv : ∀ c ∈ v, c ≠ NUL ∧ c ≠ '\n' ∧ c ≠ '\r') (hv0 : v.head? ≠ some ' ')
    (ht : t = '\n' ∨ t = '\r')
    (hb : request + g.length + name.length + n.length + 1 + k + v.length < bufEnd) :
    http_server_search_header mem request name bufEnd true =
      { ret := some (request + g.length + name.length + n.length + 1 + k),
        len := v.length, parm_name := some n,
        next_position := some (request + g.length + name.length + n.length + 1 + k
          + v.length + 1),
        nul_at := some (request + g.length + name.length + n.length + 1 + k + v.length),
        mem := mem.set (request + g.length + name.length + n.length + 1 + k + v.length) NUL } ∧
    cstr (mem.set (request + g.length + name.length + n.length + 1 + k + v.length) NUL)
      (request + g.length + name.length + n.length + 1 + k) = v := by
  have hgn : ∀ c ∈ g, (c != NUL) = true := fun c hc => by simpa using hg c hc
  have hnn : ∀ c ∈ name, (c != NUL) = true := fun c hc => by simpa using hname c hc
  -- the first occurrence of the prefix
  have hs : strstr mem request name = some (request + g.length) := by
    unfold strstr
    have hc : cstr mem request = g ++ (name ++
        (n ++ ':' :: (List.replicate k ' ' ++ (v ++ t :: X))).takeWhile (fun c => c != NUL)) := by
      unfold cstr
      rw [hm, takeWhile_append_of_all _ _ _ hgn, takeWhile_append_of_all _ _ _ hnn]
    have hpre : cstr mem request <+: mem.drop request := List.takeWhile_prefix _
    have hfs : findSub (cstr mem request) name = some g.length := by
      apply findSub_first
      · rw [hc]; simp
      · rw [hc, List.drop_left]
        exact List.prefix_append _ _
      · intro j hj hp
        apply hfirst j hj
        obtain ⟨r, hr⟩ := hpre
        rw [← hr, List.drop_append_of_le_length (by rw [hc]; simp; omega)]
        exact hp.trans (List.prefix_append _ _)
    rw [hfs]
    simp [Nat.add_comm]
  have d1 := drop_of_drop_eq_append _ _ _ _ hm
  have d2 := drop_of_drop_eq_append _ _ _ _ d1
  have d3 := drop_of_drop_eq_append _ _ _ _ d2
  have d4 : mem.drop (request + g.length + name.length + n.length + 1) =
      List.replicate k ' ' ++ (v ++ t :: X) :=
    drop_of_drop_eq_append _ _ [':'] _ d3
  have d5 := drop_of_drop_eq_append _ _ _ _ d4
  rw [List.length_replicate] at d5
  have htb : (t != NUL && t != '\n' && t != '\r') = false := by
    rcases ht with h | h <;> rw [h] <;> decide
  have htsp : t ≠ ' ' := by
    rcases ht with h | h <;> rw [h] <;> decide
  have hscan1 : scan (fun c => c != NUL && c != '\n' && c != '\r' && c != ':') (some bufEnd)
      (mem.drop (request + g.length + name.length)) (request + g.length + name.length) =
      request + g.length + name.length + n.length := by
    rw [scan_some, d2, takeWhile_stop _ _ _ _ _ (by decide)]
    · rw [Nat.min_eq_left (by omega)]
    · intro c hc
      obtain ⟨a, b, c', d⟩ := hn c hc
      simp [a, b, c', d]
  have hrd : rd mem (request + g.length + name.length + n.length) = ':' :=
    rd_of_drop_eq_cons _ _ _ _ d3
  have hcopy : strncpy (mem.drop (request + g.length + name.length))
      (request + g.length + name.length + n.length - (request + g.length + name.length)) = n := by
    unfold strncpy
    rw [d2, Nat.add_sub_cancel_left, List.take_left]
    apply takeWhile_all
    intro c hc
    simpa using (hn c hc).1
  have hscan2 : scan (fun c => c == ' ') (some bufEnd)
      (mem.drop (request + g.length + name.length + n.length + 1))
      (request + g.length + name.length + n.length + 1) =
      request + g.length + name.length + n.length + 1 + k := by
    rw [scan_some, d4, takeWhile_blank _ _ _ _ hv0 htsp, List.length_replicate]
    rw [Nat.min_eq_left (by omega)]
  have hscan3 : scan (fun c => c != NUL && c != '\n' && c != '\r') (some bufEnd)
      (mem.drop (request + g.length + name.length + n.length + 1 + k))
      (request + g.length + name.length + n.length + 1 + k) =
      request + g.length + name.length + n.length + 1 + k + v.length := by
    rw [scan_some, d5, takeWhile_stop _ _ _ _ _ htb]
    · rw [Nat.min_eq_left (by omega)]
    · intro c hc
      obtain ⟨a, b, c'⟩ := hv c hc
      simp [a, b, c']
  have hfound : request + g.length < bufEnd := by omega
  constructor
  · unfold http_server_search_header search_value
    simp only [hs, hfound, if_true, hscan1, hrd, beq_self_eq_true, hcopy, hscan2, hscan3]
    rw [Nat.add_sub_cancel_left]
  · exact cstr_of_set_NUL mem _ _ _ _ d5 (fun c hc => by simpa using (hv c hc).1)

/-- C13, witness: the field `X-Custom-ssid:  home` after a Host line, searched
from the start of the text, with the received bytes ending at index 40. -/
theorem search_header_contract_witness :
    http_server_search_header "Host: a\r\nX-Custom-ssid:  home\r\nrest".toList 0
        "X-Custom-".toList 40 true =
      { ret := some (0 + "Host: a\r\n".toList.length + "X-Custom-".toList.length
          + "ssid".toList.length + 1 + 2),
        len := "home".toList.length, parm_name := some "ssid".toList,
        next_position := some (0 + "Host: a\r\n".toList.length + "X-Custom-".toList.length
          + "ssid".toList.length + 1 + 2 + "home".toList.length + 1),
        nul_at := some (0 + "Host: a\r\n".toList.length + "X-Custom-".toList.length
          + "ssid".toList.length + 1 + 2 + "home".toList.length),
        mem := "Host: a\r\nX-Custom-ssid:  home\r\nrest".toList.set
          (0 + "Host: a\r\n".toList.length + "X-Custom-".toList.length
            + "ssid".toList.length + 1 + 2 + "home".toList.length) NUL } ∧
    cstr ("Host: a\r\nX-Custom-ssid:  home\r\nrest".toList.set
        (0 + "Host: a\r\n".toList.length + "X-Custom-".toList.length
          + "ssid".toList.length + 1 + 2 + "home".toList.length) NUL)
      (0 + "Host: a\r\n".toList.length + "X-Custom-".toList.length
        + "ssid".toList.length + 1 + 2) = "home".toList :=
  search_header_contract "Host: a\r\nX-Custom-ssid:  home\r\nrest".toList 0
    "X-Custom-".toList "Host: a\r\n".toList "ssid".toList "home".toList "\nrest".toList 2 '\r' 40
    (by decide) (by decide) (by decide) (by decide) (by decide) (by decide) (by decide)
    (by decide) (by decide)

/-! ## Progress and end of the enumeration -/

/-- A call of `http_server_search_header` that returns a value: the name was
found at or after the scan start and before `bufEnd`, the value lies after the
name, and the next position lies after the value. -/
theorem search_header_match (mem : List Char) (p : Nat) (name : List Char) (bufEnd : Nat)
    (alloc_ok : Bool) (v : Nat)
    (h : (http_server_search_header mem p name bufEnd alloc_ok).ret = some v) :
    ∃ found next, strstr mem p name = some found ∧ p ≤ found ∧ found < bufEnd ∧
      found + name.length ≤ v ∧
      (http_server_search_header mem p name bufEnd alloc_ok).next_position = some next ∧
      v < next := by
  unfold http_server_search_header at h ⊢
  cases hs : strstr mem p name with
  | none => rw [hs] at h; cases h
  | some found =>
    have hge := strstr_ge mem p name found hs
    rw [hs] at h
    simp only [] at h ⊢
    by_cases hlt : found < bufEnd
    · simp only [hlt, if_true] at h ⊢
      have h1 := le_scan (fun c => c != NUL && c != '\n' && c != '\r' && c != ':') (some bufEnd)
        (mem.drop (found + name.length)) (found + name.length)
      generalize scan (fun c => c != NUL && c != '\n' && c != '\r' && c != ':') (some bufEnd)
        (mem.drop (found + name.length)) (found + name.length) = ptr at h h1 ⊢
      by_cases hc : (rd mem ptr == ':') = true
      · simp only [hc, if_true] at h ⊢
        cases alloc_ok with
        | false => simp at h
        | true =>
          simp only [if_true] at h ⊢
          have h2 := le_scan (fun c => c == ' ') (some bufEnd) (mem.drop (ptr + 1)) (ptr + 1)
          generalize scan (fun c => c == ' ') (some bufEnd) (mem.drop (ptr + 1)) (ptr + 1) = ptr2
            at h h2 ⊢
          have h3 := le_scan (fun c => c != NUL && c != '\n' && c != '\r') (some bufEnd)
            (mem.drop ptr2) ptr2
          unfold search_value at h ⊢
          simp only [Option.some.injEq] at h
          exact ⟨found, _, rfl, hge, hlt, by omega, rfl, by omega⟩
      · simp only [hc] at h ⊢
        have h3 := le_scan (fun c => c != NUL && c != '\n' && c != '\r') (some bufEnd)
          (mem.drop ptr) ptr
        unfold search_value at h ⊢
        simp only [Bool.false_eq_true, if_false, Option.some.injEq] at h ⊢
        exact ⟨found, _, rfl, hge, hlt, by omega, rfl, by omega⟩
    · simp only [hlt, if_false] at h
      cases h

/-- The calls listed by `config_loop_searches` are those of `config_loop`: the
`config_set_value` calls of the loop are the ones that follow the listed
searches. -/
theorem config_loop_effects_eq (env : Env) (bufEnd : Nat) :
    ∀ (fuel : Nat) (mem : List Char) (p n : Nat) (ota : Option (List Char)),
      (config_loop env bufEnd fuel mem p n ota).map (fun s => s.effects) =
      (config_loop_searches env bufEnd fuel mem p n).map
        (fun calls => calls.filterMap search_call_effect) := by
  intro fuel
  induction fuel with
  | zero => intro mem p n ota; rfl
  | succ f ih =>
    intro mem p n ota
    unfold config_loop config_loop_searches
    simp only []
    have hprog := search_header_match mem p "X-Custom-".toList bufEnd (env.name_alloc n)
    generalize http_server_search_header mem p "X-Custom-".toList bufEnd
        (env.name_alloc n) = r at hprog
    obtain ⟨ret, len, nm, next, nul, m⟩ := r
    cases ret with
    | none => rfl
    | some v =>
      obtain ⟨_, next', _, _, _, _, hnext, _⟩ := hprog v rfl
      simp only [] at hnext
      subst hnext
      cases nm with
      | none =>
        simp only []
        rw [ih, Option.map_map]
        rfl
      | some nm =>
        simp only []
        by_cases hk : nm = "fwurl".toList
        · rw [if_pos hk, ih, Option.map_map]
          congr 1
          funext calls
          simp only [Function.comp, List.filterMap, search_call_effect, hk, if_true]
        · rw [if_neg hk, Option.map_map, Option.map_map]
          have := ih m next' (n + 1) ota
          cases hc : config_loop env bufEnd f m next' (n + 1) ota with
          | none =>
            rw [hc] at this
            cases hs : config_loop_searches env bufEnd f m next' (n + 1) with
            | none => rfl
            | some calls => rw [hs] at this; simp at this
          | some s =>
            rw [hc] at this
            cases hs : config_loop_searches env bufEnd f m next' (n + 1) with
            | none => rw [hs] at this; simp at this
            | some calls =>
              rw [hs] at this
              simp only [Option.map_some', Option.some.injEq] at this
              simp only [Option.map_some', Function.comp, Option.some.injEq, List.filterMap,
                search_call_effect, hk, if_false, this]

/-- The loop of lines 462-485 from scan start `p`: it ends within its fuel
after at most `bufEnd - p + 1` calls, every call but the last returns a value,
the last returns NULL, and scan starts and returned values strictly
increase. -/
theorem config_loop_searches_spec (env : Env) (bufEnd : Nat) :
    ∀ (fuel : Nat) (mem : List Char) (p n : Nat),
      1 ≤ fuel → bufEnd + 2 ≤ fuel + p →
      ∃ init last, config_loop_searches env bufEnd fuel mem p n = some (init ++ [last]) ∧
        (init ++ [last]).length ≤ (bufEnd - p) + 1 ∧
        (∀ c ∈ init, ∃ v, c.2.ret = some v) ∧ last.2.ret = none ∧
        (∀ c ∈ init ++ [last], p ≤ c.1 ∧ ∀ v, c.2.ret = some v → p ≤ v) ∧
        (init ++ [last]).Pairwise (fun a b => a.1 < b.1) ∧
        (init ++ [last]).Pairwise
          (fun a b => ∀ v w, a.2.ret = some v → b.2.ret = some w → v < w) := by
  intro fuel
  induction fuel with
  | zero => intro mem p n h; omega
  | succ k ih =>
    intro mem p n _ hfp
    unfold config_loop_searches
    simp only []
    cases hret : (http_server_search_header mem p "X-Custom-".toList bufEnd
        (env.name_alloc n)).ret with
    | none =>
      refine ⟨[], (p, _), rfl, ?_, ?_, hret, ?_, ?_, ?_⟩
      · simp
      · simp
      · intro c hc
        simp only [List.nil_append, List.mem_singleton] at hc
        subst hc
        refine ⟨Nat.le_refl _, ?_⟩
        intro v hv
        rw [hret] at hv
        cases hv
      · simp
      · simp
    | some v =>
      obtain ⟨found, next, _, hge, hlt, hv, hnext, hvn⟩ := search_header_match _ _ _ _ _ v hret
      rw [hnext]
      simp only []
      obtain ⟨init, last, hcalls, hlen, hinit, hlast, hlow, hst, hval⟩ :=
        ih (http_server_search_header mem p "X-Custom-".toList bufEnd (env.name_alloc n)).mem
          next (n + 1) (by omega) (by omega)
      rw [hcalls]
      refine ⟨(p, _) :: init, last, rfl, ?_, ?_, hlast, ?_, ?_, ?_⟩
      · simp only [List.cons_append, List.length_cons]
        omega
      · intro c hc
        rcases List.mem_cons.mp hc with h | h
        · subst h
          exact ⟨v, hret⟩
        · exact hinit c h
      · intro c hc
        rw [List.cons_append] at hc
        rcases List.mem_cons.mp hc with h | h
        · subst h
          refine ⟨Nat.le_refl _, ?_⟩
          intro w hw
          rw [hret] at hw
          cases hw
          omega
        · obtain ⟨h1, h2⟩ := hlow c h
          refine ⟨by omega, ?_⟩
          intro w hw
          have := h2 w hw
          omega
      · rw [List.cons_append, List.pairwise_cons]
        refine ⟨?_, hst⟩
        intro c hc
        have := (hlow c hc).1
        show p < c.1
        omega
      · rw [List.cons_append, List.pairwise_cons]
        refine ⟨?_, hval⟩
        intro c hc v' w hv' hw
        rw [hret] at hv'
        cases hv'
        have := (hlow c hc).2 w hw
        omega

/-- C14, the bound as stated: a configuration request that ends with its
request line leaves an empty scan range (`save_ptr` is `buf + buflen`), and the
loop still makes one call of `http_server_search_header`, which is more than
`scan_end - scan_start = 0`. -/
theorem enumeration_call_bound_counterexample :
    request_save_ptr bare_config_request [] = bare_config_request.length ∧
    (config_loop_searches sample_env bare_config_request.length
        (bare_config_request.length + 2) (strtok_r (bare_config_request ++ [])).mem
        (request_save_ptr bare_config_request []) 0).map List.length = some 1 ∧
    ¬ (1 ≤ bare_config_request.length - request_save_ptr bare_config_request []) ∧
    http_server_netconn_serve sample_env bare_config_request [] =
      some [Effect.wifi_manager_lock_sta_ip_string, Effect.wifi_manager_unlock_sta_ip_string,
        Effect.write http_ok_json_no_cache_hdr, Effect.close] := by
  decide

/-- C14 (amended): enumeration by `http_server_search_header` makes progress and
ends.  A call that returns a value found the name at or after its scan start and
before `bufEnd`, returns a pointer after the name, and sets a next position
strictly after that pointer.  A call whose first occurrence of the name is
absent or lies at or beyond `bufEnd` returns NULL and changes nothing.  The
loop of `POST /config.json` from scan start `p` therefore ends within its fuel
after at most `bufEnd - p + 1` calls: every call but the last returns a value,
the last returns NULL, and the scan starts and the returned pointers strictly
increase from call to call. -/
theorem search_enumeration_progress (env : Env) (bufEnd : Nat) (mem : List Char) (p n : Nat) :
    (∀ (name : List Char) (alloc_ok : Bool) (v : Nat),
      (http_server_search_header mem p name bufEnd alloc_ok).ret = some v →
      ∃ found next, strstr mem p name = some found ∧ p ≤ found ∧ found < bufEnd ∧
        found + name.length ≤ v ∧
        (http_server_search_header mem p name bufEnd alloc_ok).next_position = some next ∧
        v < next) ∧
    (∀ (name : List Char) (alloc_ok : Bool),
      (∀ found, strstr mem p name = some found → bufEnd ≤ found) →
      http_server_search_header mem p name bufEnd alloc_ok =
        { ret := none, len := 0, parm_name := none, next_position := none, nul_at := none,
          mem := mem }) ∧
    ∃ init last,
      config_loop_searches env bufEnd (bufEnd + 2) mem p n = some (init ++ [last]) ∧
      (init ++ [last]).length ≤ (bufEnd - p) + 1 ∧
      (∀ c ∈ init, ∃ v, c.2.ret = some v) ∧ last.2.ret = none ∧
      (init ++ [last]).Pairwise (fun a b => a.1 < b.1) ∧
      (init ++ [last]).Pairwise
        (fun a b => ∀ v w, a.2.ret = some v → b.2.ret = some w → v < w) := by
  refine ⟨?_, ?_, ?_⟩
  · intro name alloc_ok v h
    exact search_header_match mem p name bufEnd alloc_ok v h
  · intro name alloc_ok h
    exact search_header_not_found mem p name bufEnd alloc_ok h
  · obtain ⟨init, last, h1, h2, h3, h4, _, h6, h7⟩ :=
      config_loop_searches_spec env bufEnd (bufEnd + 2) mem p n (by omega) (by omega)
    exact ⟨init, last, h1, h2, h3, h4, h6, h7⟩

theorem search_enumeration_progress_witness :
    ∃ init last,
      config_loop_searches sample_env config_request.length (config_request.length + 2)
        (strtok_r (config_request ++ [])).mem (request_save_ptr config_request []) 0
        = some (init ++ [last]) ∧
      (init ++ [last]).length ≤
        (config_request.length - request_save_ptr config_request []) + 1 ∧
      (∀ c ∈ init, ∃ v, c.2.ret = some v) ∧ last.2.ret = none ∧
      (init ++ [last]).Pairwise (fun a b => a.1 < b.1) ∧
      (init ++ [last]).Pairwise
        (fun a b => ∀ v w, a.2.ret = some v → b.2.ret = some w → v < w) :=
  (search_enumeration_progress sample_env config_request.length
    (strtok_r (config_request ++ [])).mem (request_save_ptr config_request []) 0).2.2

/-! ## The read loop reassembles small fragments -/

/-- One pass of the inner loop when the capacity is at most 2047 bytes ahead of
the length, the fragment has at most 2048 bytes or is the first with data, and
the total stays within 63488 bytes: the fragment is appended and the counters
keep their relation. -/
theorem recv_append_ok (s : RecvState) (frag : List Char)
    (h1 : s.buflen ≤ s.bufsize) (h2 : s.bufsize ≤ s.buflen + 2047)
    (hf : frag.length ≤ 2048 ∨ s.buflen = 0) (htot : s.buflen + frag.length ≤ 63488) :
    ∃ b, recv_append s frag = some ⟨s.buf ++ frag, s.buflen + frag.length, b⟩ ∧
      s.buflen + frag.length ≤ b ∧ b ≤ s.buflen + frag.length + 2047 := by
  have key : s.buflen + frag.length ≤ recv_bufsize s.buflen s.bufsize frag.length ∧
      recv_bufsize s.buflen s.bufsize frag.length ≤ s.buflen + frag.length + 2047 := by
    unfold recv_bufsize
    split
    · simp only []
      split <;> omega
    · omega
  refine ⟨recv_bufsize s.buflen s.bufsize frag.length, ?_, key.1, key.2⟩
  unfold recv_append
  simp only []
  rw [if_pos key.1, Nat.mod_eq_of_lt (by omega)]

/-- The read loop from a state whose capacity is at most 2047 bytes ahead of
the length, over fragments of at most 2048 bytes that keep the total within
63488 bytes. -/
theorem recv_loop_ok : ∀ (frags : List (List Char)) (s : RecvState),
    s.buflen ≤ s.bufsize → s.bufsize ≤ s.buflen + 2047 →
    (∀ f ∈ frags, f.length ≤ 2048) →
    s.buflen + (frags.map List.length).sum ≤ 63488 →
    ∃ b, recv_loop s frags =
        some ⟨s.buf ++ frags.flatten, s.buflen + (frags.map List.length).sum, b⟩ ∧
      s.buflen + (frags.map List.length).sum ≤ b := by
  intro frags
  induction frags with
  | nil =>
    intro s h1 _ _ _
    refine ⟨s.bufsize, ?_, by simpa using h1⟩
    simp [recv_loop]
  | cons f fs ih =>
    intro s h1 h2 hall htot
    simp only [List.map_cons, List.sum_cons] at htot ⊢
    obtain ⟨b, hb, hb1, hb2⟩ := recv_append_ok s f h1 h2
      (Or.inl (hall f (List.mem_cons_self _ _))) (by omega)
    obtain ⟨b', hb', hle⟩ := ih ⟨s.buf ++ f, s.buflen + f.length, b⟩ hb1 hb2
      (fun g hg => hall g (List.mem_cons_of_mem _ hg)) (by simp only []; omega)
    refine ⟨b', ?_, by simp only [] at hle; omega⟩
    unfold recv_loop
    rw [hb]
    simp only []
    rw [hb']
    simp only [List.flatten_cons, List.append_assoc, Nat.add_assoc]

/-- The read loop over whole blocks of 2048 bytes, started with `j` of them
copied, wraps the capacity to 0 at the 32nd block. -/
theorem recv_loop_blocks_overrun : ∀ (frags : List (List Char)) (j : Nat) (buf : List Char),
    (∀ f ∈ frags, f.length = 2048) → j + frags.length = 32 → j ≤ 31 →
    recv_loop ⟨buf, 2048 * j, 2048 * j⟩ frags = none := by
  intro frags
  induction frags with
  | nil => intro j buf _ h1 h2; simp only [List.length_nil] at h1; omega
  | cons f fs ih =>
    intro j buf hall hlen hj
    have hf := hall f (List.mem_cons_self _ _)
    simp only [List.length_cons] at hlen
    unfold recv_loop
    by_cases h31 : j = 31
    · subst h31
      have hsz : recv_bufsize (2048 * 31) (2048 * 31) 2048 = 0 := by decide
      simp only [recv_append, hf, hsz]
      rw [if_neg (by omega)]
    · have hsz : recv_bufsize (2048 * j) (2048 * j) 2048 = 2048 * (j + 1) := by
        unfold recv_bufsize
        split
        · simp only []
          split <;> omega
        · omega
      simp only [recv_append, hf, hsz]
      rw [if_pos (by omega), Nat.mod_eq_of_lt (by omega)]
      simp only []
      have : 2048 * j + 2048 = 2048 * (j + 1) := by omega
      rw [this]
      exact ih (j + 1) (buf ++ f) (fun g hg => hall g (List.mem_cons_of_mem _ hg))
        (by omega) (by omega)

/-- C11, the code at a failing input.  A fragment of 2000 bytes leaves
`buflen = 2000` and `bufsize = 2048`; for a second fragment of 3000 bytes line
339 grows the capacity by `max(2048, rcvlen - bufsize) = 2048` to 4096, and the
copy of line 342 writes `buf[2000 .. 5000)`, past the allocation: the loop does
not end with the concatenation in the buffer.  A second fragment of 2049 bytes
is reassembled, so fragments of more than 2048 bytes are handled whenever the
growth happens to suffice. -/
theorem reassembly_overruns_allocation :
    recv_bufsize 0 0 2000 = 2048 ∧
    recv_bufsize 2000 2048 3000 = 4096 ∧
    (∀ f1 f2 : List Char, f1.length = 2000 → f2.length = 3000 →
      recv_loop ⟨[], 0, 0⟩ [f1, f2] = none) ∧
    (∀ f1 f2 : List Char, f1.length = 2000 → f2.length = 2049 →
      recv_loop ⟨[], 0, 0⟩ [f1, f2] = some ⟨f1 ++ f2, 4049, 4096⟩) := by
  have e1 : recv_bufsize 0 0 2000 = 2048 := by decide
  have e2 : recv_bufsize 2000 2048 3000 = 4096 := by decide
  have e3 : recv_bufsize 2000 2048 2049 = 4096 := by decide
  refine ⟨e1, e2, ?_, ?_⟩
  · intro f1 f2 h1 h2
    simp only [recv_loop, recv_append, h1, e1, List.nil_append]
    rw [if_pos (by decide)]
    simp only [Nat.zero_add, h2]
    rw [Nat.mod_eq_of_lt (by decide)]
    simp only [e2]
    rw [if_neg (by decide)]
  · intro f1 f2 h1 h2
    simp only [recv_loop, recv_append, h1, e1, List.nil_append]
    rw [if_pos (by decide)]
    simp only [Nat.zero_add, h2]
    rw [Nat.mod_eq_of_lt (by decide)]
    simp only [e3]
    rw [if_pos (by decide)]

/-- The counters are `u16_t`: the 32nd of 32 fragments of 2048 bytes wraps the
capacity to 0. -/
theorem capacity_wraps_at_32_blocks :
    recv_bufsize 63488 63488 2048 = 0 ∧
    (∀ frags : List (List Char), frags.length = 32 → (∀ f ∈ frags, f.length = 2048) →
      recv_loop ⟨[], 0, 0⟩ frags = none) := by
  refine ⟨by decide, ?_⟩
  intro frags hlen hall
  exact recv_loop_blocks_overrun frags 0 [] hall (by omega) (by omega)

/-- Where the growth of 2048 bytes suffices the read loop reassembles: for
fragments each of at most 2048 bytes after the first, with lengths that add up
to at most 63488 bytes, it ends with `buflen` equal to the sum of the lengths,
the buffer holding the concatenation of the fragments in order, and a capacity
of at least `buflen`. -/
theorem reassembly_of_fragments (frags : List (List Char))
    (hrest : ∀ f ∈ frags.tail, f.length ≤ 2048)
    (htot : (frags.map List.length).sum ≤ 63488) :
    ∃ bufsize, recv_loop ⟨[], 0, 0⟩ frags =
        some ⟨frags.flatten, (frags.map List.length).sum, bufsize⟩ ∧
      frags.flatten.length = (frags.map List.length).sum ∧
      (frags.map List.length).sum ≤ bufsize := by
  have hjoin : frags.flatten.length = (frags.map List.length).sum := by
    rw [List.length_flatten]
  cases frags with
  | nil => exact ⟨0, rfl, hjoin, Nat.le_refl _⟩
  | cons f fs =>
    simp only [List.tail_cons] at hrest
    simp only [List.map_cons, List.sum_cons] at htot ⊢
    obtain ⟨b, hb, hb1, hb2⟩ := recv_append_ok ⟨[], 0, 0⟩ f (Nat.le_refl _) (by simp)
      (Or.inr rfl) (by simp only [Nat.zero_add]; omega)
    simp only [List.nil_append, Nat.zero_add] at hb hb1 hb2
    obtain ⟨b', hb', hle⟩ := recv_loop_ok fs ⟨f, f.length, b⟩ hb1 hb2 hrest
      (by simp only []; omega)
    simp only [] at hb' hle
    refine ⟨b', ?_, hjoin, hle⟩
    unfold recv_loop
    rw [hb]
    simp only []
    rw [hb']
    rfl

/-! ## The headers of the responses -/

theorem decimalAux_length : ∀ (k fuel n : Nat) (acc : List Char),
    n < 10 ^ (k + 1) → k + 1 ≤ fuel → (decimalAux fuel n acc).length ≤ acc.length + (k + 1) := by
  intro k
  induction k with
  | zero =>
    intro fuel n acc hn hf
    cases fuel with
    | zero => omega
    | succ f =>
      unfold decimalAux
      rw [if_pos (by simpa using hn)]
      simp
  | succ k ih =>
    intro fuel n acc hn hf
    cases fuel with
    | zero => omega
    | succ f =>
      unfold decimalAux
      split
      · simp only [List.length_cons]
        omega
      · have hdiv : n / 10 < 10 ^ (k + 1) := by
          rw [Nat.div_lt_iff_lt_mul (by decide)]
          rw [Nat.pow_succ] at hn
          exact hn
        have := ih f (n / 10) (Char.ofNat (48 + n % 10) :: acc) hdiv (by omega)
        simp only [List.length_cons] at this
        omega

/-- A `uint16_t` prints as at most five digits. -/
theorem decimal_length_le (n : Nat) (h : n < 65536) : (decimal n).length ≤ 5 := by
  unfold decimal
  by_cases h5 : 5 ≤ n + 1
  · have := decimalAux_length 4 (n + 1) n [] (by norm_num; omega) h5
    simpa using this
  · have h10 : n < 10 := by omega
    cases n with
    | zero => decide
    | succ m =>
      unfold decimalAux
      rw [if_pos h10]
      simp

/-- The header of `http_server_send_resource_file` is not cut by `snprintf`:
the buffer leaves five bytes for the length. -/
theorem send_resource_file_eq (env : Env) (asset content_type encoding : List Char)
    (h : env.hdr_alloc = true) :
    http_server_send_resource_file env asset content_type encoding =
      [Effect.write (format_hdr content_type (asset.length % 65536) encoding),
       Effect.write asset] := by
  unfold http_server_send_resource_file
  simp only [h, if_true]
  rw [List.take_of_length_le]
  have hd := decimal_length_le (asset.length % 65536) (Nat.mod_lt _ (by decide))
  have h1 : http_hdr_template_length = http_hdr_template_1.length + http_hdr_template_2.length
      + http_hdr_template_3.length + http_hdr_template_4.length + 6 := by decide
  simp only [format_hdr, List.length_append]
  omega

theorem lineHas_of_infix (l p : List Char) (h : p <:+: l) : lineHas l p = true :=
  (findSub_isSome_iff l p).mpr h

/-- Every header formatted from `http_hdr_template` carries the cross-origin
line. -/
theorem lineHas_format_hdr (content_type : List Char) (n : Nat) (encoding : List Char) :
    lineHas (format_hdr content_type n encoding) "Access-Control-Allow-Origin: *".toList
      = true := by
  apply lineHas_of_infix
  refine ⟨http_hdr_template_1 ++ content_type ++ http_hdr_template_2 ++ decimal n
    ++ http_hdr_template_3 ++ encoding ++ ['\n'], ['\n', '\n'], ?_⟩
  unfold format_hdr
  have : http_hdr_template_4 = ['\n'] ++ "Access-Control-Allow-Origin: *".toList ++ ['\n', '\n'] := by
    decide
  rw [this]
  simp only [List.append_assoc]

theorem first_write_append_close (es : List Effect) :
    first_write (es ++ [Effect.close]) = first_write es := by
  induction es with
  | nil => rfl
  | cons e es ih => cases e <;> simp [first_write, ih]

theorem first_write_config_sets (sets rest : List Effect)
    (h : ∀ e ∈ sets, ∃ k v, e = Effect.config_set_value k v) :
    first_write (sets ++ rest) = first_write rest := by
  induction sets with
  | nil => rfl
  | cons e es ih =>
    obtain ⟨k, v, hk⟩ := h e (List.mem_cons_self _ _)
    subst hk
    simp only [List.cons_append, first_write]
    exact ih (fun e he => h e (List.mem_cons_of_mem _ he))

/-- Case analysis on the header of a response: the first write of a route is
one of the constant headers or a header formatted from `http_hdr_template`. -/
theorem first_write_dispatch (Q : List Char → Prop)
    (h400 : Q http_400_hdr) (h503 : Q http_503_hdr) (hjson : Q http_ok_json_no_cache_hdr)
    (hhtml : Q http_html_hdr) (hjs : Q http_js_hdr) (hcss : Q http_css_hdr)
    (hfmt : ∀ ct n enc, n < 65536 → Q (format_hdr ct n enc))
    (env : Env) (mem : List Char) (save_ptr bufEnd : Nat) (line : List Char)
    (es : List Effect) (b : List Char)
    (h : dispatch env mem save_ptr bufEnd line = some es) (hb : first_write es = some b) :
    Q b := by
  have hres : ∀ asset ct enc b,
      first_write (http_server_send_resource_file env asset ct enc) = some b → Q b := by
    intro asset ct enc b hb
    cases ha : env.hdr_alloc with
    | true =>
      rw [send_resource_file_eq env asset ct enc ha] at hb
      simp only [first_write, Option.some.injEq] at hb
      rw [← hb]
      exact hfmt _ _ _ (Nat.mod_lt _ (by decide))
    | false =>
      unfold http_server_send_resource_file at hb
      simp only [ha, Bool.false_eq_true, if_false, first_write, Option.some.injEq] at hb
      rw [← hb]
      exact h503
  have hall : ∀ e ∈ route_table env mem save_ptr bufEnd, ∀ es, e.2 = some es →
      first_write es = some b → Q b := by
    intro e he es hes hb
    unfold route_table at he
    simp only [List.mem_cons, List.mem_singleton, List.not_mem_nil, or_false] at he
    rcases he with h | h | h | h | h | h | h | h | h | h | h | h | h | h | h | h | h
    all_goals (rw [h] at hes; simp only [Option.some.injEq] at hes)
    all_goals first
      | (rw [← hes] at hb; exact hres _ _ _ _ hb)
      | (rw [← hes, route_post_connect_spec] at hb
         revert hb
         cases header_value (cstr mem save_ptr) "X-Custom-host_name: ".toList <;>
           cases header_value (cstr mem save_ptr) "X-Custom-ssid: ".toList <;>
           cases header_value (cstr mem save_ptr) "X-Custom-pwd: ".toList <;>
           simp only [] <;> intro hb <;> revert hb <;> (try split) <;> (try split) <;>
           simp [first_write] <;> intro hb <;> rw [← hb] <;> assumption)
      | (obtain ⟨sets, ota, hsets, _, hr⟩ := route_post_config_shape env mem save_ptr bufEnd
         rw [hr] at hes
         simp only [Option.some.injEq] at hes
         rw [← hes, List.append_assoc, first_write_config_sets _ _ hsets] at hb
         simp only [List.singleton_append, first_write, Option.some.injEq] at hb
         rw [← hb]
         exact hjson)
      | (rw [← hes] at hb; unfold route_get_ap at hb; revert hb
         cases env.json_lock <;> cases env.ap_list_json <;> simp [first_write] <;>
           intro hb <;> rw [← hb] <;> assumption)
      | (rw [← hes] at hb; unfold route_get_status at hb; revert hb
         cases env.json_lock <;> cases env.ip_info_json <;> simp [first_write] <;>
           intro hb <;> rw [← hb] <;> assumption)
      | (rw [← hes] at hb; unfold http_server_send_config_json at hb; revert hb
         cases env.config_json <;> simp [first_write] <;>
           intro hb <;> rw [← hb] <;> assumption)
      | (rw [← hes] at hb; simp only [first_write, Option.some.injEq] at hb
         rw [← hb]; assumption)
      | (rw [← hes] at hb; simp [first_write] at hb)
  rw [dispatch_eq_table_behaviour, table_behaviour] at h
  cases hf : (route_table env mem save_ptr bufEnd).find? fun e => lineHas line e.1 with
  | none =>
    rw [hf] at h
    simp only [Option.some.injEq] at h
    rw [← h] at hb
    simp only [first_write, Option.some.injEq] at hb
    rw [← hb]
    exact h400
  | some e =>
    rw [hf] at h
    exact hall e (List.mem_of_find?_eq_some hf) es h hb

/-- Case analysis on the header of the response of one invocation.  The 404
header is not among the cases: without a token `save_ptr` is NULL and the
invocation does not reach line 599. -/
theorem first_write_serve (Q : List Char → Prop)
    (h400 : Q http_400_hdr) (h503 : Q http_503_hdr)
    (h302 : Q http_redirect_hdr_start) (hjson : Q http_ok_json_no_cache_hdr)
    (hhtml : Q http_html_hdr) (hjs : Q http_js_hdr) (hcss : Q http_css_hdr)
    (hfmt : ∀ ct n enc, n < 65536 → Q (format_hdr ct n enc))
    (env : Env) (rcv tail : List Char) (es : List Effect) (b : List Char)
    (h : http_server_netconn_serve env rcv tail = some es) (hb : first_write es = some b) :
    Q b := by
  unfold http_server_netconn_serve at h
  cases hap : env.ap_ip_address with
  | none =>
    rw [hap] at h
    simp only [Option.some.injEq] at h
    rw [← h] at hb
    simp only [first_write, Option.some.injEq] at hb
    rw [← hb]
    exact h503
  | some ap =>
    rw [hap] at h
    simp only [] at h
    by_cases hlen : rcv.length ≠ 0
    · rw [if_pos hlen] at h
      cases hn : (strtok_r (rcv ++ tail)).save_ptr_null with
      | true =>
        have hs : serve_buffer env ap rcv tail = none := by
          unfold serve_buffer
          simp only [hn, if_true]
        rw [hs] at h
        simp at h
      | false =>
        cases hline : (strtok_r (rcv ++ tail)).line with
        | none =>
          have := save_ptr_null_of_no_line _ hline
          rw [hn] at this
          cases this
        | some line =>
          unfold serve_buffer at h
          simp only [hn, hline, Bool.false_eq_true, if_false] at h
          split at h
          · simp only [Option.map_some', Option.some.injEq] at h
            rw [← h] at hb
            simp only [List.cons_append, first_write, Option.some.injEq] at hb
            rw [← hb]
            exact h302
          · have hsome := dispatch_isSome env (strtok_r (rcv ++ tail)).mem
              (strtok_r (rcv ++ tail)).save_ptr rcv.length line
            obtain ⟨ds, hds⟩ := Option.isSome_iff_exists.mp hsome
            rw [hds] at h
            simp only [Option.map_some', Option.some.injEq] at h
            rw [← h, first_write_append_close] at hb
            simp only [List.cons_append, List.nil_append, first_write] at hb
            exact first_write_dispatch Q h400 h503 hjson hhtml hjs hcss hfmt env _ _ _ _ ds b
              hds hb
    · rw [if_neg hlen] at h
      simp only [Option.some.injEq] at h
      rw [← h] at hb
      simp [first_write] at hb

/-- C17, as stated for every response.  A request for a path that is not in
the route table is answered with the 400 header alone, and a request with a
foreign Host with the 302 redirect; neither response holds the cross-origin
line or a cache header, and the 404 and 503 headers hold none either. -/
theorem error_responses_counterexample :
    (http_server_netconn_serve sample_env unknown_path_request []).map written =
      some http_400_hdr ∧
    lineHas http_400_hdr "Access-Control-Allow-Origin: *".toList = false ∧
    lineHas http_400_hdr "Cache-Control".toList = false ∧
    lineHas http_400_hdr "Pragma".toList = false ∧
    (http_server_netconn_serve sample_env foreign_host_request []).map written =
      some "HTTP/1.1 302 Found\nLocation: http://192.168.4.1/\n\n".toList ∧
    lineHas "HTTP/1.1 302 Found\nLocation: http://192.168.4.1/\n\n".toList
      "Access-Control-Allow-Origin: *".toList = false ∧
    lineHas "HTTP/1.1 302 Found\nLocation: http://192.168.4.1/\n\n".toList
      "Cache-Control".toList = false ∧
    lineHas http_404_hdr "Access-Control-Allow-Origin: *".toList = false ∧
    lineHas http_503_hdr "Access-Control-Allow-Origin: *".toList = false := by
  decide

/-- C17 (amended): the header of every response, that is the first write `b` of
an invocation of `http_server_netconn_serve`, is of one of three kinds.  It is
the 400, 404 or 503 header or the start of the 302 redirect, which hold neither
the line `Access-Control-Allow-Origin: *` nor a `Cache-Control` or `Pragma`
line.  Or it is the 200 header of the JSON responses, which holds the
cross-origin line and the lines `Cache-Control: no-store, no-cache,
must-revalidate, max-age=0` and `Pragma: no-cache`.  Or it is the 200 header
of a static asset (the HTML, script or style-sheet header, or the template
formatted with a content type, a length below 65536 and an encoding), which
holds the cross-origin line. -/
theorem response_header_kinds (env : Env) (rcv tail : List Char) (es : List Effect)
    (b : List Char) (h : http_server_netconn_serve env rcv tail = some es)
    (hb : first_write es = some b) :
    ((b = http_400_hdr ∨ b = http_404_hdr ∨ b = http_503_hdr ∨ b = http_redirect_hdr_start) ∧
      lineHas b "Access-Control-Allow-Origin: *".toList = false ∧
      lineHas b "Cache-Control".toList = false ∧ lineHas b "Pragma".toList = false) ∨
    (b = http_ok_json_no_cache_hdr ∧
      lineHas b "Access-Control-Allow-Origin: *".toList = true ∧
      lineHas b "Cache-Control: no-store, no-cache, must-revalidate, max-age=0\n".toList = true ∧
      lineHas b "Pragma: no-cache\n".toList = true) ∨
    ((b = http_html_hdr ∨ b = http_js_hdr ∨ b = http_css_hdr ∨
        ∃ ct n enc, n < 65536 ∧ b = format_hdr ct n enc) ∧
      lineHas b "Access-Control-Allow-Origin: *".toList = true) := by
  refine first_write_serve (fun b =>
    ((b = http_400_hdr ∨ b = http_404_hdr ∨ b = http_503_hdr ∨ b = http_redirect_hdr_start) ∧
      lineHas b "Access-Control-Allow-Origin: *".toList = false ∧
      lineHas b "Cache-Control".toList = false ∧ lineHas b "Pragma".toList = false) ∨
    (b = http_ok_json_no_cache_hdr ∧
      lineHas b "Access-Control-Allow-Origin: *".toList = true ∧
      lineHas b "Cache-Control: no-store, no-cache, must-revalidate, max-age=0\n".toList = true ∧
      lineHas b "Pragma: no-cache\n".toList = true) ∨
    ((b = http_html_hdr ∨ b = http_js_hdr ∨ b = http_css_hdr ∨
        ∃ ct n enc, n < 65536 ∧ b = format_hdr ct n enc) ∧
      lineHas b "Access-Control-Allow-Origin: *".toList = true))
    ?_ ?_ ?_ ?_ ?_ ?_ ?_ ?_ env rcv tail es b h hb
  · exact Or.inl ⟨Or.inl rfl, by decide, by decide, by decide⟩
  · exact Or.inl ⟨Or.inr (Or.inr (Or.inl rfl)), by decide, by decide, by decide⟩
  · exact Or.inl ⟨Or.inr (Or.inr (Or.inr rfl)), by decide, by decide, by decide⟩
  · exact Or.inr (Or.inl ⟨rfl, by decide, by decide, by decide⟩)
  · exact Or.inr (Or.inr ⟨Or.inl rfl, by decide⟩)
  · exact Or.inr (Or.inr ⟨Or.inr (Or.inl rfl), by decide⟩)
  · exact Or.inr (Or.inr ⟨Or.inr (Or.inr (Or.inl rfl)), by decide⟩)
  · intro ct n enc hn
    exact Or.inr (Or.inr ⟨Or.inr (Or.inr (Or.inr ⟨ct, n, enc, hn, rfl⟩)),
      lineHas_format_hdr ct n enc⟩)

theorem response_header_kinds_witness :
    http_server_netconn_serve sample_env status_request [] =
      some [Effect.wifi_manager_lock_sta_ip_string, Effect.wifi_manager_unlock_sta_ip_string,
        Effect.wifi_manager_lock_json_buffer true, Effect.wifi_manager_unlock_json_buffer,
        Effect.write http_ok_json_no_cache_hdr, Effect.write "{}".toList, Effect.close] ∧
    (((http_ok_json_no_cache_hdr = http_400_hdr ∨ http_ok_json_no_cache_hdr = http_404_hdr ∨
        http_ok_json_no_cache_hdr = http_503_hdr ∨
        http_ok_json_no_cache_hdr = http_redirect_hdr_start) ∧
      lineHas http_ok_json_no_cache_hdr "Access-Control-Allow-Origin: *".toList = false ∧
      lineHas http_ok_json_no_cache_hdr "Cache-Control".toList = false ∧
      lineHas http_ok_json_no_cache_hdr "Pragma".toList = false) ∨
    (http_ok_json_no_cache_hdr = http_ok_json_no_cache_hdr ∧
      lineHas http_ok_json_no_cache_hdr "Access-Control-Allow-Origin: *".toList = true ∧
      lineHas http_ok_json_no_cache_hdr
        "Cache-Control: no-store, no-cache, must-revalidate, max-age=0\n".toList = true ∧
      lineHas http_ok_json_no_cache_hdr "Pragma: no-cache\n".toList = true) ∨
    ((http_ok_json_no_cache_hdr = http_html_hdr ∨ http_ok_json_no_cache_hdr = http_js_hdr ∨
        http_ok_json_no_cache_hdr = http_css_hdr ∨
        ∃ ct n enc, n < 65536 ∧ http_ok_json_no_cache_hdr = format_hdr ct n enc) ∧
      lineHas http_ok_json_no_cache_hdr "Access-Control-Allow-Origin: *".toList = true)) :=
  ⟨by decide, response_header_kinds sample_env status_request []
    [Effect.wifi_manager_lock_sta_ip_string, Effect.wifi_manager_unlock_sta_ip_string,
      Effect.wifi_manager_lock_json_buffer true, Effect.wifi_manager_unlock_json_buffer,
      Effect.write http_ok_json_no_cache_hdr, Effect.write "{}".toList, Effect.close]
    http_ok_json_no_cache_hdr (by decide) (by decide)⟩

/-! ## The 404 answer is not reached -/

theorem format_hdr_ne_404 (ct : List Char) (n : Nat) (enc : List Char) :
    format_hdr ct n enc ≠ http_404_hdr := by
  intro h
  have h1 := congrArg (List.take 12) h
  unfold format_hdr at h1
  simp only [List.append_assoc] at h1
  rw [List.take_append_of_le_length (by decide)] at h1
  revert h1
  decide

/-- No response starts with the 404 header. -/
theorem first_write_ne_404 (env : Env) (rcv tail : List Char) (es : List Effect)
    (h : http_server_netconn_serve env rcv tail = some es) :
    first_write es ≠ some http_404_hdr := by
  intro hb
  exact first_write_serve (fun b => b ≠ http_404_hdr) (by decide) (by decide) (by decide)
    (by decide) (by decide) (by decide) (by decide)
    (fun ct n enc _ => format_hdr_ne_404 ct n enc) env rcv tail es http_404_hdr h hb rfl

/-- C15, the code at failing inputs.  The received bytes `GET / HTTP/1.1` hold
no line feed; with a NUL after them the token runs to the NUL, newlib leaves
`save_ptr` NULL, and line 355 reads through it: the invocation ends there, and
neither the 404 header nor anything else is written.  The same holds for a
buffer that starts with a NUL, for which `line` is NULL, the case the 404
answer of lines 597-600 is written for, and for every buffer with no line feed
before the first NUL of the memory.  When stale memory after the received
bytes supplies the line feed, the line is routed and the index page is served.
No invocation that reaches its end starts its response with the 404 header. -/
theorem no_line_feed_reads_null_save_ptr :
    unterminated_request ≠ [] ∧ '\n' ∉ unterminated_request ∧
    (strtok_r (unterminated_request ++ [])).line = some "GET / HTTP/1.1".toList ∧
    (strtok_r (unterminated_request ++ [])).save_ptr_null = true ∧
    http_server_netconn_serve sample_env unterminated_request [] = none ∧
    nul_first_request ≠ [] ∧ '\n' ∉ nul_first_request ∧
    (strtok_r (nul_first_request ++ [])).line = none ∧
    (strtok_r (nul_first_request ++ [])).save_ptr_null = true ∧
    http_server_netconn_serve sample_env nul_first_request [] = none ∧
    http_server_netconn_serve sample_env unterminated_request " \nstale".toList =
      some (sta_ip_calls ++ [Effect.write http_html_hdr, Effect.write sample_env.index_html,
        Effect.close]) ∧
    (∀ (env : Env) (ap rcv tail : List Char), env.ap_ip_address = some ap → rcv ≠ [] →
      '\n' ∉ cstr (rcv ++ tail) 0 → http_server_netconn_serve env rcv tail = none) ∧
    (∀ (env : Env) (rcv tail : List Char) (es : List Effect),
      http_server_netconn_serve env rcv tail = some es →
      first_write es ≠ some http_404_hdr) := by
  refine ⟨by decide, by decide, by decide, by decide, by decide, by decide, by decide,
    by decide, by decide, by decide, by decide, ?_, ?_⟩
  · intro env ap rcv tail hap hrcv hno
    rw [serve_eq_none_iff]
    refine ⟨?_, hrcv, save_ptr_null_of_no_line_feed _ hno⟩
    rw [hap]
    simp
  · intro env rcv tail es h
    exact first_write_ne_404 env rcv tail es h

/-! ## The host name of `POST /connect.json` -/

/-- C21.  For every request that is not redirected and whose request line is
dispatched to `POST /connect.json`: when the text after the request line
carries `X-Custom-host_name: ` with a non-empty value `h`, the trace after the
station-address lock and unlock starts with one call
`config_set_value("host_name", h)`, which is the only `config_set_value` of the
trace and precedes the outcome of the ssid and password check, be it the
connect request with the 200 header or the 400 header; when the field is
absent or its value is empty, the trace holds no `config_set_value`. -/
theorem connect_json_host_name (env : Env) (ap rcv tail line : List Char)
    (hap : env.ap_ip_address = some ap) (hrcv : rcv ≠ [])
    (hline : request_line rcv tail = some line)
    (hred : request_redirected env ap rcv tail = false)
    (hroute : first_route line = some "POST /connect.json ".toList) :
    (∀ h, header_value (request_text rcv tail) "X-Custom-host_name: ".toList = some h →
      h ≠ [] →
      ∃ rest, http_server_netconn_serve env rcv tail =
          some (sta_ip_calls ++ [Effect.config_set_value "host_name".toList h] ++ rest ++
            [Effect.close]) ∧
        (∀ k v, Effect.config_set_value k v ∉ rest) ∧
        (rest = [Effect.write http_400_hdr] ∨
          ∃ s p, rest = [Effect.wifi_manager_connect_async s p,
            Effect.write http_ok_json_no_cache_hdr])) ∧
    ((header_value (request_text rcv tail) "X-Custom-host_name: ".toList = none ∨
        header_value (request_text rcv tail) "X-Custom-host_name: ".toList = some []) →
      ∃ es, http_server_netconn_serve env rcv tail = some es ∧
        ∀ k v, Effect.config_set_value k v ∉ es) := by
  have hs := serve_of_route env ap rcv tail line hap hrcv hline hred
  rw [dispatch_post_connect _ _ _ _ _ hroute, route_post_connect_spec] at hs
  simp only [Option.map_some'] at hs
  have hrest : ∀ (o1 o2 : Option (List Char)),
      (∀ k v, Effect.config_set_value k v ∉
        (match o1, o2 with
         | some s, some p =>
           if s.length ≤ env.MAX_SSID_SIZE ∧ p.length ≤ env.MAX_PASSWORD_SIZE then
             [Effect.wifi_manager_connect_async s p, Effect.write http_ok_json_no_cache_hdr]
           else [Effect.write http_400_hdr]
         | _, _ => [Effect.write http_400_hdr])) ∧
      ((match o1, o2 with
         | some s, some p =>
           if s.length ≤ env.MAX_SSID_SIZE ∧ p.length ≤ env.MAX_PASSWORD_SIZE then
             [Effect.wifi_manager_connect_async s p, Effect.write http_ok_json_no_cache_hdr]
           else [Effect.write http_400_hdr]
         | _, _ => [Effect.write http_400_hdr]) = [Effect.write http_400_hdr] ∨
        ∃ s p, (match o1, o2 with
         | some s, some p =>
           if s.length ≤ env.MAX_SSID_SIZE ∧ p.length ≤ env.MAX_PASSWORD_SIZE then
             [Effect.wifi_manager_connect_async s p, Effect.write http_ok_json_no_cache_hdr]
           else [Effect.write http_400_hdr]
         | _, _ => [Effect.write http_400_hdr]) =
          [Effect.wifi_manager_connect_async s p, Effect.write http_ok_json_no_cache_hdr]) := by
    intro o1 o2
    cases o1 with
    | none => exact ⟨by simp, Or.inl rfl⟩
    | some s =>
      cases o2 with
      | none => exact ⟨by simp, Or.inl rfl⟩
      | some p =>
        simp only []
        split
        · exact ⟨by simp, Or.inr ⟨s, p, rfl⟩⟩
        · exact ⟨by simp, Or.inl rfl⟩
  have hr := hrest
    (header_value (cstr (strtok_r (rcv ++ tail)).mem (strtok_r (rcv ++ tail)).save_ptr)
      "X-Custom-ssid: ".toList)
    (header_value (cstr (strtok_r (rcv ++ tail)).mem (strtok_r (rcv ++ tail)).save_ptr)
      "X-Custom-pwd: ".toList)
  constructor
  · intro h hh hne
    unfold request_text at hh
    rw [hh] at hs
    simp only [hne, ne_eq, not_false_eq_true, if_true] at hs
    refine ⟨_, ?_, hr.1, hr.2⟩
    rw [hs]
    simp only [List.append_assoc]
  · intro hh
    unfold request_text at hh
    refine ⟨_, hs, ?_⟩
    intro k v hmem
    have hnil : (match header_value (cstr (strtok_r (rcv ++ tail)).mem
          (strtok_r (rcv ++ tail)).save_ptr) "X-Custom-host_name: ".toList with
        | some h => if h ≠ [] then [Effect.config_set_value "host_name".toList h] else []
        | none => []) = [] := by
      rcases hh with h0 | h0
      · rw [h0]
      · rw [h0]
        simp
    rw [hnil] at hmem
    simp only [List.nil_append, List.mem_append, List.mem_singleton, reduceCtorEq, or_false,
      sta_ip_calls, List.mem_cons, List.not_mem_nil, false_or] at hmem
    exact hr.1 k v hmem

theorem connect_json_host_name_witness :
    ∃ rest, http_server_netconn_serve sample_env connect_request [] =
        some (sta_ip_calls ++ [Effect.config_set_value "host_name".toList "player".toList] ++
          rest ++ [Effect.close]) ∧
      (∀ k v, Effect.config_set_value k v ∉ rest) ∧
      (rest = [Effect.write http_400_hdr] ∨
        ∃ s p, rest = [Effect.wifi_manager_connect_async s p,
          Effect.write http_ok_json_no_cache_hdr]) :=
  (connect_json_host_name sample_env "192.168.4.1".toList connect_request []
    "POST /connect.json HTTP/1.1\r".toList (by decide) (by decide) (by decide) (by decide)
    (by decide)).1 "player".toList (by decide) (by decide)

/-! ## Several firmware URLs in one `POST /config.json` -/

theorem reboot_ota_not_mem_stored_fields (fs : List CustomField) (url : List Char) :
    Effect.wifi_manager_reboot_ota url ∉ stored_fields fs := by
  unfold stored_fields
  simp

/-- C23.  For every request that is not redirected, whose request line is
dispatched to `POST /config.json`, and whose bytes after the request line are
well-formed custom fields among which `fw` is the last with the key `fwurl`,
any number of `fwurl` fields standing before it: the trace is the
station-address lock and unlock, `config_set_value` for every field whose key
is not `fwurl` in the order of the lines, the write of the 200 JSON header,
one call `wifi_manager_reboot_ota(fw.value)` and the close.  The reboot is
requested once, with the value of the last `fwurl` line, after every
`config_set_value` and after the 200 header. -/
theorem post_config_last_fwurl_wins (env : Env) (ap rcv tail line : List Char)
    (fs1 fs2 : List CustomField) (fw : CustomField) (rest : List Char)
    (hap : env.ap_ip_address = some ap) (hrcv : rcv ≠ [])
    (hline : request_line rcv tail = some line)
    (hred : request_redirected env ap rcv tail = false)
    (hroute : first_route line = some "POST /config.json ".toList)
    (hblock : request_block rcv tail = render_fields (fs1 ++ fw :: fs2) rest)
    (hwf : ∀ f ∈ fs1 ++ fw :: fs2, f.wf)
    (hfw : fw.key = "fwurl".toList)
    (hlast : ∀ f ∈ fs2, f.key ≠ "fwurl".toList)
    (halloc : ∀ i, i < (fs1 ++ fw :: fs2).length → env.name_alloc i = true)
    (hrest : ∀ j, j < rest.length → ¬ "X-Custom-".toList <+: (rest ++ tail).drop j) :
    http_server_netconn_serve env rcv tail =
      some (sta_ip_calls ++ (stored_fields fs1 ++ stored_fields fs2) ++
        [Effect.write http_ok_json_no_cache_hdr, Effect.wifi_manager_reboot_ota fw.value,
         Effect.close]) ∧
    (∀ url, Effect.wifi_manager_reboot_ota url ∉
      sta_ip_calls ++ (stored_fields fs1 ++ stored_fields fs2)) ∧
    stored_fields fs1 ++ stored_fields fs2 =
      ((fs1 ++ fw :: fs2).filter fun f => f.key ≠ "fwurl".toList).map fun f =>
        Effect.config_set_value f.key f.value := by
  have hst : stored_fields (fs1 ++ fw :: fs2) = stored_fields fs1 ++ stored_fields fs2 := by
    rw [stored_fields_append, stored_fields_cons_eq fw fs2 hfw]
  have hota : ota_url (fs1 ++ fw :: fs2) none = some fw.value := by
    rw [ota_url_append, ota_url_cons, if_pos hfw, ota_url_of_no_fwurl fs2 _ hlast]
  have hs := serve_post_config env ap rcv tail line (fs1 ++ fw :: fs2) rest hap hrcv hline hred
    hroute hblock hwf halloc hrest
  rw [hst, hota] at hs
  refine ⟨?_, ?_, ?_⟩
  · rw [hs]
    simp
  · intro url hmem
    rcases List.mem_append.mp hmem with h | h
    · simp [sta_ip_calls] at h
    · rcases List.mem_append.mp h with h | h
      · exact reboot_ota_not_mem_stored_fields fs1 url h
      · exact reboot_ota_not_mem_stored_fields fs2 url h
  · rw [← hst]
    rfl

theorem post_config_last_fwurl_wins_witness :
    http_server_netconn_serve sample_env two_fwurl_request [] =
      some (sta_ip_calls ++ (stored_fields [old_fwurl_field, middle_field] ++ stored_fields []) ++
        [Effect.write http_ok_json_no_cache_hdr,
         Effect.wifi_manager_reboot_ota new_fwurl_field.value, Effect.close]) ∧
    (∀ url, Effect.wifi_manager_reboot_ota url ∉
      sta_ip_calls ++ (stored_fields [old_fwurl_field, middle_field] ++ stored_fields [])) ∧
    stored_fields [old_fwurl_field, middle_field] ++ stored_fields [] =
      (([old_fwurl_field, middle_field] ++ new_fwurl_field :: []).filter
        fun f => f.key ≠ "fwurl".toList).map fun f =>
        Effect.config_set_value f.key f.value :=
  post_config_last_fwurl_wins sample_env "192.168.4.1".toList two_fwurl_request []
    "POST /config.json HTTP/1.1\r".toList [old_fwurl_field, middle_field] [] new_fwurl_field
    "\n\r\n".toList
    (by decide) (by decide) (by decide) (by decide) (by decide) (by decide) (by decide)
    (by decide) (by decide) (by decide) (by decide)

/-! ## The capacity of the read loop under bounded fragments -/

/-- One pass of the inner loop from a state whose capacity is a multiple of 2048
that covers the length, for a fragment of at most 2048 bytes that keeps the
total within 63488 bytes. -/
theorem recv_append_capacity (s : RecvState) (frag : List Char)
    (h1 : s.buflen ≤ s.bufsize) (h2 : s.bufsize % 2048 = 0) (h3 : s.bufsize ≤ 63488)
    (hf : frag.length ≤ 2048) (htot : s.buflen + frag.length ≤ 63488) :
    ∃ b, recv_append s frag = some ⟨s.buf ++ frag, s.buflen + frag.length, b⟩ ∧
      (b = s.bufsize ∨ b = s.bufsize + 2048) ∧
      s.buflen + frag.length ≤ b ∧ b % 2048 = 0 ∧ b ≤ 63488 := by
  have key : (recv_bufsize s.buflen s.bufsize frag.length = s.bufsize ∨
        recv_bufsize s.buflen s.bufsize frag.length = s.bufsize + 2048) ∧
      s.buflen + frag.length ≤ recv_bufsize s.buflen s.bufsize frag.length ∧
      recv_bufsize s.buflen s.bufsize frag.length % 2048 = 0 ∧
      recv_bufsize s.buflen s.bufsize frag.length ≤ 63488 := by
    unfold recv_bufsize
    split
    · simp only []
      split <;> omega
    · omega
  refine ⟨recv_bufsize s.buflen s.bufsize frag.length, ?_, key⟩
  unfold recv_append
  simp only []
  rw [if_pos key.2.1, Nat.mod_eq_of_lt (by omega)]

/-- The read loop over bounded fragments, with the state before and after each
fragment. -/
theorem recv_loop_capacity : ∀ (pre : List (List Char)) (f : List Char) (s : RecvState),
    s.buflen ≤ s.bufsize → s.bufsize % 2048 = 0 → s.bufsize ≤ 63488 →
    (∀ g ∈ pre ++ [f], g.length ≤ 2048) →
    s.buflen + ((pre ++ [f]).map List.length).sum ≤ 63488 →
    ∃ s1 b, recv_loop s pre = some s1 ∧
      s1.buf = s.buf ++ pre.flatten ∧ s1.buflen = s.buflen + (pre.map List.length).sum ∧
      s1.buflen ≤ s1.bufsize ∧ s1.bufsize % 2048 = 0 ∧ s1.bufsize ≤ 63488 ∧
      recv_append s1 f = some ⟨s1.buf ++ f, s1.buflen + f.length, b⟩ ∧
      (b = s1.bufsize ∨ b = s1.bufsize + 2048) ∧
      s1.buflen + f.length ≤ b ∧ b % 2048 = 0 ∧ b ≤ 63488 := by
  intro pre
  induction pre with
  | nil =>
    intro f s h1 h2 h3 hall htot
    simp only [List.nil_append, List.map_cons, List.map_nil, List.sum_cons, List.sum_nil,
      Nat.add_zero] at htot
    obtain ⟨b, hb⟩ := recv_append_capacity s f h1 h2 h3 (hall f (by simp)) htot
    exact ⟨s, b, rfl, by simp, by simp, h1, h2, h3, hb⟩
  | cons g gs ih =>
    intro f s h1 h2 h3 hall htot
    simp only [List.cons_append, List.map_cons, List.sum_cons] at htot
    obtain ⟨b, hb, _, hb1, hb2, hb3⟩ := recv_append_capacity s g h1 h2 h3
      (hall g (by simp)) (by omega)
    obtain ⟨s1, b1, hl, hbuf, hlen, r⟩ := ih f ⟨s.buf ++ g, s.buflen + g.length, b⟩ hb1 hb2 hb3
      (fun x hx => hall x (by
        rw [List.cons_append]
        exact List.mem_cons_of_mem _ hx)) (by simp only []; omega)
    refine ⟨s1, b1, ?_, ?_, ?_, r⟩
    · unfold recv_loop
      rw [hb]
      exact hl
    · rw [hbuf]
      simp only [List.flatten_cons, List.append_assoc]
    · rw [hlen]
      simp only [List.map_cons, List.sum_cons]
      omega

/-- C24.  When every received fragment has at most 2048 bytes and the lengths
add up to at most 63488 bytes, then for every fragment `f` of the sequence,
after the fragments `pre` before it: the read loop has reached a state with
`buflen` the bytes received so far, and the append of `f` succeeds, that is the
copy stays inside the capacity, leaving `buflen + |f| <= bufsize`; the
capacity is unchanged or 2048 larger, a multiple of 2048 and at most 63488, so
that neither 16-bit counter wraps. -/
theorem capacity_invariant (frags pre suf : List (List Char)) (f : List Char)
    (hall : ∀ g ∈ frags, g.length ≤ 2048)
    (htot : (frags.map List.length).sum ≤ 63488)
    (hsplit : frags = pre ++ f :: suf) :
    ∃ s s1, recv_loop ⟨[], 0, 0⟩ pre = some s ∧ recv_append s f = some s1 ∧
      s.buf = pre.flatten ∧ s.buflen = (pre.map List.length).sum ∧
      s1.buf = pre.flatten ++ f ∧ s1.buflen = s.buflen + f.length ∧
      s1.buflen ≤ s1.bufsize ∧ s1.bufsize % 2048 = 0 ∧ s1.bufsize < 65536 ∧
      (s1.bufsize = s.bufsize ∨ s1.bufsize = s.bufsize + 2048) := by
  subst hsplit
  have hsum : ((pre ++ [f]).map List.length).sum ≤ 63488 := by
    simp only [List.map_append, List.map_cons, List.sum_append, List.sum_cons, List.map_nil,
      List.sum_nil] at htot ⊢
    omega
  obtain ⟨s, b, hl, hbuf, hlen, _, _, _, happ, hor, hle, hmod, hb⟩ :=
    recv_loop_capacity pre f ⟨[], 0, 0⟩ (Nat.le_refl _) (by decide) (by decide)
      (fun g hg => hall g (by
        rcases List.mem_append.mp hg with h | h
        · exact List.mem_append_left _ h
        · rw [List.mem_singleton] at h
          subst h
          exact List.mem_append_right _ (List.mem_cons_self _ _)))
      (by simpa using hsum)
  simp only [List.nil_append, Nat.zero_add] at hbuf hlen
  refine ⟨s, _, hl, happ, hbuf, hlen, ?_, rfl, hle, hmod, ?_, hor⟩
  · simp only [hbuf]
  · show b < 65536
    omega

theorem capacity_invariant_witness :
    ∃ s s1, recv_loop ⟨[], 0, 0⟩ ["GET / HT".toList] = some s ∧
      recv_append s "TP/1.1\n".toList = some s1 ∧
      s.buf = ["GET / HT".toList].flatten ∧
      s.buflen = (["GET / HT".toList].map List.length).sum ∧
      s1.buf = ["GET / HT".toList].flatten ++ "TP/1.1\n".toList ∧
      s1.buflen = s.buflen + "TP/1.1\n".toList.length ∧
      s1.buflen ≤ s1.bufsize ∧ s1.bufsize % 2048 = 0 ∧ s1.bufsize < 65536 ∧
      (s1.bufsize = s.bufsize ∨ s1.bufsize = s.bufsize + 2048) :=
  capacity_invariant ["GET / HT".toList, "TP/1.1\n".toList, "\n".toList] ["GET / HT".toList]
    ["\n".toList] "TP/1.1\n".toList (by decide) (by decide) (by decide)

/-! ## What `http_server_search_header` changes -/

/-- A call of `http_server_search_header` either takes the exit of line 198,
leaving everything as it was, or ends with the value scan of lines 185-196. -/
theorem search_header_cases (mem : List Char) (request : Nat) (header_name : List Char)
    (bufEnd : Nat) (alloc_ok : Bool) :
    http_server_search_header mem request header_name bufEnd alloc_ok =
        { ret := none, len := 0, parm_name := none, next_position := none, nul_at := none,
          mem := mem } ∨
      ∃ r name, http_server_search_header mem request header_name bufEnd alloc_ok =
        search_value mem bufEnd r name := by
  unfold http_server_search_header
  cases strstr mem request header_name with
  | none => exact Or.inl rfl
  | some found =>
    simp only []
    split
    · split
      · split
        · exact Or.inr ⟨_, _, rfl⟩
        · exact Or.inl rfl
      · exact Or.inr ⟨_, _, rfl⟩
    · exact Or.inl rfl

theorem rd_set_ne (mem : List Char) (k i : Nat) (c : Char) (h : i ≠ k) :
    rd (mem.set k c) i = rd mem i := by
  unfold rd
  simp only [List.getD_eq_getElem?_getD]
  rw [List.getElem?_set_ne (Ne.symm h)]

theorem rd_set_NUL (mem : List Char) (k : Nat) : rd (mem.set k NUL) k = NUL := by
  unfold rd
  simp only [List.getD_eq_getElem?_getD]
  by_cases hk : k < mem.length
  · rw [List.getElem?_set_self hk]
    rfl
  · rw [List.getElem?_eq_none (by simp; omega)]
    rfl

/-- C25.  For every call of `http_server_search_header`: when it returns a
value at `v`, the only write is the NUL at `v + *len`, the byte right after the
value, so that every other byte reads as before and the memory keeps its
length; when it returns NULL, be it that the name does not occur before
`bufEnd` or that the allocation of the parameter name fails, nothing is written
and the memory is unchanged.  A call that finds no occurrence before `bufEnd`
returns NULL. -/
theorem search_header_frame (mem : List Char) (request : Nat) (header_name : List Char)
    (bufEnd : Nat) (alloc_ok : Bool) :
    (∀ v, (http_server_search_header mem request header_name bufEnd alloc_ok).ret = some v →
      (http_server_search_header mem request header_name bufEnd alloc_ok).nul_at =
        some (v + (http_server_search_header mem request header_name bufEnd alloc_ok).len) ∧
      (http_server_search_header mem request header_name bufEnd alloc_ok).mem =
        mem.set (v + (http_server_search_header mem request header_name bufEnd alloc_ok).len)
          NUL ∧
      rd (http_server_search_header mem request header_name bufEnd alloc_ok).mem
        (v + (http_server_search_header mem request header_name bufEnd alloc_ok).len) = NUL ∧
      (http_server_search_header mem request header_name bufEnd alloc_ok).mem.length =
        mem.length ∧
      ∀ i, i ≠ v + (http_server_search_header mem request header_name bufEnd alloc_ok).len →
        rd (http_server_search_header mem request header_name bufEnd alloc_ok).mem i =
          rd mem i) ∧
    ((http_server_search_header mem request header_name bufEnd alloc_ok).ret = none →
      (http_server_search_header mem request header_name bufEnd alloc_ok).mem = mem ∧
      (http_server_search_header mem request header_name bufEnd alloc_ok).nul_at = none) ∧
    ((∀ found, strstr mem request header_name = some found → bufEnd ≤ found) →
      (http_server_search_header mem request header_name bufEnd alloc_ok).ret = none) := by
  refine ⟨?_, ?_, ?_⟩
  · intro v hv
    rcases search_header_cases mem request header_name bufEnd alloc_ok with h | ⟨r, name, h⟩
    · rw [h] at hv
      cases hv
    · rw [h] at hv ⊢
      unfold search_value at hv ⊢
      simp only [Option.some.injEq] at hv
      subst hv
      have hle := le_scan (fun c => c != NUL && c != '\n' && c != '\r') (some bufEnd)
        (mem.drop r) r
      have hk : r + (scan (fun c => c != NUL && c != '\n' && c != '\r') (some bufEnd)
          (mem.drop r) r - r) =
          scan (fun c => c != NUL && c != '\n' && c != '\r') (some bufEnd) (mem.drop r) r := by
        omega
      simp only [hk]
      refine ⟨trivial, trivial, rd_set_NUL _ _, List.length_set _ _ _, ?_⟩
      intro i hi
      exact rd_set_ne _ _ _ _ hi
  · intro hn
    rcases search_header_cases mem request header_name bufEnd alloc_ok with h | ⟨r, name, h⟩
    · rw [h]
      exact ⟨rfl, rfl⟩
    · rw [h] at hn
      unfold search_value at hn
      cases hn
  · intro h
    rw [search_header_not_found mem request header_name bufEnd alloc_ok h]

/-! ## Where `http_server_search_header` writes the terminator -/

/-- A custom field whose value runs to `bufEnd`: the value scan is stopped by
the bound, and the NUL is written at `bufEnd`. -/
theorem search_header_value_to_end (mem : List Char) (p : Nat) (gap key : List Char)
    (spaces : Nat) (v Y : List Char) (bufEnd : Nat)
    (hm : mem.drop p = gap ++ ("X-Custom-".toList ++ (key ++ (':' ::
      (List.replicate spaces ' ' ++ (v ++ Y))))))
    (hgap : ∀ c ∈ gap, c ≠ NUL) (hinf : ¬ "X-Custom-".toList <:+: gap)
    (hkey : ∀ c ∈ key, c ≠ NUL ∧ c ≠ '\n' ∧ c ≠ '\r' ∧ c ≠ ':')
    (hval : ∀ c ∈ v, c ≠ NUL ∧ c ≠ '\n' ∧ c ≠ '\r')
    (hne : v ≠ []) (hhead : v.head? ≠ some ' ')
    (hb : bufEnd = p + gap.length + 9 + key.length + 1 + spaces + v.length) :
    http_server_search_header mem p "X-Custom-".toList bufEnd true =
      { ret := some (p + gap.length + 9 + key.length + 1 + spaces), len := v.length,
        parm_name := some key, next_position := some (bufEnd + 1), nul_at := some bufEnd,
        mem := mem.set bufEnd NUL } := by
  obtain ⟨hP, hX, hPn, hPl⟩ := custom_prefix_facts
  generalize "X-Custom-".toList = P at *
  have hgapn : ∀ c ∈ gap, (c != NUL) = true := fun c hc => by simpa using hgap c hc
  have hs : strstr mem p P = some (p + gap.length) := by
    unfold strstr cstr
    rw [hm, takeWhile_append_of_all _ _ _ hgapn, takeWhile_append_of_all _ _ _ hPn]
    have hinf' : ¬ ('X' :: "-Custom-".toList) <:+: gap := by rw [← hP]; exact hinf
    have := findSub_at_gap 'X' "-Custom-".toList gap
      ((key ++ ':' :: (List.replicate spaces ' ' ++ (v ++ Y))).takeWhile
        (fun c => c != NUL)) hX hinf'
    rw [← hP] at this
    rw [this]
    simp [Nat.add_comm]
  have d1 := drop_of_drop_eq_append _ _ _ _ hm
  have d2 := drop_of_drop_eq_append _ _ _ _ d1
  have d3 := drop_of_drop_eq_append _ _ _ _ d2
  have d4 : mem.drop (p + gap.length + P.length + key.length + 1) =
      List.replicate spaces ' ' ++ (v ++ Y) :=
    drop_of_drop_eq_append _ _ [':'] _ d3
  have d5 := drop_of_drop_eq_append _ _ _ _ d4
  rw [List.length_replicate] at d5
  have hscan1 : scan (fun c => c != NUL && c != '\n' && c != '\r' && c != ':') (some bufEnd)
      (mem.drop (p + gap.length + P.length)) (p + gap.length + P.length) =
      p + gap.length + P.length + key.length := by
    rw [scan_some, d2, takeWhile_stop _ _ _ _ _ (by decide)]
    · rw [Nat.min_eq_left (by omega)]
    · intro c hc
      obtain ⟨a, b, c', d⟩ := hkey c hc
      simp [a, b, c', d]
  have hrd : rd mem (p + gap.length + P.length + key.length) = ':' :=
    rd_of_drop_eq_cons _ _ _ _ d3
  have hname : strncpy (mem.drop (p + gap.length + P.length))
      (p + gap.length + P.length + key.length - (p + gap.length + P.length)) = key := by
    unfold strncpy
    rw [d2, Nat.add_sub_cancel_left, List.take_left]
    apply takeWhile_all
    intro c hc
    simpa using (hkey c hc).1
  have hblank : (List.replicate spaces ' ' ++ (v ++ Y)).takeWhile (fun c => c == ' ') =
      List.replicate spaces ' ' := by
    rw [takeWhile_append_of_all]
    · cases v with
      | nil => exact absurd rfl hne
      | cons a as =>
        have ha : (a == ' ') = false := by
          have : a ≠ ' ' := fun h => hhead (by rw [h]; rfl)
          simpa using this
        simp [List.takeWhile, ha]
    · intro c hc
      rw [List.eq_of_mem_replicate hc]
      rfl
  have hscan2 : scan (fun c => c == ' ') (some bufEnd)
      (mem.drop (p + gap.length + P.length + key.length + 1))
      (p + gap.length + P.length + key.length + 1) =
      p + gap.length + P.length + key.length + 1 + spaces := by
    rw [scan_some, d4, hblank, List.length_replicate]
    rw [Nat.min_eq_left (by omega)]
  have hscan3 : scan (fun c => c != NUL && c != '\n' && c != '\r') (some bufEnd)
      (mem.drop (p + gap.length + P.length + key.length + 1 + spaces))
      (p + gap.length + P.length + key.length + 1 + spaces) = bufEnd := by
    rw [scan_some, d5, takeWhile_append_of_all _ v Y]
    · rw [List.length_append, Nat.min_eq_right (by omega)]
      omega
    · intro c hc
      obtain ⟨a, b, c'⟩ := hval c hc
      simp [a, b, c']
  have hfound : p + gap.length < bufEnd := by omega
  unfold http_server_search_header search_value
  simp only [hs, hfound, if_true, hscan1, hrd, beq_self_eq_true, hname, hscan2, hscan3]
  simp only [hPl]
  have e : bufEnd - (p + gap.length + 9 + key.length + 1 + spaces) = v.length := by omega
  rw [e]

/-- The call `strtok_r(buf, "\n", &save_ptr)` on a buffer that starts with a
non-empty line followed by a line feed. -/
theorem strtok_r_of_line (a : Char) (line rest : List Char)
    (ha : a ≠ '\n' ∧ a ≠ NUL) (hline : ∀ c ∈ line, c ≠ '\n' ∧ c ≠ NUL) :
    strtok_r ((a :: line) ++ '\n' :: rest) =
      ⟨some (a :: line), line.length + 2,
        ((a :: line) ++ '\n' :: rest).set (line.length + 1) NUL, false⟩ := by
  have hstart : ((a :: line) ++ '\n' :: rest).takeWhile (fun c => c == '\n') = [] := by
    have : (a == '\n') = false := by simpa using ha.1
    simp [List.takeWhile, this]
  have htok : ((a :: line) ++ '\n' :: rest).takeWhile (fun c => c != '\n' && c != NUL) =
      a :: line := by
    apply takeWhile_stop _ _ _ _ _ (by decide)
    intro c hc
    rcases List.mem_cons.mp hc with h | h
    · subst h
      simp [ha.1, ha.2]
    · simp [(hline c h).1, (hline c h).2]
  have hrd : rd ((a :: line) ++ '\n' :: rest) (line.length + 1) = '\n' := by
    apply rd_of_drop_eq_cons _ _ _ rest
    simp
  unfold strtok_r
  simp only [hstart, List.length_nil, List.drop_zero, htok, List.isEmpty_cons,
    Bool.false_eq_true, if_false, List.length_cons, Nat.zero_add, hrd, beq_self_eq_true,
    if_true]

/-- C26, the code at failing inputs.  The request
`POST /config.json HTTP/1.1\nX-Custom-a: b` has 40 bytes, and the call of
`http_server_search_header` made for it with `bufEnd = buf + 40` writes the
NUL at index 40, whatever follows the received bytes in memory.  The same
holds for every value that runs to the end of the received bytes.  A request
received as one fragment of 2048 bytes leaves `bufsize = buflen = 2048`, so
for a value of 2009 bytes the NUL is written at `buf[2048]`, one byte past the
allocation.  When the received bytes end inside the name `X-Custom-` and the
memory after them completes it, the NUL is written three bytes past the
received bytes. -/
theorem nul_written_at_buffer_end :
    unterminated_field_request.length = 40 ∧
    request_save_ptr unterminated_field_request [] = 27 ∧
    (http_server_search_header (strtok_r (unterminated_field_request ++ [])).mem
      (request_save_ptr unterminated_field_request []) "X-Custom-".toList
      unterminated_field_request.length (sample_env.name_alloc 0)).nul_at =
        some unterminated_field_request.length ∧
    (http_server_search_header (strtok_r (unterminated_field_request ++ "zz".toList)).mem
      (request_save_ptr unterminated_field_request "zz".toList) "X-Custom-".toList
      unterminated_field_request.length (sample_env.name_alloc 0)).nul_at =
        some unterminated_field_request.length ∧
    http_server_netconn_serve sample_env unterminated_field_request "zz".toList =
      some (sta_ip_calls ++ [Effect.config_set_value "a".toList "b".toList,
        Effect.write http_ok_json_no_cache_hdr, Effect.close]) ∧
    (∀ v tail : List Char, v ≠ [] → v.head? ≠ some ' ' →
      (∀ c ∈ v, c ≠ NUL ∧ c ≠ '\n' ∧ c ≠ '\r') →
      (http_server_search_header (strtok_r ((unterminated_field_head ++ v) ++ tail)).mem
        (request_save_ptr (unterminated_field_head ++ v) tail) "X-Custom-".toList
        (unterminated_field_head ++ v).length true).nul_at =
          some (unterminated_field_head ++ v).length) ∧
    (∀ frag : List Char, frag.length = 2048 →
      recv_loop ⟨[], 0, 0⟩ [frag] = some ⟨frag, 2048, 2048⟩) ∧
    unterminated_field_head.length + 2009 = 2048 ∧
    (http_server_search_header (strtok_r (cut_name_request ++ "om-k: v\n".toList)).mem
      (request_save_ptr cut_name_request "om-k: v\n".toList) "X-Custom-".toList
      cut_name_request.length (sample_env.name_alloc 0)).nul_at =
        some (cut_name_request.length + 3) := by
  refine ⟨by decide, by decide, by decide, by decide, by decide, ?_, ?_, by decide,
    by decide⟩
  · intro v tail hne hhead hval
    have hpre : unterminated_field_head =
        ('P' :: "OST /config.json HTTP/1.1".toList) ++ '\n' :: "X-Custom-a: ".toList := by
      decide
    have hline : ∀ c ∈ "OST /config.json HTTP/1.1".toList, c ≠ '\n' ∧ c ≠ NUL := by decide
    have hmem : (unterminated_field_head ++ v) ++ tail =
        ('P' :: "OST /config.json HTTP/1.1".toList) ++
          '\n' :: ("X-Custom-a: ".toList ++ (v ++ tail)) := by
      rw [hpre]
      simp only [List.append_assoc, List.cons_append]
    have htok := strtok_r_of_line 'P' "OST /config.json HTTP/1.1".toList
      ("X-Custom-a: ".toList ++ (v ++ tail)) (by decide) hline
    have hlen : "OST /config.json HTTP/1.1".toList.length = 25 := by decide
    have hplen : unterminated_field_head.length = 39 := by decide
    unfold request_save_ptr
    rw [hmem, htok]
    simp only [hlen, List.length_append, hplen]
    have hdrop : ((('P' :: "OST /config.json HTTP/1.1".toList) ++
          '\n' :: ("X-Custom-a: ".toList ++ (v ++ tail))).set (25 + 1) NUL).drop (25 + 2) =
        [] ++ ("X-Custom-".toList ++ ("a".toList ++ (':' ::
          (List.replicate 1 ' ' ++ (v ++ tail))))) := by
      rw [List.drop_set_of_lt _ _ (by omega)]
      have := List.drop_left ('P' :: "OST /config.json HTTP/1.1".toList ++ ['\n'])
        ("X-Custom-a: ".toList ++ (v ++ tail))
      have e : ('P' :: "OST /config.json HTTP/1.1".toList ++ ['\n']).length = 25 + 2 := by
        decide
      rw [e] at this
      have e2 : ('P' :: "OST /config.json HTTP/1.1".toList ++ ['\n']) ++
          ("X-Custom-a: ".toList ++ (v ++ tail)) =
          ('P' :: "OST /config.json HTTP/1.1".toList) ++
            '\n' :: ("X-Custom-a: ".toList ++ (v ++ tail)) := by
        simp only [List.append_assoc, List.cons_append, List.singleton_append, List.nil_append]
      rw [e2] at this
      rw [this]
      rfl
    rw [search_header_value_to_end _ (25 + 2) [] "a".toList 1 v tail (39 + v.length) hdrop
      (by simp) (by decide) (by decide) hval hne hhead (by simp)]
  · intro frag hf
    have h1 : recv_bufsize 0 0 2048 = 2048 := by decide
    simp only [recv_loop, recv_append, hf, h1, List.nil_append]
    rw [if_pos (by decide)]

/-! ## The length announced by `http_server_send_resource_file` -/

/-- C27, the code at a failing input.  The header is never cut by `snprintf`,
and for an asset of fewer than 65536 bytes the announced length is the number
of body bytes; but `len` is a `uint16_t` while the body is written with
`end - start` bytes, so for an asset of 65536 bytes the header announces
`Content-Length: 0` and 65536 body bytes follow. -/
theorem content_length_wraps :
    (∀ (env : Env) (asset ct enc : List Char), env.hdr_alloc = true →
      asset.length = 65536 →
      http_server_send_resource_file env asset ct enc =
        [Effect.write (format_hdr ct 0 enc), Effect.write asset]) ∧
    format_hdr "text/css".toList 0 "gzip".toList =
      "HTTP/1.1 200 OK\nContent-type: text/css\nAccept-Ranges: bytes\nContent-Length: 0\nContent-Encoding: gzip\nAccess-Control-Allow-Origin: *\n\n".toList ∧
    (∀ (env : Env) (asset ct enc : List Char), env.hdr_alloc = true →
      http_server_send_resource_file env asset ct enc =
        [Effect.write (format_hdr ct (asset.length % 65536) enc), Effect.write asset]) ∧
    (∀ (env : Env) (asset ct enc : List Char), env.hdr_alloc = true →
      asset.length < 65536 →
      http_server_send_resource_file env asset ct enc =
        [Effect.write (format_hdr ct asset.length enc), Effect.write asset]) := by
  refine ⟨?_, by decide, ?_, ?_⟩
  · intro env asset ct enc h hlen
    rw [send_resource_file_eq env asset ct enc h, hlen]
  · intro env asset ct enc h
    exact send_resource_file_eq env asset ct enc h
  · intro env asset ct enc h hlen
    rw [send_resource_file_eq env asset ct enc h, Nat.mod_eq_of_lt hlen]

/-! ## `strreplace` -/

/-- The shape of `strreplace` at an occurrence: the text before it, the
replacement, and the call on what follows the occurrence; the last terminator
is written at `r[len]`. -/
theorem strreplace_step (fuel : Nat) (src str rep : List Char) (i : Nat)
    (h : findSub src str = some i) :
    strreplace (fuel + 1) src str rep =
      (strreplace fuel (src.drop (i + str.length)) str rep).map fun t =>
        { text := src.take i ++ rep ++ t.text, overrun := true } := by
  obtain ⟨hi, hpre, _⟩ := findSub_some_spec src str i h
  obtain ⟨t, ht⟩ := hpre
  have hlen : i + str.length ≤ src.length := by
    have := congrArg List.length ht
    rw [List.length_append, List.length_drop] at this
    omega
  have htake1 : rep.take rep.length = rep := List.take_length rep
  have htake2 : (src.drop (i + str.length)).take (i + str.length + src.length) =
      src.drop (i + str.length) := by
    apply List.take_of_length_le
    rw [List.length_drop]
    omega
  have hl1 : (src.take i).length = i := by
    rw [List.length_take]
    omega
  have hdrop : (src.take i ++ rep ++ src.drop (i + str.length)).drop (i + rep.length) =
      src.drop (i + str.length) := by
    have := List.drop_left (src.take i ++ rep) (src.drop (i + str.length))
    rw [List.length_append, hl1] at this
    exact this
  have htk : (src.take i ++ rep ++ src.drop (i + str.length)).take (i + rep.length) =
      src.take i ++ rep := by
    have := List.take_left (src.take i ++ rep) (src.drop (i + str.length))
    rw [List.length_append, hl1] at this
    exact this
  have hover : src.length + rep.length - str.length ≤
      (src.take i ++ rep ++ src.drop (i + str.length)).length := by
    rw [List.length_append, List.length_append, hl1, List.length_drop]
    omega
  rw [strreplace]
  simp only [h, htake1, htake2, hdrop, htk, hover, decide_True, Bool.or_true, Bool.true_or]

/-- The function `strreplace` for a non-empty pattern ends within `fuel`
calls when `fuel` exceeds the length of `src`.  The text splits into pieces,
each followed by an occurrence of `str` that is the first one from the start of
the piece, and a last part without occurrence; the result is the pieces each
followed by `rep`, then the last part; and a byte is written outside `r`
exactly when there is an occurrence. -/
theorem strreplace_pieces : ∀ (fuel : Nat) (src str rep : List Char),
    str ≠ [] → src.length < fuel →
    ∃ (pieces : List (List Char)) (last : List Char),
      src = (pieces.map (· ++ str)).flatten ++ last ∧
      (∀ a ∈ pieces, findSub (a ++ str) str = some a.length) ∧
      findSub last str = none ∧
      strreplace fuel src str rep =
        some { text := (pieces.map (· ++ rep)).flatten ++ last,
               overrun := !pieces.isEmpty } := by
  intro fuel
  induction fuel with
  | zero => intro src str rep _ h; omega
  | succ k ih =>
    intro src str rep hstr hf
    cases hfind : findSub src str with
    | none =>
      refine ⟨[], src, rfl, by simp, hfind, ?_⟩
      unfold strreplace
      rw [hfind]
      rfl
    | some i =>
      obtain ⟨hi, hpre, hmin⟩ := findSub_some_spec src str i hfind
      obtain ⟨t, ht⟩ := hpre
      have hsl : 0 < str.length := List.length_pos.mpr hstr
      have hlen : i + str.length ≤ src.length := by
        have := congrArg List.length ht
        rw [List.length_append, List.length_drop] at this
        omega
      have hsplit : src = src.take i ++ str ++ src.drop (i + str.length) := by
        have h1 : src = src.take i ++ src.drop i := (List.take_append_drop i src).symm
        have h2 : src.drop (i + str.length) = t := by
          have : src.drop (i + str.length) = (src.drop i).drop str.length := by
            rw [List.drop_drop, Nat.add_comm]
          rw [this, ← ht, List.drop_left]
        rw [h2, List.append_assoc, ht]
        exact h1
      have hl1 : (src.take i).length = i := by
        rw [List.length_take]
        omega
      have hfirst : findSub (src.take i ++ str) str = some (src.take i).length := by
        apply findSub_first
        · simp
        · rw [List.drop_left]
        · intro j hj hp
          rw [hl1] at hj
          apply hmin j hj
          obtain ⟨u, hu⟩ := hp
          refine ⟨u ++ src.drop (i + str.length), ?_⟩
          rw [← List.append_assoc, hu]
          have hd : src.drop j = (src.take i ++ str).drop j ++ src.drop (i + str.length) := by
            conv_lhs => rw [hsplit]
            rw [List.drop_append_of_le_length]
            rw [List.length_append, hl1]
            omega
          rw [hd]
      obtain ⟨pieces, last, hsrc, hall, hlast, hres⟩ :=
        ih (src.drop (i + str.length)) str rep hstr (by rw [List.length_drop]; omega)
      refine ⟨src.take i :: pieces, last, ?_, ?_, hlast, ?_⟩
      · simp only [List.map_cons, List.flatten_cons, List.append_assoc]
        rw [← hsrc]
        conv_lhs => rw [hsplit]
        simp only [List.append_assoc]
      · intro a ha
        rcases List.mem_cons.mp ha with h | h
        · rw [h]
          exact hfirst
        · exact hall a h
      · rw [strreplace_step k src str rep i hfind, hres]
        simp only [Option.map_some', List.map_cons, List.flatten_cons, List.append_assoc,
          List.isEmpty_cons, Bool.not_false]

/-- C28, the code at failing inputs.  For every `src`, every non-empty `str`
and every `rep`, `strreplace` ends (within `fuel` calls when `fuel` exceeds the
length of `src`), and the text left at `src` is the original text with each
occurrence of `str` found from left to right, the search resuming after the
replacement, replaced by `rep`: `src` splits into pieces each followed by the
first occurrence of `str` from the start of the piece, and a last part without
occurrence, and the result is the pieces each followed by `rep`, then the last
part.  But the array `r` has `len` bytes for a string of `len` characters:
whenever `str` occurs in `src`, the terminator of the last `strncat` is written
at `r[len]`, outside the array. -/
theorem strreplace_overruns_r (src str rep : List Char) (fuel : Nat)
    (hstr : str ≠ []) (hfuel : src.length < fuel) :
    ∃ (pieces : List (List Char)) (last : List Char),
      src = (pieces.map (· ++ str)).flatten ++ last ∧
      (∀ a ∈ pieces, findSub (a ++ str) str = some a.length) ∧
      findSub last str = none ∧
      strreplace fuel src str rep =
        some { text := (pieces.map (· ++ rep)).flatten ++ last,
               overrun := lineHas src str } ∧
      (lineHas src str = false → pieces = [] ∧ last = src) := by
  obtain ⟨pieces, last, hsrc, hall, hlast, hres⟩ := strreplace_pieces fuel src str rep hstr hfuel
  have hocc : lineHas src str = !pieces.isEmpty := by
    cases pieces with
    | nil =>
      simp only [List.map_nil, List.flatten_nil, List.nil_append] at hsrc
      unfold lineHas
      rw [hsrc, hlast]
      rfl
    | cons a ps =>
      simp only [List.isEmpty_cons, Bool.not_false]
      apply lineHas_of_infix
      refine ⟨a, (ps.map (· ++ str)).flatten ++ last, ?_⟩
      rw [hsrc]
      simp only [List.map_cons, List.flatten_cons, List.append_assoc]
  refine ⟨pieces, last, hsrc, hall, hlast, ?_, ?_⟩
  · rw [hres, hocc]
  · intro hno
    rw [hocc] at hno
    cases pieces with
    | nil =>
      simp only [List.map_nil, List.flatten_nil, List.nil_append] at hsrc
      exact ⟨rfl, hsrc.symm⟩
    | cons a ps => simp at hno

theorem strreplace_overruns_r_witness :
    strreplace 6 "a-b-c".toList "-".toList "+".toList =
      some { text := "a+b+c".toList, overrun := true } ∧
    ∃ (pieces : List (List Char)) (last : List Char),
      "a-b-c".toList = (pieces.map (· ++ "-".toList)).flatten ++ last ∧
      (∀ a ∈ pieces, findSub (a ++ "-".toList) "-".toList = some a.length) ∧
      findSub last "-".toList = none ∧
      strreplace 6 "a-b-c".toList "-".toList "+".toList =
        some { text := (pieces.map (· ++ "+".toList)).flatten ++ last,
               overrun := lineHas "a-b-c".toList "-".toList } ∧
      (lineHas "a-b-c".toList "-".toList = false → pieces = [] ∧ last = "a-b-c".toList) :=
  ⟨by decide, strreplace_overruns_r "a-b-c".toList "-".toList "+".toList 6 (by decide)
    (by decide)⟩

end HttpServer

namespace Console

/-! ## `process_autoexec` -/

theorem decimalAux_length_le_fuel : ∀ (fuel n : Nat) (acc : List Char),
    (HttpServer.decimalAux fuel n acc).length ≤ acc.length + fuel := by
  intro fuel
  induction fuel with
  | zero => intro n acc; simp [HttpServer.decimalAux]
  | succ f ih =>
    intro n acc
    unfold HttpServer.decimalAux
    split
    · simp only [List.length_cons]
      omega
    · have := ih (n / 10) (Char.ofNat (48 + n % 10) :: acc)
      simp only [List.length_cons] at this
      omega

/-- An `int` that is not negative prints as at most ten digits. -/
theorem decimal_length_le_ten (n : Nat) (h : n < 2147483648) :
    (HttpServer.decimal n).length ≤ 10 := by
  unfold HttpServer.decimal
  by_cases h10 : 10 ≤ n + 1
  · have := HttpServer.decimalAux_length 9 (n + 1) n [] (by norm_num; omega) h10
    simpa using this
  · have := decimalAux_length_le_fuel (n + 1) n []
    simp only [List.length_nil, Nat.zero_add] at this
    omega

/-- The name of a command is not cut by `snprintf`. -/
theorem autoexec_name_eq (i : Nat) (h : i < 2147483648) :
    autoexec_name i = "autoexec".toList ++ HttpServer.decimal i := by
  unfold autoexec_name
  apply List.take_of_length_le
  have := decimal_length_le_ten i h
  have h8 : "autoexec".toList.length = 8 := by decide
  rw [List.length_append, h8]
  omega

/-- The loop over the stored commands `cmds` of the indices from `i` on. -/
theorem autoexec_loop_spec (env : Env) : ∀ (cmds : List (List Char)) (fuel i : Nat),
    (∀ k, k ≤ cmds.length → env.config_alloc_get (autoexec_name (i + k)) = cmds[k]?) →
    cmds.length < fuel → i + cmds.length < 2147483647 →
    autoexec_loop env fuel i = some (autoexec_calls env.bypass_wifi_manager i cmds) := by
  intro cmds
  induction cmds with
  | nil =>
    intro fuel i hst hf hi
    cases fuel with
    | zero => simp at hf
    | succ f =>
      have h0 := hst 0 (Nat.le_refl _)
      simp only [Nat.add_zero, List.getElem?_nil] at h0
      unfold autoexec_loop
      simp only [List.length_nil, Nat.add_zero] at hi
      rw [if_pos hi]
      simp only [h0, autoexec_calls]
      rw [autoexec_name_eq i (by omega)]
  | cons c cs ih =>
    intro fuel i hst hf hi
    cases fuel with
    | zero => simp at hf
    | succ f =>
      simp only [List.length_cons] at hf hi
      have h0 := hst 0 (Nat.zero_le _)
      simp only [Nat.add_zero, List.getElem?_cons_zero] at h0
      have hrec := ih f (i + 1) (fun k hk => by
        have := hst (k + 1) (by simp only [List.length_cons]; omega)
        simp only [List.getElem?_cons_succ] at this
        rw [← this]
        congr 2
        omega) (by omega) (by omega)
      unfold autoexec_loop
      rw [if_pos (by omega)]
      simp only [h0, hrec, Option.map_some', autoexec_calls]
      rw [autoexec_name_eq i (by omega)]
      cases env.bypass_wifi_manager <;> cases HttpServer.lineHas c "join ".toList <;> rfl

theorem runs_autoexec_calls (b : Bool) : ∀ (cmds : List (List Char)) (i : Nat),
    runs (autoexec_calls b i cmds) =
      cmds.filter fun c => b || !HttpServer.lineHas c "join ".toList := by
  intro cmds
  induction cmds with
  | nil => intro i; rfl
  | cons c cs ih =>
    intro i
    unfold autoexec_calls
    cases hc : (b || !HttpServer.lineHas c "join ".toList)
    · simp only [Bool.false_eq_true, if_false, List.nil_append, runs, ih, List.filter, hc]
    · simp only [if_true, List.filter, hc]
      show c :: runs (autoexec_calls b (i + 1) cs) = _
      rw [ih]

theorem lookups_autoexec_calls (b : Bool) : ∀ (cmds : List (List Char)) (i : Nat),
    lookups (autoexec_calls b i cmds) =
      (List.range (cmds.length + 1)).map fun k =>
        "autoexec".toList ++ HttpServer.decimal (i + k) := by
  intro cmds
  induction cmds with
  | nil => intro i; rfl
  | cons c cs ih =>
    intro i
    unfold autoexec_calls
    have htail : lookups ((if (b || !HttpServer.lineHas c "join ".toList) = true
          then [Call.run_command c] else []) ++ autoexec_calls b (i + 1) cs) =
        lookups (autoexec_calls b (i + 1) cs) := by
      split <;> rfl
    simp only [lookups, htail, ih, List.length_cons]
    rw [List.range_succ_eq_map (cs.length + 1), List.map_cons, List.map_map]
    simp only [Nat.add_zero, List.cons.injEq, true_and]
    apply List.map_congr_left
    intro k _
    simp only [Function.comp]
    congr 2
    omega

/-- C22.  In the build that is not the recovery application, with `cmds` the
stored values of `autoexec1`, `autoexec2`, ... up to the first index without a
stored value, and enough fuel for the loop: when the value `autoexec` is
absent, or is present and `atoi` of it is not 1 as a `uint8_t` (0 for
instance), the only call is the look-up of `autoexec` and no command is run;
when it is 1, the names are looked up in increasing index order and each
command is run right after its look-up, in that order, the look-up of the
first missing index ending the sequence, except that while the wifi manager is
active every command that contains `join ` is skipped, the sequence going
on. -/
theorem process_autoexec_runs (env : Env) (cmds : List (List Char)) (fuel : Nat)
    (hstored : ∀ k, k ≤ cmds.length →
      env.config_alloc_get (autoexec_name (1 + k)) = cmds[k]?)
    (hfuel : cmds.length < fuel) (hsmall : 1 + cmds.length < 2147483647) :
    (env.config_alloc_get "autoexec".toList = none →
      process_autoexec env fuel = some [Call.config_alloc_get "autoexec".toList]) ∧
    (∀ flag, env.config_alloc_get "autoexec".toList = some flag →
      (atoi flag % 256).toNat ≠ 1 →
      process_autoexec env fuel = some [Call.config_alloc_get "autoexec".toList]) ∧
    (∀ flag, env.config_alloc_get "autoexec".toList = some flag →
      (atoi flag % 256).toNat = 1 →
      process_autoexec env fuel =
        some (Call.config_alloc_get "autoexec".toList ::
          autoexec_calls env.bypass_wifi_manager 1 cmds) ∧
      (process_autoexec env fuel).map runs =
        some (cmds.filter fun c =>
          env.bypass_wifi_manager || !HttpServer.lineHas c "join ".toList) ∧
      (process_autoexec env fuel).map lookups =
        some ("autoexec".toList :: (List.range (cmds.length + 1)).map fun k =>
          "autoexec".toList ++ HttpServer.decimal (1 + k))) ∧
    atoi "0".toList = 0 ∧ atoi "1".toList = 1 := by
  refine ⟨?_, ?_, ?_, by decide, by decide⟩
  · intro h
    unfold process_autoexec
    rw [h]
  · intro flag h hne
    unfold process_autoexec
    rw [h]
    simp only [hne, if_false]
  · intro flag h h1
    have hp : process_autoexec env fuel =
        some (Call.config_alloc_get "autoexec".toList ::
          autoexec_calls env.bypass_wifi_manager 1 cmds) := by
      unfold process_autoexec
      rw [h]
      simp only [h1, if_true]
      rw [autoexec_loop_spec env cmds fuel 1 hstored hfuel hsmall]
      rfl
    refine ⟨hp, ?_, ?_⟩
    · rw [hp]
      simp only [Option.map_some', runs, runs_autoexec_calls]
    · rw [hp]
      simp only [Option.map_some', lookups, lookups_autoexec_calls]

theorem process_autoexec_runs_witness :
    process_autoexec sample_store 4 =
      some [Call.config_alloc_get "autoexec".toList,
        Call.config_alloc_get "autoexec1".toList, Call.run_command "squeezelite -o I2S".toList,
        Call.config_alloc_get "autoexec2".toList,
        Call.config_alloc_get "autoexec3".toList, Call.run_command "free".toList,
        Call.config_alloc_get "autoexec4".toList] ∧
    (process_autoexec sample_store 4).map runs =
      some (sample_commands.filter fun c =>
        sample_store.bypass_wifi_manager || !HttpServer.lineHas c "join ".toList) :=
  ⟨by decide, ((process_autoexec_runs sample_store sample_commands 4 (by decide) (by decide)
    (by decide)).2.2.1 "1".toList (by decide) (by decide)).2.1⟩

end Console

